import Mathlib

/-!
Verification of the geometric constraint kernel of the `geometry-solver`
repository (TypeScript sources: `state.ts`, `types.ts`, `solver.ts`,
`expression.ts`, and the intersection pass).

Shallow embedding conventions:

* JavaScript numbers are modelled as exact rationals (`ℚ`).  Transcendental
  operations on IEEE doubles (`Math.sqrt`, `Math.atan2`, `Math.pow` with a
  non-integer exponent, `Math.PI`) have no exact rational counterpart; they
  are modelled by fixed, total, computable rational functions declared below.
  Every theorem in this file depends only on properties these models share
  with the real operations (determinism, totality, and the exactly
  representable special cases documented at each definition).
* JavaScript `Map`s are modelled as lists of records carrying their own key;
  `Map.get` is `List.find?`, `Map.set` with a fresh key appends (preserving
  the insertion iteration order of JS maps), record mutation updates the
  first record with the given key, `Map.delete` filters.
* `null`/`undefined`-able fields are `Option`s; JS truthiness tests on them
  are modelled by the `jsTruthy…` helpers.
* Exceptions that are caught at the public API boundary are modelled by
  `Option` results.
-/

/-- Identifier of an entity.  The source uses strings `id_N` produced by a
monotonic counter; we model the counter value `N` directly. -/
abbrev ID := Nat

/-- Deterministic, total model of `Math.sqrt` on rationals.  It is exact on
squares of naturals; no theorem below depends on its value other than through
determinism. -/
def sqrtQ (q : ℚ) : ℚ :=
  if q ≤ 0 then 0 else (Nat.sqrt q.num.toNat : ℚ) / (Nat.sqrt q.den : ℚ)

/-- Deterministic model of `Math.atan2(-(dy), dx) * 180 / Math.PI`, the
degree angle in math convention used by `getSegmentAngle` and the `ANGLE`
residual.  It is exact on the four axis directions (the only inputs at which
the IEEE computation is exactly representable and which any theorem below
evaluates); elsewhere it returns a fixed placeholder value inside the correct
quadrant ordering is not needed by any claim. -/
def atan2DegQ (y x : ℚ) : ℚ :=
  if y = 0 then (if 0 ≤ x then 0 else 180)
  else if x = 0 then (if 0 < y then 90 else -90)
  else if 0 < y then 45 else -45

/-- Rational stand-in for `Math.PI`, used only inside the modelled radian
arithmetic of the arc residual (whose exact values no claim depends on). -/
def piQ : ℚ := 3141592653589793 / 1000000000000000

/-- Model of the JS remainder operator `%` on numbers (truncated division
remainder, sign of the dividend). -/
def jsMod (a b : ℚ) : ℚ :=
  if b = 0 then 0 else a - b * ((a / b).floor + (if (a / b) < 0 ∧ (a / b).floor < a / b then 1 else 0))

/-- Deterministic model of `Math.atan2(dy, dx)` (radians), used by the arc
residual.  No claim depends on its value. -/
def atan2RadQ (y x : ℚ) : ℚ := atan2DegQ (-y) x * piQ / 180

/-- Model of `Math.pow`.  Exact for integer exponents (where IEEE `pow` is
exact within double range, which covers every claim that evaluates it);
non-integer exponents — irrational or NaN results in the source — are mapped
to a fixed placeholder on which no claim depends. -/
def powQ (b e : ℚ) : ℚ :=
  if e.den = 1 then
    (if 0 ≤ e.num then b ^ e.num.toNat
     else if b = 0 then 0 else (b ^ (-e.num).toNat)⁻¹)
  else 0

/-- JS truthiness of an optional number field (`undefined`, `null` and `0`
are falsy). -/
def jsTruthyNum (o : Option ℚ) : Bool :=
  match o with
  | none => false
  | some q => q ≠ 0

/-- JS truthiness of an optional id field (ids are the nonempty strings
`id_N`, hence truthy whenever present). -/
def jsTruthyId (o : Option ID) : Bool := o.isSome

/-- JS truthiness of an optional string field (the empty string is falsy). -/
def jsTruthyStr (o : Option String) : Bool :=
  match o with
  | none => false
  | some s => s ≠ ""

-- ============ EXPRESSION LANGUAGE (expression.ts) ============

/-- Token kinds of the expression lexer (`TokenType` in the source; the
`EOF` sentinel is modelled by the end of the token list). -/
inductive Token where
  | NUMBER (value : String)
  | VARIABLE (value : String)
  | OPERATOR (value : Char)
  | LPAREN
  | RPAREN
deriving DecidableEq

/-- Character class of the lexer's number scanner: `/[0-9.]/`. -/
def isNumChar (c : Char) : Bool := c.isDigit || c = '.'

/-- Character class starting an identifier: `/[a-zA-Z_]/`. -/
def isIdentStart (c : Char) : Bool := c.isAlpha || c = '_'

/-- Character class continuing an identifier: `/[a-zA-Z0-9_]/`. -/
def isIdentChar (c : Char) : Bool := c.isAlphanum || c = '_'

/-- Whitespace test `/\s/`. -/
def isWs (c : Char) : Bool := c.isWhitespace

/-- An identifier's first character is also an identifier character (a fact
used by the lexer's termination argument). -/
def identStart_identChar {c : Char} (h : isIdentStart c = true) : isIdentChar c = true := by
  simp only [isIdentStart, isIdentChar, Char.isAlphanum, Bool.or_eq_true] at *
  tauto

/-- `tokenize` from `expression.ts`.  Scans the character list; `none`
models the thrown `Unexpected character` lex error (caught by the public
API). -/
def tokenize : List Char → Option (List Token)
  | [] => some []
  | c :: cs =>
    if isWs c then tokenize cs
    else if isNumChar c then
      (tokenize ((c :: cs).dropWhile isNumChar)).map
        (fun ts => Token.NUMBER (String.mk ((c :: cs).takeWhile isNumChar)) :: ts)
    else if isIdentStart c then
      (tokenize ((c :: cs).dropWhile isIdentChar)).map
        (fun ts => Token.VARIABLE (String.mk ((c :: cs).takeWhile isIdentChar)) :: ts)
    else if c = '+' ∨ c = '-' ∨ c = '*' ∨ c = '/' ∨ c = '^' then
      (tokenize cs).map (fun ts => Token.OPERATOR c :: ts)
    else if c = '(' then (tokenize cs).map (fun ts => Token.LPAREN :: ts)
    else if c = ')' then (tokenize cs).map (fun ts => Token.RPAREN :: ts)
    else none
termination_by cs => cs.length
decreasing_by
  all_goals simp_all [List.dropWhile, identStart_identChar]
  all_goals exact Nat.lt_succ_of_le ((List.dropWhile_suffix _).length_le)

/-- Value of a digit character. -/
def digitVal (c : Char) : Nat := c.toNat - 48

/-- Natural number denoted by a digit list. -/
def digitsToNat (ds : List Char) : Nat := ds.foldl (fun acc c => acc * 10 + digitVal c) 0

/-- Model of JS `parseFloat` restricted to the lexer's `[0-9.]+` number
tokens: an integer part, an optional `.` and fraction part, ignoring
anything from a second `.` on.  A token consisting only of dots gives `NaN`
in the source; as no claim evaluates such a token, it is modelled by `0`. -/
def parseFloatQ (s : String) : ℚ :=
  let cs := s.toList
  let intPart := cs.takeWhile Char.isDigit
  let rest := cs.dropWhile Char.isDigit
  match rest with
  | '.' :: rs =>
    let frac := rs.takeWhile Char.isDigit
    (digitsToNat intPart : ℚ) + (digitsToNat frac : ℚ) / ((10 : ℚ) ^ frac.length)
  | _ => (digitsToNat intPart : ℚ)

/-- Expression AST (`ASTNode` in the source). -/
inductive AST where
  | number (value : ℚ)
  | variable (name : String)
  | binary (op : Char) (left right : AST)
deriving DecidableEq

/-- Result of a sub-parser: the parsed node plus the strictly shorter
remaining token list (every grammar production consumes at least one
token). -/
def ParseOut (n : Nat) := Option (AST × { r : List Token // r.length < n })

/-- Result of a trailing-operator loop: the node plus a not-longer remaining
token list. -/
def LoopOut (n : Nat) := Option (AST × { r : List Token // r.length ≤ n })

mutual

/-- `parseAddExpr` of the recursive-descent `Parser` class. -/
def parseAdd (ts : List Token) : ParseOut ts.length :=
  match parseMul ts with
  | none => none
  | some (l, ⟨ts1, h1⟩) =>
    match parseAddLoop l ts1 with
    | none => none
    | some (n, ⟨r, hr⟩) => some (n, ⟨r, lt_of_le_of_lt hr h1⟩)
termination_by (ts.length, 8)

/-- The `while` loop of `parseAddExpr` consuming `('+'|'-') mulExpr` tails. -/
def parseAddLoop (left : AST) (ts : List Token) : LoopOut ts.length :=
  match ts with
  | Token.OPERATOR c :: rest =>
    if c = '+' ∨ c = '-' then
      match parseMul rest with
      | none => none
      | some (rhs, ⟨ts2, h2⟩) =>
        match parseAddLoop (AST.binary c left rhs) ts2 with
        | none => none
        | some (n, ⟨r, hr⟩) =>
          some (n, ⟨r, by simp only [List.length_cons]; omega⟩)
    else some (left, ⟨Token.OPERATOR c :: rest, le_refl _⟩)
  | other => some (left, ⟨other, le_refl _⟩)
termination_by (ts.length, 7)

/-- `parseMulExpr`. -/
def parseMul (ts : List Token) : ParseOut ts.length :=
  match parsePow ts with
  | none => none
  | some (l, ⟨ts1, h1⟩) =>
    match parseMulLoop l ts1 with
    | none => none
    | some (n, ⟨r, hr⟩) => some (n, ⟨r, lt_of_le_of_lt hr h1⟩)
termination_by (ts.length, 6)

/-- The `while` loop of `parseMulExpr` consuming `('*'|'/') powExpr` tails. -/
def parseMulLoop (left : AST) (ts : List Token) : LoopOut ts.length :=
  match ts with
  | Token.OPERATOR c :: rest =>
    if c = '*' ∨ c = '/' then
      match parsePow rest with
      | none => none
      | some (rhs, ⟨ts2, h2⟩) =>
        match parseMulLoop (AST.binary c left rhs) ts2 with
        | none => none
        | some (n, ⟨r, hr⟩) =>
          some (n, ⟨r, by simp only [List.length_cons]; omega⟩)
    else some (left, ⟨Token.OPERATOR c :: rest, le_refl _⟩)
  | other => some (left, ⟨other, le_refl _⟩)
termination_by (ts.length, 5)

/-- `parsePowExpr` (right-associative `^`). -/
def parsePow (ts : List Token) : ParseOut ts.length :=
  match parsePrimary ts with
  | none => none
  | some (base, ⟨Token.OPERATOR c :: rest, h1⟩) =>
    if c = '^' then
      match parsePow rest with
      | none => none
      | some (e, ⟨r, hr⟩) =>
        some (AST.binary '^' base e,
          ⟨r, by simp only [List.length_cons] at h1; omega⟩)
    else some (base, ⟨Token.OPERATOR c :: rest, h1⟩)
  | some (base, ⟨ts1, h1⟩) => some (base, ⟨ts1, h1⟩)
termination_by (ts.length, 4)
decreasing_by
  all_goals first
    | exact Prod.Lex.right _ (by omega)
    | exact Prod.Lex.left _ _ (by simp only [List.length_cons] at *; omega)

/-- `parsePrimary`: `NUMBER | VARIABLE | '(' expr ')'`. -/
def parsePrimary (ts : List Token) : ParseOut ts.length :=
  match ts with
  | Token.NUMBER v :: rest => some (AST.number (parseFloatQ v), ⟨rest, Nat.lt_succ_self _⟩)
  | Token.VARIABLE v :: rest => some (AST.variable v, ⟨rest, Nat.lt_succ_self _⟩)
  | Token.LPAREN :: rest =>
    match parseAdd rest with
    | none => none
    | some (e, ⟨Token.RPAREN :: r2, h1⟩) =>
      some (e, ⟨r2, by simp only [List.length_cons] at h1 ⊢; omega⟩)
    | some _ => none
  | _ => none
termination_by (ts.length, 2)

end

/-- `Parser.parse`: parse a full expression and require `EOF` afterwards. -/
def parseTokens (ts : List Token) : Option AST :=
  match parseAdd ts with
  | some (n, ⟨[], _⟩) => some n
  | _ => none

/-- `Variable` record from `types.ts`: `value` is nullable (the evaluator
checks `v.value === null`). -/
structure Variable where
  name : String
  value : Option ℚ
  isDetermined : Bool
deriving DecidableEq

/-- Variables map (`Map<string, Variable>` keyed by name). -/
abbrev VarMap := List Variable

/-- `Map.get` on the variables map. -/
def findVar (vs : VarMap) (n : String) : Option Variable := vs.find? (fun v => v.name = n)

/-- `evaluateAST` from `expression.ts`. -/
def evaluateAST (vars : VarMap) : AST → Option ℚ
  | AST.number v => some v
  | AST.variable n =>
    match findVar vars n with
    | none => none
    | some v =>
      match v.value with
      | none => none
      | some q => some q
  | AST.binary op l r =>
    match evaluateAST vars l, evaluateAST vars r with
    | some lv, some rv =>
      if op = '+' then some (lv + rv)
      else if op = '-' then some (lv - rv)
      else if op = '*' then some (lv * rv)
      else if op = '/' then (if rv ≠ 0 then some (lv / rv) else none)
      else if op = '^' then some (powQ lv rv)
      else none
    | _, _ => none

/-- Argument of `evaluateExpression`, which accepts `string | number`. -/
inductive ExprInput where
  | str (s : String)
  | num (q : ℚ)
deriving DecidableEq

/-- `evaluateExpression` from `expression.ts`: numeric literals
short-circuit; lex/parse errors are caught and folded into `null`
(`none`). -/
def evaluateExpression (e : ExprInput) (vars : VarMap) : Option ℚ :=
  match e with
  | ExprInput.num q => some q
  | ExprInput.str s =>
    match tokenize s.toList with
    | none => none
    | some ts =>
      match parseTokens ts with
      | none => none
      | some ast => evaluateAST vars ast

-- ============ DATA MODEL (types.ts) ============

/-- `SegmentType` from `types.ts`. -/
inductive SegmentType where
  | TWO_POINTS
  | ABS_ANGLE
  | REL_ANGLE
deriving DecidableEq

/-- `CircleType` from `types.ts`. -/
inductive CircleType where
  | RADIUS
  | THREE_POINTS
deriving DecidableEq

/-- `ConstraintType` from `types.ts`. -/
inductive ConstraintType where
  | DISTANCE
  | POINT_ON_SEGMENT
  | POINT_ON_CIRCLE
  | POINT_ON_ARC
  | ANGLE
  | EQUATION
deriving DecidableEq

/-- `Point` from `types.ts`.  `label` holds the value of the monotonic label
counter at creation (the source renders it as the string `A, B, …, Z, A1,
…`; no claim depends on the rendering). -/
structure Point where
  id : ID
  x : ℚ
  y : ℚ
  label : Nat
  childrenIds : List ID
  isFloating : Bool
deriving DecidableEq

/-- `Segment` from `types.ts`. -/
structure Segment where
  id : ID
  p1 : ID
  p2 : ID
  type : SegmentType
  length : Option ℚ
  angle : Option ℚ
  refSegmentId : Option ID
  childrenIds : List ID
deriving DecidableEq

/-- `Circle` from `types.ts` (named `GCircle` because `Circle` is taken by
Mathlib). -/
structure GCircle where
  id : ID
  type : CircleType
  centerId : Option ID
  radius : Option ℚ
  pointIds : List ID
  childrenIds : List ID
deriving DecidableEq

/-- `Arc` from `types.ts`. -/
structure Arc where
  id : ID
  circleId : ID
  startId : ID
  endId : ID
  childrenIds : List ID
deriving DecidableEq

/-- `Constraint` from `types.ts`. -/
structure Constraint where
  id : ID
  type : ConstraintType
  pointIds : List ID
  targetId : Option ID
  expression : Option String
deriving DecidableEq

/-- `GeometryState` from `types.ts`.  The UI-facing fields (`selectedIds`,
`activeTool`, `measureHistory`, `zoom`, `offset`), which no claim references
and which the kernel operations modelled here never read, are omitted.  The
source draws ids and labels from module-global monotonic counters
(`idCounter`, `labelCounter`); they are carried in the state here
(`nextId` = value of the next id to be allocated). -/
structure GeometryState where
  points : List Point
  segments : List Segment
  circles : List GCircle
  arcs : List Arc
  vars : List Variable
  constraints : List Constraint
  nextId : Nat
  labelCounter : Nat
deriving DecidableEq

/-- `Map.get` on `state.points`. -/
def findPoint (st : GeometryState) (id : ID) : Option Point :=
  st.points.find? (fun p => p.id = id)

/-- `Map.get` on `state.segments`. -/
def findSegment (st : GeometryState) (id : ID) : Option Segment :=
  st.segments.find? (fun s => s.id = id)

/-- `Map.get` on `state.circles`. -/
def findCircle (st : GeometryState) (id : ID) : Option GCircle :=
  st.circles.find? (fun c => c.id = id)

/-- `Map.get` on `state.arcs`. -/
def findArc (st : GeometryState) (id : ID) : Option Arc :=
  st.arcs.find? (fun a => a.id = id)

/-- Mutation of the first (in a JS `Map`: the unique) point record with the
given id, as performed by `points.get(id)` followed by a field
assignment. -/
def updatePoint : List Point → ID → (Point → Point) → List Point
  | [], _, _ => []
  | p :: ps, id, f => if p.id = id then f p :: ps else p :: updatePoint ps id f

/-- Mutation of the first variable record with the given name. -/
def updateVar : List Variable → String → (Variable → Variable) → List Variable
  | [], _, _ => []
  | v :: vs, n, f => if v.name = n then f v :: vs else v :: updateVar vs n f

/-- `pt.childrenIds.push(childId)` applied to the point `parentId`. -/
def pushChild (ps : List Point) (parentId childId : ID) : List Point :=
  updatePoint ps parentId (fun p => { p with childrenIds := p.childrenIds ++ [childId] })

-- ============ ENTITY STORE & CONSTRUCTORS (state.ts) ============

/-- `addPoint` from `state.ts`: allocate an id and a label, insert the
point, return it. -/
def addPoint (st : GeometryState) (x y : ℚ) : GeometryState × Point :=
  let p : Point :=
    { id := st.nextId, x := x, y := y, label := st.labelCounter,
      childrenIds := [], isFloating := false }
  ({ st with points := st.points ++ [p], nextId := st.nextId + 1,
             labelCounter := st.labelCounter + 1 }, p)

/-- `addSegmentTwoPoints` from `state.ts`.  Note: the source checks only
that both endpoints resolve; there is no `p1Id == p2Id` test. -/
def addSegmentTwoPoints (st : GeometryState) (p1Id p2Id : ID) :
    Option (GeometryState × Segment) :=
  match findPoint st p1Id, findPoint st p2Id with
  | some _, some _ =>
    let id := st.nextId
    let seg : Segment :=
      { id := id, p1 := p1Id, p2 := p2Id, type := SegmentType.TWO_POINTS,
        length := none, angle := none, refSegmentId := none, childrenIds := [] }
    let st1 := { st with segments := st.segments ++ [seg], nextId := st.nextId + 1 }
    let st2 := { st1 with points := pushChild st1.points p1Id id }
    let st3 := { st2 with points := pushChild st2.points p2Id id }
    some (st3, seg)
  | _, _ => none

/-- `addCircleRadius` from `state.ts`. -/
def addCircleRadius (st : GeometryState) (centerId : ID) (radius : ℚ) :
    Option (GeometryState × GCircle) :=
  match findPoint st centerId with
  | some _ =>
    let id := st.nextId
    let circle : GCircle :=
      { id := id, type := CircleType.RADIUS, centerId := some centerId,
        radius := some radius, pointIds := [], childrenIds := [] }
    let st1 := { st with circles := st.circles ++ [circle], nextId := st.nextId + 1 }
    let st2 := { st1 with points := pushChild st1.points centerId id }
    some (st2, circle)
  | none => none

/-- `calculateCircumcircle` from `state.ts`.  In exact rational arithmetic
the `NaN` results arise exactly when `|d| < 1e-10` (the guarded early
return); this is modelled by `none`.  The radius uses the `Math.sqrt`
model. -/
def calculateCircumcircle (p1 p2 p3 : Point) : Option (ℚ × ℚ × ℚ) :=
  let ax := p1.x; let ay := p1.y
  let bx := p2.x; let by2 := p2.y
  let cx := p3.x; let cy := p3.y
  let d := 2 * (ax * (by2 - cy) + bx * (cy - ay) + cx * (ay - by2))
  if |d| < 1 / 10000000000 then none
  else
    let ux := ((ax * ax + ay * ay) * (by2 - cy) + (bx * bx + by2 * by2) * (cy - ay)
               + (cx * cx + cy * cy) * (ay - by2)) / d
    let uy := ((ax * ax + ay * ay) * (cx - bx) + (bx * bx + by2 * by2) * (ax - cx)
               + (cx * cx + cy * cy) * (bx - ax)) / d
    let r := sqrtQ ((ax - ux) ^ 2 + (ay - uy) ^ 2)
    some (ux, uy, r)

/-- `addCircleThreePoints`, from the current `state.ts` (the variant that
also contains the intersection pass, which `App.tsx` imports from
`./state`): on success it materializes the circumcenter as a new point,
stores the circle with `centerId` pointing at it, and records the circle as
a child of the three defining points and of the center point.  (A stale
duplicate of `state.ts` in the repository lacks the center-point creation;
the variant embedded here is the one the application compiles against and
the one the spec describes.) -/
def addCircleThreePoints (st : GeometryState) (p1Id p2Id p3Id : ID) :
    Option (GeometryState × GCircle × Point) :=
  match findPoint st p1Id, findPoint st p2Id, findPoint st p3Id with
  | some p1, some p2, some p3 =>
    match calculateCircumcircle p1 p2 p3 with
    | none => none
    | some (cx, cy, r) =>
      let (st1, centerPoint) := addPoint st cx cy
      let id := st1.nextId
      let circle : GCircle :=
        { id := id, type := CircleType.THREE_POINTS, centerId := some centerPoint.id,
          radius := some r, pointIds := [p1Id, p2Id, p3Id], childrenIds := [] }
      let st2 := { st1 with circles := st1.circles ++ [circle], nextId := st1.nextId + 1 }
      let st3 := { st2 with points := pushChild st2.points p1Id id }
      let st4 := { st3 with points := pushChild st3.points p2Id id }
      let st5 := { st4 with points := pushChild st4.points p3Id id }
      let st6 := { st5 with points := pushChild st5.points centerPoint.id id }
      some (st6, circle, centerPoint)
  | _, _, _ => none

-- ============ CASCADING DELETE (state.ts) ============

/-- `removeFromParentChildren` from `state.ts`: drop `childId` from the
`childrenIds` of the *point* `parentId` (a lookup in `state.points` only). -/
def dropChild (ps : List Point) (parentId childId : ID) : List Point :=
  updatePoint ps parentId (fun p => { p with childrenIds := p.childrenIds.filter (fun c => c ≠ childId) })

/-- The removal performed on the located parent point. -/
def removeFromParentChildren (st : GeometryState) (parentId childId : ID) : GeometryState :=
  { st with points := dropChild st.points parentId childId }

/-- `deleteEntity` from `state.ts`, with explicit fuel for the recursion
over `childrenIds` (the JS recursion; the fuel chosen by the `deleteEntity`
wrapper below dominates the recursion depth of every store the theorems
quantify over).  Dispatch order follows the source: points, then segments,
then circles; arcs, variables and constraints are never touched. -/
def deleteEntityFuel : Nat → GeometryState → ID → GeometryState
  | 0, st, _ => st
  | fuel + 1, st, id =>
    match findPoint st id with
    | some point =>
      let st1 := point.childrenIds.foldl (fun s c => deleteEntityFuel fuel s c) st
      { st1 with points := st1.points.filter (fun p => p.id ≠ id) }
    | none =>
      match findSegment st id with
      | some segment =>
        let st1 := segment.childrenIds.foldl (fun s c => deleteEntityFuel fuel s c) st
        let st2 := removeFromParentChildren st1 segment.p1 id
        let st3 := removeFromParentChildren st2 segment.p2 id
        { st3 with segments := st3.segments.filter (fun s => s.id ≠ id) }
      | none =>
        match findCircle st id with
        | some circ =>
          let st1 := circ.childrenIds.foldl (fun s c => deleteEntityFuel fuel s c) st
          let st2 :=
            match circ.centerId with
            | some cid => removeFromParentChildren st1 cid id
            | none => st1
          let st3 := circ.pointIds.foldl (fun s pId => removeFromParentChildren s pId id) st2
          { st3 with circles := st3.circles.filter (fun c => c.id ≠ id) }
        | none => st

/-- `deleteEntity` from `state.ts`: the fuel bound covers any recursion the
entity graph of a store can exhibit (children are strictly younger than
their parents, so chains are shorter than the store size). -/
def deleteEntity (st : GeometryState) (id : ID) : GeometryState :=
  deleteEntityFuel
    (st.points.length + st.segments.length + st.circles.length + st.arcs.length + 1) st id

-- ============ SOLVER (solver.ts) ============

/-- `MAX_ITERATIONS`. -/
def MAX_ITERATIONS : Nat := 100

/-- The source's `CONVERGENCE_THRESHOLD = 1e-4` is compared against the
`sqrt`-based residual norm; the embedding recodes norms by their squares
(see `vecNormSq`), so the threshold is squared too. -/
def CONV_SQ : ℚ := 1 / 100000000

/-- `LAMBDA_INITIAL`. -/
def LAMBDA_INITIAL : ℚ := 1 / 100

/-- `LAMBDA_UP`. -/
def LAMBDA_UP : ℚ := 10

/-- `LAMBDA_DOWN`. -/
def LAMBDA_DOWN : ℚ := 1 / 10

/-- `NUMERICAL_EPSILON`. -/
def NUMERICAL_EPSILON : ℚ := 1 / 1000000

/-- `SINGULARITY_EPSILON`. -/
def SINGULARITY_EPSILON : ℚ := 1 / 1000000

/-- Which coordinate a solver parameter addresses (`'x' | 'y'`). -/
inductive Coord where
  | cx
  | cy
deriving DecidableEq

/-- One `pointCoords` entry of `SolverParams`. -/
structure PCEntry where
  pointId : ID
  coord : Coord
  value : ℚ
deriving DecidableEq

/-- One `variableValues` entry of `SolverParams`. -/
structure VVEntry where
  name : String
  value : ℚ
deriving DecidableEq

/-- `SolverParams` from `solver.ts`. -/
structure SolverParams where
  pointCoords : List PCEntry
  variableValues : List VVEntry
deriving DecidableEq

/-- `extractFreeParams`: two entries (`x` then `y`) per floating point in
store order, then one entry per determined variable.  (A determined
variable whose `value` is `null` would be coerced to `0` by the JS vector
arithmetic; `getD 0` models that coercion.) -/
def extractFreeParams (st : GeometryState) : SolverParams :=
  { pointCoords :=
      (st.points.filter (fun p => p.isFloating)).flatMap
        (fun p => [⟨p.id, Coord.cx, p.x⟩, ⟨p.id, Coord.cy, p.y⟩]),
    variableValues :=
      (st.vars.filter (fun v => v.isDetermined)).map
        (fun v => ⟨v.name, v.value.getD 0⟩) }

/-- Write one `pointCoords` entry into the points container. -/
def applyPC (ps : List Point) (e : PCEntry) : List Point :=
  updatePoint ps e.pointId
    (fun p => match e.coord with
      | Coord.cx => { p with x := e.value }
      | Coord.cy => { p with y := e.value })

/-- Write one `variableValues` entry into the variables container. -/
def applyVV (vs : List Variable) (e : VVEntry) : List Variable :=
  updateVar vs e.name (fun v => { v with value := some e.value })

/-- `applyParams` from `solver.ts`: write every entry back into the store;
entries whose point or variable is missing are ignored (the `updatePoint`
and `updateVar` helpers are no-ops then). -/
def applyParams (st : GeometryState) (params : SolverParams) : GeometryState :=
  { st with points := params.pointCoords.foldl applyPC st.points,
            vars := params.variableValues.foldl applyVV st.vars }

/-- `flattenParams`. -/
def flattenParams (params : SolverParams) : List ℚ :=
  params.pointCoords.map (fun p => p.value) ++ params.variableValues.map (fun v => v.value)

/-- `unflattenParams` (out-of-range indices read as JS `undefined`; they
never occur in the solver's use, `getD 0` keeps the function total). -/
def unflattenParams (flat : List ℚ) (template : SolverParams) : SolverParams :=
  { pointCoords := template.pointCoords.mapIdx (fun i p => { p with value := flat.getD i 0 }),
    variableValues := template.variableValues.mapIdx
      (fun i v => { v with value := flat.getD (template.pointCoords.length + i) 0 }) }

/-- `getCircleCenterRadius` from `solver.ts`: `RADIUS` circles need a truthy
`centerId` and a truthy (present *and nonzero*) `radius`; `THREE_POINTS`
circles recompute the circumcircle from their three defining points (the
source duplicates the `calculateCircumcircle` formula verbatim, including
the `|d| < 1e-10` collinearity guard, so the embedding reuses it). -/
def getCircleCenterRadius (st : GeometryState) (circleId : ID) : Option (ℚ × ℚ × ℚ) :=
  match findCircle st circleId with
  | none => none
  | some circ =>
    if circ.type = CircleType.RADIUS ∧ jsTruthyId circ.centerId ∧ jsTruthyNum circ.radius then
      match circ.centerId, circ.radius with
      | some cid, some r =>
        (match findPoint st cid with
         | none => none
         | some center => some (center.x, center.y, r))
      | _, _ => none
    else if circ.type = CircleType.THREE_POINTS ∧ circ.pointIds.length = 3 then
      match circ.pointIds with
      | [i1, i2, i3] =>
        (match findPoint st i1, findPoint st i2, findPoint st i3 with
         | some p1, some p2, some p3 => calculateCircumcircle p1 p2 p3
         | _, _, _ => none)
      | _ => none
    else none

/-- `pointToSegmentDistance` from `solver.ts`. -/
def pointToSegmentDistance (px py x1 y1 x2 y2 : ℚ) : ℚ :=
  let dx := x2 - x1
  let dy := y2 - y1
  let lenSq := dx * dx + dy * dy
  if lenSq < SINGULARITY_EPSILON then sqrtQ ((px - x1) ^ 2 + (py - y1) ^ 2)
  else
    let t := max 0 (min 1 (((px - x1) * dx + (py - y1) * dy) / lenSq))
    sqrtQ ((px - (x1 + t * dx)) ^ 2 + (py - (y1 + t * dy)) ^ 2)

/-- The `normalize` closure of `isAngleInArcRange` and the arc residual:
`((a % 2π) + 2π) % 2π` (with the rational `Math.PI` model). -/
def normalizeAngleQ (a : ℚ) : ℚ :=
  jsMod (jsMod a (2 * piQ) + 2 * piQ) (2 * piQ)

/-- `isAngleInArcRange` from `solver.ts`. -/
def isAngleInArcRange (angle startAngle endAngle : ℚ) : Bool :=
  let a := normalizeAngleQ angle
  let s := normalizeAngleQ startAngle
  let e := normalizeAngleQ endAngle
  if s ≤ e then decide (s ≤ a ∧ a ≤ e) else decide (s ≤ a ∨ a ≤ e)

/-- The first wrap loop of the `ANGLE` residual: `while (diff > 180) diff -=
360`. -/
def wrapDown (d : ℚ) : ℚ :=
  if h : 180 < d then wrapDown (d - 360) else d
termination_by (⌈(d - 180) / 360⌉).toNat
decreasing_by
  have h1 : (0 : ℚ) < (d - 180) / 360 := by
    apply div_pos (by linarith) (by norm_num)
  have h2 : ⌈(d - 360 - 180) / 360⌉ = ⌈(d - 180) / 360⌉ - 1 := by
    rw [show (d - 360 - 180) / 360 = (d - 180) / 360 - 1 by ring]
    exact Int.ceil_sub_one _
  have h3 : 1 ≤ ⌈(d - 180) / 360⌉ := Int.ceil_pos.mpr h1
  omega

/-- The second wrap loop of the `ANGLE` residual: `while (diff < -180) diff
+= 360`. -/
def wrapUp (d : ℚ) : ℚ :=
  if h : d < -180 then wrapUp (d + 360) else d
termination_by (⌈(-180 - d) / 360⌉).toNat
decreasing_by
  have h1 : (0 : ℚ) < (-180 - d) / 360 := by
    apply div_pos (by linarith) (by norm_num)
  have h2 : ⌈(-180 - (d + 360)) / 360⌉ = ⌈(-180 - d) / 360⌉ - 1 := by
    rw [show (-180 - (d + 360)) / 360 = (-180 - d) / 360 - 1 by ring]
    exact Int.ceil_sub_one _
  have h3 : 1 ≤ ⌈(-180 - d) / 360⌉ := Int.ceil_pos.mpr h1
  omega

/-- The two sequential wrap loops of the `ANGLE` residual, in source
order. -/
def wrapDeg (d : ℚ) : ℚ := wrapUp (wrapDown d)

/-- `computeResidual` from `solver.ts`.  The `!constraint.expression` and
`!constraint.targetId` guards are JS truthiness tests (empty-string falsy
for expressions; target ids, when present, are nonempty). -/
def computeResidual (c : Constraint) (st : GeometryState) : ℚ :=
  match c.type with
  | ConstraintType.DISTANCE =>
    match c.pointIds, c.expression with
    | [p1Id, p2Id], some e =>
      if e = "" then 0
      else
        match findPoint st p1Id, findPoint st p2Id with
        | some p1, some p2 =>
          (match evaluateExpression (ExprInput.str e) st.vars with
           | none => 0
           | some target =>
             sqrtQ ((p2.x - p1.x) ^ 2 + (p2.y - p1.y) ^ 2) - target)
        | _, _ => 0
    | _, _ => 0
  | ConstraintType.ANGLE =>
    match c.pointIds, c.expression with
    | [p1Id, p2Id], some e =>
      if e = "" then 0
      else
        match findPoint st p1Id, findPoint st p2Id with
        | some p1, some p2 =>
          (match evaluateExpression (ExprInput.str e) st.vars with
           | none => 0
           | some target =>
             wrapDeg (atan2DegQ (-(p2.y - p1.y)) (p2.x - p1.x) - target))
        | _, _ => 0
    | _, _ => 0
  | ConstraintType.POINT_ON_SEGMENT =>
    match c.pointIds, c.targetId with
    | [pId], some tId =>
      match findPoint st pId, findSegment st tId with
      | some fp, some seg =>
        (match findPoint st seg.p1, findPoint st seg.p2 with
         | some p1, some p2 => pointToSegmentDistance fp.x fp.y p1.x p1.y p2.x p2.y
         | _, _ => 0)
      | _, _ => 0
    | _, _ => 0
  | ConstraintType.POINT_ON_CIRCLE =>
    match c.pointIds, c.targetId with
    | [pId], some tId =>
      match findPoint st pId, getCircleCenterRadius st tId with
      | some fp, some (ccx, ccy, r) =>
        |sqrtQ ((fp.x - ccx) ^ 2 + (fp.y - ccy) ^ 2) - r|
      | _, _ => 0
    | _, _ => 0
  | ConstraintType.POINT_ON_ARC =>
    match c.pointIds, c.targetId with
    | [pId], some tId =>
      match findPoint st pId, findArc st tId with
      | some fp, some arc =>
        (match getCircleCenterRadius st arc.circleId with
         | none => 0
         | some (ccx, ccy, r) =>
           match findPoint st arc.startId, findPoint st arc.endId with
           | some sp, some ep =>
             let distToCenter := sqrtQ ((fp.x - ccx) ^ 2 + (fp.y - ccy) ^ 2)
             let radialError := |distToCenter - r|
             let pointAngle := atan2RadQ (fp.y - ccy) (fp.x - ccx)
             let startAngle := atan2RadQ (sp.y - ccy) (sp.x - ccx)
             let endAngle := atan2RadQ (ep.y - ccy) (ep.x - ccx)
             let angularPenalty :=
               if isAngleInArcRange pointAngle startAngle endAngle then 0
               else
                 let pa := normalizeAngleQ pointAngle
                 let sa := normalizeAngleQ startAngle
                 let ea := normalizeAngleQ endAngle
                 let distToStart := min |pa - sa| (2 * piQ - |pa - sa|)
                 let distToEnd := min |pa - ea| (2 * piQ - |pa - ea|)
                 min distToStart distToEnd * r
             radialError + angularPenalty
           | _, _ => 0)
      | _, _ => 0
    | _, _ => 0
  | ConstraintType.EQUATION =>
    match c.expression with
    | some e =>
      if e = "" then 0
      else (evaluateExpression (ExprInput.str e) st.vars).getD 0
    | none => 0

/-- `computeResiduals`: one residual per constraint, in order. -/
def computeResiduals (st : GeometryState) : List ℚ :=
  st.constraints.map (fun c => computeResidual c st)

/-- The per-parameter body of `computeJacobian`'s loop: perturb parameter
`i`, apply to the live state, recompute residuals, emit the forward
difference column.  (The `isFinite` guard cannot fire in exact rational
arithmetic: the perturbation `ε` is strictly positive.) -/
def jacStep (flat : List ℚ) (params : SolverParams) (base : List ℚ) (nCons : Nat)
    (acc : List (List ℚ) × GeometryState) (i : Nat) : List (List ℚ) × GeometryState :=
  let v := flat.getD i 0
  let eps := max NUMERICAL_EPSILON (|v| * NUMERICAL_EPSILON)
  let pparams := unflattenParams (flat.set i (v + eps)) params
  let s1 := applyParams acc.2 pparams
  let pres := computeResiduals s1
  let col := (List.range nCons).map (fun j => (pres.getD j 0 - base.getD j 0) / eps)
  (acc.1 ++ [col], s1)

/-- `computeJacobian` from `solver.ts`, with the state threading made
explicit: the source perturbs the live state per parameter and re-applies
the baseline parameters before returning. -/
def computeJacobianS (st : GeometryState) (params : SolverParams) :
    List (List ℚ) × GeometryState :=
  let flat := flattenParams params
  let numParams := flat.length
  if numParams = 0 ∨ st.constraints.length = 0 then ([], st)
  else
    let stB := applyParams st params
    let base := computeResiduals stB
    let out := (List.range numParams).foldl
      (jacStep flat params base st.constraints.length) ([], stB)
    (out.1, applyParams out.2 params)

/-- Dot product via `zip` (rows have equal length at every use, matching
the index loops of the source). -/
def dotQ (a b : List ℚ) : ℚ := (a.zip b).foldl (fun s p => s + p.1 * p.2) 0

/-- `matMulTranspose`: `J * Jᵀ` over the row list. -/
def matMulTranspose (J : List (List ℚ)) : List (List ℚ) :=
  J.map (fun ri => J.map (fun rj => dotQ ri rj))

/-- `matVecMulTranspose`: row-wise dot with the residual vector. -/
def matVecMulTranspose (J : List (List ℚ)) (r : List ℚ) : List ℚ :=
  J.map (fun row => dotQ row r)

/-- The LM damping step: `JtJ[i][i] += lambda * max(JtJ[i][i], 1e-6)`. -/
def dampDiag (H : List (List ℚ)) (lam : ℚ) : List (List ℚ) :=
  H.mapIdx (fun i row => row.mapIdx
    (fun j x => if j = i then x + lam * max x (1 / 1000000) else x))

/-- Entry read of a row-list matrix. -/
def getEntry (m : List (List ℚ)) (i j : Nat) : ℚ := (m.getD i []).getD j 0

/-- Row swap of the augmented matrix. -/
def swapRows (m : List (List ℚ)) (i j : Nat) : List (List ℚ) :=
  (m.set i (m.getD j [])).set j (m.getD i [])

/-- One pivot column of the forward elimination of `solveLinearSystem`:
partial pivoting, a `|pivot| < 1e-12` skip, then row elimination below. -/
def elimStep (n : Nat) (aug : List (List ℚ)) (i : Nat) : List (List ℚ) :=
  let maxRow := (List.range' (i + 1) (n - (i + 1))).foldl
    (fun mr k => if |getEntry aug k i| > |getEntry aug mr i| then k else mr) i
  let aug1 := swapRows aug i maxRow
  if |getEntry aug1 i i| < 1 / 1000000000000 then aug1
  else
    (List.range' (i + 1) (n - (i + 1))).foldl
      (fun m k =>
        let c := getEntry m k i / getEntry m i i
        m.set k ((m.getD k []).mapIdx
          (fun j x => if i ≤ j ∧ j ≤ n then x - c * getEntry m i j else x)))
      aug1

/-- The back-substitution of `solveLinearSystem`; skipped (near-singular)
pivots leave the component `0`. -/
def backSub (n : Nat) (aug : List (List ℚ)) : List ℚ :=
  (List.range n).reverse.foldl
    (fun x i =>
      if |getEntry aug i i| < 1 / 1000000000000 then x
      else
        let s := (List.range' (i + 1) (n - (i + 1))).foldl
          (fun a j => a + getEntry aug i j * x.getD j 0) 0
        x.set i ((getEntry aug i n - s) / getEntry aug i i))
    (List.replicate n 0)

/-- `solveLinearSystem` from `solver.ts` (Gaussian elimination with partial
pivoting; the source's `null` return type is never produced, so the
embedding is total and the caller's `if (!delta) break` can never fire —
note `![]` is `false` in JS). -/
def solveLinearSystem (A : List (List ℚ)) (b : List ℚ) : List ℚ :=
  let n := A.length
  if n = 0 then []
  else
    let aug := A.mapIdx (fun i row => row ++ [b.getD i 0])
    backSub n ((List.range n).foldl (elimStep n) aug)

/-- Squared-norm recoding of the source's `vecNorm` (`sqrt` of the sum of
squares): `vecNorm` is used only in order comparisons against `vecNorm`
values and against the convergence threshold, and squaring is a monotone
bijection on nonnegative reals, so every branch taken is preserved
exactly.  `SolverResult.finalErrorSq` is reported under the same
recoding. -/
def vecNormSq (v : List ℚ) : ℚ := v.foldl (fun s x => s + x * x) 0

/-- `vecAdd`. -/
def vecAdd (a b : List ℚ) : List ℚ := a.zipWith (fun x y => x + y) b

/-- `vecScale`. -/
def vecScale (v : List ℚ) (s : ℚ) : List ℚ := v.map (fun x => x * s)

/-- `SolverResult` (with the squared-norm recoding of `finalError`). -/
structure SolverResult where
  success : Bool
  iterations : Nat
  finalErrorSq : ℚ
deriving DecidableEq

/-- The LM iteration loop of `solve` (fuel = remaining iterations out of
`MAX_ITERATIONS`), threading the mutable geometry state explicitly. -/
def lmLoop : Nat → Nat → GeometryState → SolverParams → List ℚ → ℚ →
    GeometryState × SolverResult
  | 0, _, st, _, _, _ =>
    (st, ⟨false, MAX_ITERATIONS, vecNormSq (computeResiduals st)⟩)
  | fuel + 1, iter, st, params, flat, lam =>
    let st1 := applyParams st params
    let r := computeResiduals st1
    let errSq := vecNormSq r
    if errSq < CONV_SQ then (st1, ⟨true, iter, errSq⟩)
    else
      let Jst := computeJacobianS st1 params
      if Jst.1.isEmpty then
        (Jst.2, ⟨false, MAX_ITERATIONS, vecNormSq (computeResiduals Jst.2)⟩)
      else
        let JtJ := dampDiag (matMulTranspose Jst.1) lam
        let negJtr := vecScale (matVecMulTranspose Jst.1 r) (-1)
        let delta := solveLinearSystem JtJ negJtr
        let newFlat := vecAdd flat delta
        let newParams := unflattenParams newFlat params
        let st3 := applyParams Jst.2 newParams
        let newErrSq := vecNormSq (computeResiduals st3)
        if newErrSq < errSq then
          lmLoop fuel (iter + 1) st3 newParams newFlat (lam * LAMBDA_DOWN)
        else
          lmLoop fuel (iter + 1) (applyParams st3 params) params flat (lam * LAMBDA_UP)

/-- `solve` from `solver.ts`, as a state-passing function (the source
mutates the store in place and returns only the report record). -/
def solve (st : GeometryState) : GeometryState × SolverResult :=
  if st.constraints.isEmpty then (st, ⟨true, 0, 0⟩)
  else
    let params := extractFreeParams st
    let flat := flattenParams params
    if flat.length = 0 then
      let st1 := applyParams st params
      let errSq := vecNormSq (computeResiduals st1)
      (st1, ⟨decide (errSq < CONV_SQ), 0, errSq⟩)
    else lmLoop MAX_ITERATIONS 0 st params flat LAMBDA_INITIAL

/-- The trial state built by `validateConstraint`: the source deep-copies
every point record and every variable record, copies the segment, circle
and arc map shells (sharing the records), and extends a fresh constraint
array by the candidate.  In the pure model value-copies are identities, so
the trial state is the caller's state with the extended constraint list;
which containers share *records* with the caller is accounted for in
`callerStateAfterValidate` below. -/
def mkTrialState (st : GeometryState) (c : Constraint) : GeometryState :=
  { st with constraints := st.constraints ++ [c] }

/-- `validateConstraint` from `solver.ts`: trial-solve on the clone, return
the success flag. -/
def validateConstraint (st : GeometryState) (c : Constraint) : Bool :=
  (solve (mkTrialState st c)).2.success

/-- The caller's state as observable after `validateConstraint` returns.
The caller keeps its own containers; mutations made by the trial solve can
reach the caller only through records shared between the trial state and
the caller's state — exactly the segment, circle and arc records (their
maps are shallow-copied by the clone, while point and variable records are
deep-copied and the constraint array is fresh).  The definition therefore
adopts the trial's post-solve segment/circle/arc containers wholesale (a
conservative over-approximation of record-level sharing) and keeps the
caller's deep-copied containers. -/
def callerStateAfterValidate (st : GeometryState) (c : Constraint) : GeometryState :=
  let post := (solve (mkTrialState st c)).1
  { st with segments := post.segments, circles := post.circles, arcs := post.arcs }

-- ============ INTERSECTION SYNTHESIZER (state.ts, part after the store) ============

/-- `EPSILON = 0.001`, the tolerance for considering points the same
location. -/
def EPSILON : ℚ := 1 / 1000

/-- `pointExistsAt`: Chebyshev proximity scan over all points. -/
def pointExistsAt (st : GeometryState) (x y : ℚ) : Bool :=
  st.points.any (fun pt => decide (|pt.x - x| < EPSILON ∧ |pt.y - y| < EPSILON))

/-- `segmentSegmentIntersection`: line parameters `t, u`, both required in
the open interval `(ε, 1−ε)`; parallel when `|denom| < 1e-10`. -/
def segmentSegmentIntersection (ax1 ay1 ax2 ay2 bx1 by1 bx2 by2 : ℚ) : Option (ℚ × ℚ) :=
  let dx1 := ax2 - ax1
  let dy1 := ay2 - ay1
  let dx2 := bx2 - bx1
  let dy2 := by2 - by1
  let denom := dx1 * dy2 - dy1 * dx2
  if |denom| < 1 / 10000000000 then none
  else
    let t := ((bx1 - ax1) * dy2 - (by1 - ay1) * dx2) / denom
    let u := ((bx1 - ax1) * dy1 - (by1 - ay1) * dx1) / denom
    if EPSILON < t ∧ t < 1 - EPSILON ∧ EPSILON < u ∧ u < 1 - EPSILON then
      some (ax1 + t * dx1, ay1 + t * dy1)
    else none

/-- `segmentCircleIntersections`: quadratic roots in `t`, kept when inside
`(ε, 1−ε)`; the second root additionally requires `|t2 − t1| > ε`. -/
def segmentCircleIntersections (x1 y1 x2 y2 ccx ccy r : ℚ) : List (ℚ × ℚ) :=
  let dx := x2 - x1
  let dy := y2 - y1
  let fx := x1 - ccx
  let fy := y1 - ccy
  let a := dx * dx + dy * dy
  let b := 2 * (fx * dx + fy * dy)
  let c := fx * fx + fy * fy - r * r
  let disc := b * b - 4 * a * c
  if disc < 0 then []
  else
    let sqrtDisc := sqrtQ disc
    let t1 := (-b - sqrtDisc) / (2 * a)
    let t2 := (-b + sqrtDisc) / (2 * a)
    let first := if EPSILON < t1 ∧ t1 < 1 - EPSILON then [(x1 + t1 * dx, y1 + t1 * dy)] else []
    let second :=
      if EPSILON < t2 ∧ t2 < 1 - EPSILON ∧ EPSILON < |t2 - t1| then
        [(x1 + t2 * dx, y1 + t2 * dy)]
      else []
    first ++ second

/-- `circleCircleIntersections`: empty for separated, contained or
(near-)concentric circles; one point in the tangent case `h < ε`, else
two. -/
def circleCircleIntersections (cx1 cy1 r1 cx2 cy2 r2 : ℚ) : List (ℚ × ℚ) :=
  let d := sqrtQ ((cx2 - cx1) ^ 2 + (cy2 - cy1) ^ 2)
  if d > r1 + r2 ∨ d < |r1 - r2| ∨ d < EPSILON then []
  else
    let a := (r1 * r1 - r2 * r2 + d * d) / (2 * d)
    let h := sqrtQ (max 0 (r1 * r1 - a * a))
    let px := cx1 + a * (cx2 - cx1) / d
    let py := cy1 + a * (cy2 - cy1) / d
    if h < EPSILON then [(px, py)]
    else
      [(px + h * (cy2 - cy1) / d, py - h * (cx2 - cx1) / d),
       (px - h * (cy2 - cy1) / d, py + h * (cx2 - cx1) / d)]

/-- The intersection pass's local `getCircleCenterRadius` (distinct from the
solver's function of the same name): stored `centerId` and truthy stored
`radius` only, no circumcircle recomputation. -/
def getCircleCenterRadiusIx (st : GeometryState) (circ : GCircle) : Option (ℚ × ℚ × ℚ) :=
  match circ.centerId with
  | some cid =>
    (match findPoint st cid, circ.radius with
     | some cp, some r => if r ≠ 0 then some (cp.x, cp.y, r) else none
     | _, _ => none)
  | none => none

/-- Ordered pairs `(i, j)` with `i < j`, in the row-major order of the
source's nested index loops. -/
def ordPairs {α : Type} : List α → List (α × α)
  | [] => []
  | x :: xs => xs.map (fun y => (x, y)) ++ ordPairs xs

/-- All `(segment, circle)` pairs, in the order of the source's nested
`for…of` loops. -/
def prodPairs (segs : List Segment) (circs : List GCircle) : List (Segment × GCircle) :=
  segs.flatMap (fun s => circs.map (fun c => (s, c)))

/-- Candidate intersection points of a segment pair, read from the current
state. -/
def ssCands (st : GeometryState) (p : Segment × Segment) : List (ℚ × ℚ) :=
  match findPoint st p.1.p1, findPoint st p.1.p2, findPoint st p.2.p1, findPoint st p.2.p2 with
  | some p1a, some p1b, some p2a, some p2b =>
    (match segmentSegmentIntersection p1a.x p1a.y p1b.x p1b.y p2a.x p2a.y p2b.x p2b.y with
     | some q => [q]
     | none => [])
  | _, _, _, _ => []

/-- Candidate intersection points of a segment/circle pair. -/
def scCands (st : GeometryState) (p : Segment × GCircle) : List (ℚ × ℚ) :=
  match findPoint st p.1.p1, findPoint st p.1.p2 with
  | some p1, some p2 =>
    (match getCircleCenterRadiusIx st p.2 with
     | some (ccx, ccy, r) => segmentCircleIntersections p1.x p1.y p2.x p2.y ccx ccy r
     | none => [])
  | _, _ => []

/-- Candidate intersection points of a circle pair. -/
def ccCands (st : GeometryState) (p : GCircle × GCircle) : List (ℚ × ℚ) :=
  match getCircleCenterRadiusIx st p.1, getCircleCenterRadiusIx st p.2 with
  | some (x1, y1, r1), some (x2, y2, r2) => circleCircleIntersections x1 y1 r1 x2 y2 r2
  | _, _ => []

/-- Handle one candidate: skip when a point already lies within `ε`, else
add a fresh point (next label and id) and record it. -/
def processCand (acc : GeometryState × List Point) (q : ℚ × ℚ) : GeometryState × List Point :=
  if pointExistsAt acc.1 q.1 q.2 then acc
  else
    let r := addPoint acc.1 q.1 q.2
    (r.1, acc.2 ++ [r.2])

/-- Run one family of pair loops, recomputing each pair's candidates from
the live state, exactly as the source's interleaved loops do. -/
def runPairs {α : Type} (f : GeometryState → α → List (ℚ × ℚ))
    (acc : GeometryState × List Point) (pairs : List α) : GeometryState × List Point :=
  pairs.foldl (fun a pr => (f a.1 pr).foldl processCand a) acc

/-- `findAllIntersections` from `state.ts`: snapshot the segment and circle
arrays, then run the segment/segment, segment/circle and circle/circle
loops in order, adding a point for each candidate no existing point is
`ε`-close to. -/
def findAllIntersections (st : GeometryState) : GeometryState × List Point :=
  let segments := st.segments
  let circles := st.circles
  runPairs ccCands
    (runPairs scCands
      (runPairs ssCands (st, []) (ordPairs segments))
      (prodPairs segments circles))
    (ordPairs circles)

-- ============ CONCRETE STORES USED BY WITNESSES AND COUNTEREXAMPLES ============

/-- Shorthand for building a point record. -/
def mkPt (i : Nat) (x y : ℚ) (ch : List Nat) : Point :=
  { id := i, x := x, y := y, label := i, childrenIds := ch, isFloating := false }

/-- A one-point store (point `1` at the origin). -/
def stOnePoint : GeometryState :=
  { points := [mkPt 1 0 0 []], segments := [], circles := [], arcs := [], vars := [],
    constraints := [], nextId := 2, labelCounter := 1 }

/-- Two points on the x-axis: `1 ↦ (0,0)`, `2 ↦ (1,0)`. -/
def stTwoPoints : GeometryState :=
  { points := [mkPt 1 0 0 [], mkPt 2 1 0 []], segments := [], circles := [], arcs := [],
    vars := [], constraints := [], nextId := 3, labelCounter := 2 }

/-- An `ANGLE` constraint on points `1 → 2` with target expression `180`. -/
def conAngle180 : Constraint :=
  { id := 10, type := ConstraintType.ANGLE, pointIds := [1, 2], targetId := none,
    expression := some "180" }

/-- A `RADIUS` circle record with stored radius exactly `0`. -/
def circRadiusZero : GCircle :=
  { id := 5, type := CircleType.RADIUS, centerId := some 1, radius := some 0,
    pointIds := [], childrenIds := [] }

/-- An arc lying on the degenerate circle `5`. -/
def arcOnZero : Arc := { id := 6, circleId := 5, startId := 1, endId := 2, childrenIds := [] }

/-- Store with the degenerate `RADIUS` circle, its arc, and a far-away
point `2`. -/
def stZeroCircle : GeometryState :=
  { points := [mkPt 1 0 0 [], mkPt 2 3 4 []], segments := [], circles := [circRadiusZero],
    arcs := [arcOnZero], vars := [], constraints := [], nextId := 7, labelCounter := 2 }

/-- `POINT_ON_CIRCLE` constraint pinning point `2` to circle `5`. -/
def conOnZeroCircle : Constraint :=
  { id := 11, type := ConstraintType.POINT_ON_CIRCLE, pointIds := [2], targetId := some 5,
    expression := none }

/-- `POINT_ON_ARC` constraint pinning point `2` to arc `6`. -/
def conOnZeroArc : Constraint :=
  { id := 12, type := ConstraintType.POINT_ON_ARC, pointIds := [2], targetId := some 6,
    expression := none }

/-- Three non-collinear points `(0,0), (4,0), (0,3)` (spec scenario 5). -/
def stThreePts : GeometryState :=
  { points := [mkPt 1 0 0 [], mkPt 2 4 0 [], mkPt 3 0 3 []], segments := [], circles := [],
    arcs := [], vars := [], constraints := [], nextId := 4, labelCounter := 3 }

/-- Segment `1–2` carrying the `REL_ANGLE` segment `6` as its child. -/
def segRefParent : Segment :=
  { id := 5, p1 := 1, p2 := 2, type := SegmentType.TWO_POINTS, length := none, angle := none,
    refSegmentId := none, childrenIds := [6] }

/-- A `REL_ANGLE` segment `3–4` referencing segment `5`. -/
def segRelChild : Segment :=
  { id := 6, p1 := 3, p2 := 4, type := SegmentType.REL_ANGLE, length := some 5,
    angle := some 30, refSegmentId := some 5, childrenIds := [] }

/-- An arc whose start point is `3`. -/
def arcOnPoint3 : Arc := { id := 7, circleId := 5, startId := 3, endId := 2, childrenIds := [] }

/-- A `DISTANCE` constraint referencing points `3` and `2`. -/
def conOnPoint3 : Constraint :=
  { id := 8, type := ConstraintType.DISTANCE, pointIds := [3, 2], targetId := none,
    expression := some "10" }

/-- Store in which point `3` is referenced by a constraint and an arc and
parents the `REL_ANGLE` segment `6`, which in turn sits in segment `5`'s
`childrenIds`. -/
def stDangling : GeometryState :=
  { points := [mkPt 1 0 0 [5], mkPt 2 1 0 [5], mkPt 3 0 1 [6], mkPt 4 2 2 [6]],
    segments := [segRefParent, segRelChild], circles := [], arcs := [arcOnPoint3], vars := [],
    constraints := [conOnPoint3], nextId := 9, labelCounter := 4 }

/-- Two crossing segments `(0,0)–(10,10)` and `(0,10)–(10,0)` (spec
scenario 6). -/
def stCross : GeometryState :=
  { points := [mkPt 1 0 0 [5], mkPt 2 10 10 [5], mkPt 3 0 10 [6], mkPt 4 10 0 [6]],
    segments :=
      [{ id := 5, p1 := 1, p2 := 2, type := SegmentType.TWO_POINTS, length := none,
         angle := none, refSegmentId := none, childrenIds := [] },
       { id := 6, p1 := 3, p2 := 4, type := SegmentType.TWO_POINTS, length := none,
         angle := none, refSegmentId := none, childrenIds := [] }],
    circles := [], arcs := [], vars := [], constraints := [], nextId := 7, labelCounter := 4 }

-- ============ SPECIFICATION-SIDE PREDICATES AND OBSERVERS ============

/-- Lex+parse pipeline on a string (the composition used by
`evaluateExpression` before AST evaluation). -/
def parseExprString (s : String) : Option AST :=
  match tokenize s.toList with
  | none => none
  | some ts => parseTokens ts

/-- The operators the tokenizer can produce (every parser-built `binary`
node carries one of these). -/
def astWF : AST → Bool
  | AST.number _ => true
  | AST.variable _ => true
  | AST.binary op l r =>
    (op = '+' ∨ op = '-' ∨ op = '*' ∨ op = '/' ∨ op = '^' : Bool) && astWF l && astWF r

/-- The claim's unresolved conditions (a) and (b) for an AST under a
variable map: some evaluated `variable` node is absent or has a `null`
value, or some evaluated division's right operand evaluates to exactly
`0`. -/
def astNullCond (vars : VarMap) : AST → Bool
  | AST.number _ => false
  | AST.variable n =>
    (match findVar vars n with
     | none => true
     | some v => v.value.isNone)
  | AST.binary op l r =>
    astNullCond vars l || astNullCond vars r
      || (op = '/' && evaluateAST vars r == some 0)

/-- The `childrenIds` snapshot `deleteEntity` iterates over for `x` (empty
when `x` is stale).  In stores whose segments and circles have no children
of their own, these are exactly the transitive descendants of `x`. -/
def childIdsOf (st : GeometryState) (x : ID) : List ID :=
  match findPoint st x with
  | some p => p.childrenIds
  | none =>
    match findSegment st x with
    | some s => s.childrenIds
    | none =>
      match findCircle st x with
      | some c => c.childrenIds
      | none => []

/-- The id resolves to some entity of the store. -/
def ResolvesId (st : GeometryState) (i : ID) : Prop :=
  (findPoint st i).isSome = true ∨ (findSegment st i).isSome = true
    ∨ (findCircle st i).isSome = true ∨ (findArc st i).isSome = true

/-- An optional reference, when present, resolves. -/
def OptResolves (st : GeometryState) : Option ID → Prop
  | none => True
  | some i => ResolvesId st i

instance (st : GeometryState) (i : ID) : Decidable (ResolvesId st i) := by
  unfold ResolvesId; infer_instance

instance (st : GeometryState) : (o : Option ID) → Decidable (OptResolves st o)
  | none => Decidable.isTrue trivial
  | some i => inferInstanceAs (Decidable (ResolvesId st i))

/-- The store is free of dangling identifiers: every identifier stored in
any reference field of any entity resolves. -/
def NoDangling (st : GeometryState) : Prop :=
  (∀ s ∈ st.segments, ResolvesId st s.p1 ∧ ResolvesId st s.p2
    ∧ OptResolves st s.refSegmentId ∧ ∀ c ∈ s.childrenIds, ResolvesId st c)
  ∧ (∀ c ∈ st.circles, OptResolves st c.centerId
    ∧ (∀ pid ∈ c.pointIds, ResolvesId st pid) ∧ ∀ ch ∈ c.childrenIds, ResolvesId st ch)
  ∧ (∀ p ∈ st.points, ∀ c ∈ p.childrenIds, ResolvesId st c)
  ∧ (∀ a ∈ st.arcs, ResolvesId st a.circleId ∧ ResolvesId st a.startId
    ∧ ResolvesId st a.endId ∧ ∀ ch ∈ a.childrenIds, ResolvesId st ch)
  ∧ (∀ c ∈ st.constraints, (∀ pid ∈ c.pointIds, ResolvesId st pid)
    ∧ OptResolves st c.targetId)

/-- Ids are globally unique across the three containers `deleteEntity`
dispatches over. -/
def UniqueIds (st : GeometryState) : Prop :=
  (st.points.map Point.id).Nodup ∧ (st.segments.map Segment.id).Nodup
  ∧ (st.circles.map GCircle.id).Nodup
  ∧ (∀ p ∈ st.points, ∀ s ∈ st.segments, p.id ≠ s.id)
  ∧ (∀ p ∈ st.points, ∀ c ∈ st.circles, p.id ≠ c.id)
  ∧ (∀ s ∈ st.segments, ∀ c ∈ st.circles, s.id ≠ c.id)

/-- An optional point reference, when present, resolves to a point that
lists `cid` among its children. -/
def OptChildOf (st : GeometryState) : Option ID → ID → Prop
  | none, _ => True
  | some pid, cid => ∃ p ∈ st.points, p.id = pid ∧ cid ∈ p.childrenIds

instance (st : GeometryState) : (o : Option ID) → (cid : ID) → Decidable (OptChildOf st o cid)
  | none, _ => Decidable.isTrue trivial
  | some pid, cid =>
    inferInstanceAs (Decidable (∃ p ∈ st.points, p.id = pid ∧ cid ∈ p.childrenIds))

/-- Segment back-references: each endpoint resolves to a point listing the
segment among its children (store invariant 2 for segments). -/
def SegBackRefs (st : GeometryState) : Prop :=
  ∀ s ∈ st.segments,
    (∃ p ∈ st.points, p.id = s.p1 ∧ s.id ∈ p.childrenIds)
    ∧ (∃ p ∈ st.points, p.id = s.p2 ∧ s.id ∈ p.childrenIds)

/-- Circle back-references: the optional center and every defining point
resolve to points listing the circle among their children. -/
def CircBackRefs (st : GeometryState) : Prop :=
  ∀ c ∈ st.circles, OptChildOf st c.centerId c.id
    ∧ ∀ pid ∈ c.pointIds, ∃ p ∈ st.points, p.id = pid ∧ c.id ∈ p.childrenIds

/-- Child-link soundness: every entry of a point's `childrenIds` is a
stored segment or circle constructed from that point. -/
def ChildSound (st : GeometryState) : Prop :=
  ∀ p ∈ st.points, ∀ cid ∈ p.childrenIds,
    (∃ s ∈ st.segments, s.id = cid ∧ (s.p1 = p.id ∨ s.p2 = p.id))
    ∨ (∃ c ∈ st.circles, c.id = cid ∧ (c.centerId = some p.id ∨ p.id ∈ c.pointIds))

/-- No `REL_ANGLE`-style references: segments carry no `refSegmentId` and
no children of their own, circles no children of their own. -/
def NoRelRefs (st : GeometryState) : Prop :=
  (∀ s ∈ st.segments, s.refSegmentId = none ∧ s.childrenIds = [])
  ∧ (∀ c ∈ st.circles, c.childrenIds = [])

/-- A clean store: only points, segments and circles; consistent id
allocation and child-link bookkeeping; no segment-to-segment references. -/
def CleanStore (st : GeometryState) : Prop :=
  st.arcs = [] ∧ st.constraints = [] ∧ NoRelRefs st ∧ UniqueIds st
  ∧ SegBackRefs st ∧ CircBackRefs st ∧ ChildSound st

/-- What `deleteEntity` does to a (childless) segment: remove its
back-references from both endpoints, then drop it from the container. -/
def eraseSeg (st : GeometryState) (s : Segment) : GeometryState :=
  let st2 := removeFromParentChildren st s.p1 s.id
  let st3 := removeFromParentChildren st2 s.p2 s.id
  { st3 with segments := st3.segments.filter (fun t => t.id ≠ s.id) }

/-- What `deleteEntity` does to a (childless) circle: remove back-references
from the optional center and each defining point, then drop it. -/
def eraseCirc (st : GeometryState) (c : GCircle) : GeometryState :=
  let st2 :=
    match c.centerId with
    | some cid => removeFromParentChildren st cid c.id
    | none => st
  let st3 := c.pointIds.foldl (fun s pId => removeFromParentChildren s pId c.id) st2
  { st3 with circles := st3.circles.filter (fun t => t.id ≠ c.id) }

/-- The id has been fully expunged: it resolves to nothing among points,
segments and circles, and no point lists it as a child. -/
def Gone (st : GeometryState) (i : ID) : Prop :=
  findPoint st i = none ∧ findSegment st i = none ∧ findCircle st i = none
  ∧ ∀ p ∈ st.points, i ∉ p.childrenIds

/-- The shape a deletable child has in a clean store: a segment or circle
id (or an id already expunged by an earlier duplicate). -/
def ChildLike (st : GeometryState) (c : ID) : Prop :=
  Gone st c ∨ ((findSegment st c).isSome = true ∨ (findCircle st c).isSome = true)

/-- Point-container frame of the deletion fold: the point list keeps its
length and order; each point keeps its identity and only loses
`childrenIds` entries. -/
def PtsFrame (st0 st : GeometryState) : Prop :=
  List.Forall₂ (fun p0 p1 => p1.id = p0.id ∧ p1.childrenIds ⊆ p0.childrenIds)
    st0.points st.points

-- ============ C7 / C8 OBSERVERS ============

/-- Residual norm (squared recoding) at an LM iteration head: parameters
applied, residuals recomputed. -/
def headErrSq (st : GeometryState) (params : SolverParams) : ℚ :=
  vecNormSq (computeResiduals (applyParams st params))

/-- The sequence of iteration-head residual norms (squared recoding) of the
LM loop, mirroring `lmLoop` branch for branch. -/
def lmHeads : Nat → GeometryState → SolverParams → List ℚ → ℚ → List ℚ
  | 0, _, _, _, _ => []
  | fuel + 1, st, params, flat, lam =>
    let st1 := applyParams st params
    let errSq := vecNormSq (computeResiduals st1)
    if errSq < CONV_SQ then [errSq]
    else
      let Jst := computeJacobianS st1 params
      if Jst.1.isEmpty then [errSq]
      else
        let JtJ := dampDiag (matMulTranspose Jst.1) lam
        let negJtr := vecScale (matVecMulTranspose Jst.1 (computeResiduals st1)) (-1)
        let delta := solveLinearSystem JtJ negJtr
        let newFlat := vecAdd flat delta
        let newParams := unflattenParams newFlat params
        let st3 := applyParams Jst.2 newParams
        let newErrSq := vecNormSq (computeResiduals st3)
        if newErrSq < errSq then
          errSq :: lmHeads fuel st3 newParams newFlat (lam * LAMBDA_DOWN)
        else
          errSq :: lmHeads fuel (applyParams st3 params) params flat (lam * LAMBDA_UP)

/-- A bound below the id counter, for optional references. -/
def OptBelow (n : Nat) : Option ID → Prop
  | none => True
  | some i => i < n

instance (n : Nat) : (o : Option ID) → Decidable (OptBelow n o)
  | none => Decidable.isTrue trivial
  | some i => inferInstanceAs (Decidable (i < n))

/-- Well-formed id allocation for the intersection pass: every id the pass
can look up is below the allocator counter, so freshly allocated points
can never collide with or shadow them. -/
def IxWF (st : GeometryState) : Prop :=
  (∀ p ∈ st.points, p.id < st.nextId)
  ∧ (∀ s ∈ st.segments, s.p1 < st.nextId ∧ s.p2 < st.nextId)
  ∧ (∀ c ∈ st.circles, OptBelow st.nextId c.centerId)

/-- State extension by appended fresh points only (the only mutation the
intersection pass performs). -/
def ExtendsSt (st0 st : GeometryState) : Prop :=
  st.segments = st0.segments ∧ st.circles = st0.circles ∧ st0.nextId ≤ st.nextId
  ∧ ∃ news : List Point, st.points = st0.points ++ news ∧ ∀ p ∈ news, st0.nextId ≤ p.id

instance (st : GeometryState) : Decidable (NoDangling st) := by
  unfold NoDangling; infer_instance

instance (st : GeometryState) : Decidable (UniqueIds st) := by
  unfold UniqueIds; infer_instance

instance (st : GeometryState) : Decidable (SegBackRefs st) := by
  unfold SegBackRefs; infer_instance

instance (st : GeometryState) : Decidable (CircBackRefs st) := by
  unfold CircBackRefs; infer_instance

instance (st : GeometryState) : Decidable (ChildSound st) := by
  unfold ChildSound; infer_instance

instance (st : GeometryState) : Decidable (NoRelRefs st) := by
  unfold NoRelRefs; infer_instance

instance (st : GeometryState) : Decidable (CleanStore st) := by
  unfold CleanStore; infer_instance

instance (st : GeometryState) (i : ID) : Decidable (Gone st i) := by
  unfold Gone; infer_instance

instance (st : GeometryState) : Decidable (IxWF st) := by
  unfold IxWF; infer_instance


/-- The parsed node of a successful sub-parse is operator-well-formed. -/
def WFOut {α : Type} (o : Option (AST × α)) : Prop :=
  o.elim True (fun out => astWF out.1 = true)

/-- An LM iteration with its reject branch normalized: after a rejected
trial the loop continues from the iteration-head state with the previous
parameter record and flat vector unchanged. -/
def lmStepNorm (fuel iter : Nat) (st : GeometryState) (params : SolverParams)
    (flat : List ℚ) (lam : ℚ) : GeometryState × SolverResult :=
  let st1 := applyParams st params
  let r := computeResiduals st1
  let errSq := vecNormSq r
  if errSq < CONV_SQ then (st1, ⟨true, iter, errSq⟩)
  else
    let Jst := computeJacobianS st1 params
    if Jst.1.isEmpty then
      (Jst.2, ⟨false, MAX_ITERATIONS, vecNormSq (computeResiduals Jst.2)⟩)
    else
      let JtJ := dampDiag (matMulTranspose Jst.1) lam
      let negJtr := vecScale (matVecMulTranspose Jst.1 r) (-1)
      let delta := solveLinearSystem JtJ negJtr
      let newFlat := vecAdd flat delta
      let newParams := unflattenParams newFlat params
      let st3 := applyParams Jst.2 newParams
      let newErrSq := vecNormSq (computeResiduals st3)
      if newErrSq < errSq then
        lmLoop fuel (iter + 1) st3 newParams newFlat (lam * LAMBDA_DOWN)
      else
        lmLoop fuel (iter + 1) st1 params flat (lam * LAMBDA_UP)


/-- The pointwise form of `dropChild`: under unique point ids, updating the
first matching point is updating every matching point. -/
def dropChildAll (parentId childId : ID) (p : Point) : Point :=
  if p.id = parentId then
    { p with childrenIds := p.childrenIds.filter (fun c => c ≠ childId) }
  else p


-- ============ THEOREMS ============

/-- Claim C9: the expression grammar gives `^` precedence over `*` and `/`,
which have precedence over `+` and `-`; `^` associates to the right and the
other operators to the left.  Witnessed by the parsed shapes of
`2^3^2`, `2+3*4`, `2*3^2`, `1-2-3` and `8/4/2`, and by the claimed
evaluations `2^3^2 = 512`, `2+3*4 = 14`, `2*3^2 = 18` under the empty
variable map. -/
theorem expression_precedence_associativity :
    parseExprString "2^3^2"
      = some (AST.binary '^' (AST.number 2) (AST.binary '^' (AST.number 3) (AST.number 2)))
    ∧ parseExprString "2+3*4"
      = some (AST.binary '+' (AST.number 2) (AST.binary '*' (AST.number 3) (AST.number 4)))
    ∧ parseExprString "2*3^2"
      = some (AST.binary '*' (AST.number 2) (AST.binary '^' (AST.number 3) (AST.number 2)))
    ∧ parseExprString "1-2-3"
      = some (AST.binary '-' (AST.binary '-' (AST.number 1) (AST.number 2)) (AST.number 3))
    ∧ parseExprString "8/4/2"
      = some (AST.binary '/' (AST.binary '/' (AST.number 8) (AST.number 4)) (AST.number 2))
    ∧ evaluateExpression (ExprInput.str "2^3^2") [] = some 512
    ∧ evaluateExpression (ExprInput.str "2+3*4") [] = some 14
    ∧ evaluateExpression (ExprInput.str "2*3^2") [] = some 18 := by
  refine ⟨?_, ?_, ?_, ?_, ?_, ?_, ?_, ?_⟩
  · rw [show ("2^3^2" : String) = String.mk ['2', '^', '3', '^', '2'] from rfl]
    simp +decide [parseExprString, tokenize, parseTokens, parseAdd, parseMul, parsePow,
      parsePrimary, parseAddLoop, parseMulLoop, parseFloatQ, digitsToNat, digitVal]
  · rw [show ("2+3*4" : String) = String.mk ['2', '+', '3', '*', '4'] from rfl]
    simp +decide [parseExprString, tokenize, parseTokens, parseAdd, parseMul, parsePow,
      parsePrimary, parseAddLoop, parseMulLoop, parseFloatQ, digitsToNat, digitVal]
  · rw [show ("2*3^2" : String) = String.mk ['2', '*', '3', '^', '2'] from rfl]
    simp +decide [parseExprString, tokenize, parseTokens, parseAdd, parseMul, parsePow,
      parsePrimary, parseAddLoop, parseMulLoop, parseFloatQ, digitsToNat, digitVal]
  · rw [show ("1-2-3" : String) = String.mk ['1', '-', '2', '-', '3'] from rfl]
    simp +decide [parseExprString, tokenize, parseTokens, parseAdd, parseMul, parsePow,
      parsePrimary, parseAddLoop, parseMulLoop, parseFloatQ, digitsToNat, digitVal]
  · rw [show ("8/4/2" : String) = String.mk ['8', '/', '4', '/', '2'] from rfl]
    simp +decide [parseExprString, tokenize, parseTokens, parseAdd, parseMul, parsePow,
      parsePrimary, parseAddLoop, parseMulLoop, parseFloatQ, digitsToNat, digitVal]
  · rw [show ("2^3^2" : String) = String.mk ['2', '^', '3', '^', '2'] from rfl]
    simp +decide [evaluateExpression, tokenize, parseTokens, parseAdd, parseMul, parsePow,
      parsePrimary, parseAddLoop, parseMulLoop, evaluateAST, parseFloatQ, digitsToNat,
      digitVal, powQ]
  · rw [show ("2+3*4" : String) = String.mk ['2', '+', '3', '*', '4'] from rfl]
    simp +decide [evaluateExpression, tokenize, parseTokens, parseAdd, parseMul, parsePow,
      parsePrimary, parseAddLoop, parseMulLoop, evaluateAST, parseFloatQ, digitsToNat,
      digitVal, powQ]
    norm_num
  · rw [show ("2*3^2" : String) = String.mk ['2', '*', '3', '^', '2'] from rfl]
    simp +decide [evaluateExpression, tokenize, parseTokens, parseAdd, parseMul, parsePow,
      parsePrimary, parseAddLoop, parseMulLoop, evaluateAST, parseFloatQ, digitsToNat,
      digitVal, powQ]
    norm_num

/-- Claim C3, counterexample: `addSegmentTwoPoints` does *not* reject equal
endpoint ids.  On a store holding point `1`, the call with `p1Id = p2Id = 1`
returns a segment (not `null`) whose two endpoints are the same identifier,
and it mutates the store. -/
theorem addSegmentTwoPoints_equal_ids_accepted :
    (addSegmentTwoPoints stOnePoint 1 1).map (fun r => (r.2.p1, r.2.p2)) = some (1, 1)
    ∧ addSegmentTwoPoints stOnePoint 1 1 ≠ none
    ∧ (addSegmentTwoPoints stOnePoint 1 1).map (fun r => r.1) ≠ some stOnePoint := by
  decide

/-- Claim C3, amended: the segment construction operation returns `null`
exactly when an endpoint id does not resolve; it does *not* reject
`p1 == p2`, and any segment it produces carries exactly the two argument
ids as endpoints (equal arguments yield a degenerate segment). -/
theorem addSegmentTwoPoints_null_iff :
    ∀ (st : GeometryState) (a b : ID),
      (addSegmentTwoPoints st a b = none ↔ (findPoint st a = none ∨ findPoint st b = none))
      ∧ (addSegmentTwoPoints st a b).elim True (fun r => r.2.p1 = a ∧ r.2.p2 = b) := by
  intro st a b
  unfold addSegmentTwoPoints
  rcases findPoint st a with _ | pA <;> rcases findPoint st b with _ | pB <;> simp

/-- Claim C10: a `RADIUS` circle whose stored `radius` is `0` (or absent)
fails the JS-truthiness guard of `getCircleCenterRadius`, which returns
`null`; consequently every `POINT_ON_CIRCLE` constraint targeting the
circle, and every `POINT_ON_ARC` constraint targeting an arc lying on it,
has residual `0` regardless of the constrained point. -/
theorem degenerate_circle_residual_zero (st : GeometryState) (cid : ID) (circ : GCircle)
    (hfind : findCircle st cid = some circ)
    (htype : circ.type = CircleType.RADIUS)
    (hr : circ.radius = none ∨ circ.radius = some 0) :
    getCircleCenterRadius st cid = none
    ∧ (∀ c : Constraint, c.type = ConstraintType.POINT_ON_CIRCLE → c.targetId = some cid →
        computeResidual c st = 0)
    ∧ (∀ (c : Constraint) (a : Arc), c.type = ConstraintType.POINT_ON_ARC →
        c.targetId = some a.id → findArc st a.id = some a → a.circleId = cid →
        computeResidual c st = 0) := by
  have hmain : getCircleCenterRadius st cid = none := by
    unfold getCircleCenterRadius
    simp only [hfind]
    have h1 : ¬(circ.type = CircleType.RADIUS ∧ jsTruthyId circ.centerId = true
        ∧ jsTruthyNum circ.radius = true) := by
      rcases hr with h | h <;> simp [jsTruthyNum, h]
    have h2 : ¬(circ.type = CircleType.THREE_POINTS ∧ circ.pointIds.length = 3) := by
      simp [htype]
    rw [if_neg h1, if_neg h2]
  refine ⟨hmain, ?_, ?_⟩
  · intro c hct htg
    unfold computeResidual
    rw [hct]
    rcases hcp : c.pointIds with _ | ⟨p, _ | ⟨q, rest⟩⟩ <;> simp [htg, hmain]
  · intro c a hct htg harc hcirc
    unfold computeResidual
    rw [hct]
    rcases hcp : c.pointIds with _ | ⟨p, _ | ⟨q, rest⟩⟩ <;> simp [htg, harc]
    rcases findPoint st p with _ | fp <;> simp [hcirc, hmain]

/-- Claim C10, witness: the concrete store `stZeroCircle` instantiates the
theorem: circle `5` is `RADIUS` with radius `0`, the lookup returns `none`,
and both degenerate constraints have residual `0`. -/
theorem degenerate_circle_residual_zero_witness :
    findCircle stZeroCircle 5 = some circRadiusZero
    ∧ getCircleCenterRadius stZeroCircle 5 = none
    ∧ computeResidual conOnZeroCircle stZeroCircle = 0
    ∧ computeResidual conOnZeroArc stZeroCircle = 0 := by
  have h := degenerate_circle_residual_zero stZeroCircle 5 circRadiusZero (by decide)
    (by decide) (Or.inr (by decide))
  exact ⟨by decide, h.1, h.2.1 conOnZeroCircle (by decide) (by decide),
    h.2.2 conOnZeroArc arcOnZero (by decide) (by decide) (by decide) (by decide)⟩

/-- The first wrap loop never exits above `180`. -/
theorem wrapDown_le (d : ℚ) : wrapDown d ≤ 180 := by
  induction d using wrapDown.induct with
  | case1 x hx ih =>
    rw [wrapDown]
    simpa [hx] using ih
  | case2 x hx =>
    rw [wrapDown]
    simp only [hx, dite_false, dif_neg]
    linarith [not_lt.mp hx]

/-- The second wrap loop never exits below `-180`. -/
theorem wrapUp_ge (d : ℚ) : -180 ≤ wrapUp d := by
  induction d using wrapUp.induct with
  | case1 x hx ih =>
    rw [wrapUp]
    simpa [hx] using ih
  | case2 x hx =>
    rw [wrapUp]
    simp only [hx, dite_false, dif_neg]
    linarith [not_lt.mp hx]

/-- The second wrap loop preserves the upper bound `180`. -/
theorem wrapUp_le : ∀ d : ℚ, d ≤ 180 → wrapUp d ≤ 180 := by
  intro d
  induction d using wrapUp.induct with
  | case1 x hx ih =>
    intro _
    rw [wrapUp]
    simp only [hx, dite_true, dif_pos]
    exact ih (by linarith)
  | case2 x hx =>
    intro h
    rw [wrapUp]
    simp [hx, h]

/-- The code's wrap lands in the closed interval `[-180, 180]`. -/
theorem wrapDeg_bounds (d : ℚ) : -180 ≤ wrapDeg d ∧ wrapDeg d ≤ 180 :=
  ⟨wrapUp_ge _, wrapUp_le _ (wrapDown_le d)⟩

/-- A raw difference of exactly `-180` is left untouched by both wrap
loops. -/
theorem wrapDeg_neg180 : wrapDeg (-180) = -180 := by
  rw [wrapDeg, wrapDown, wrapUp]
  norm_num

/-- The empty expression string evaluates to the unresolved sentinel. -/
theorem evaluateExpression_empty (vars : VarMap) :
    evaluateExpression (ExprInput.str "") vars = none := by
  simp [evaluateExpression, show ("" : String).toList = [] from rfl, tokenize, parseTokens,
    parseAdd, parseMul, parsePow, parsePrimary]

/-- Claim C5, counterexample: for the `ANGLE` constraint on `p1 = (0,0)`,
`p2 = (1,0)` (segment angle exactly `0`) with target expression `180`, the
raw difference is exactly `-180` and the residual is `-180` — not the `+180`
the claimed wrap into `(-180, 180]` would give; the residual does not lie in
`(-180, 180]`. -/
theorem angle_residual_boundary_counterexample :
    computeResidual conAngle180 stTwoPoints = -180
    ∧ atan2DegQ (-((0 : ℚ) - 0)) ((1 : ℚ) - 0) - 180 = -180
    ∧ ¬(-180 < computeResidual conAngle180 stTwoPoints) := by
  have he : evaluateExpression (ExprInput.str "180") stTwoPoints.vars = some 180 := by
    rw [show ("180" : String) = String.mk ['1', '8', '0'] from rfl]
    simp +decide [evaluateExpression, tokenize, parseTokens, parseAdd, parseMul, parsePow,
      parsePrimary, parseAddLoop, parseMulLoop, evaluateAST, parseFloatQ, digitsToNat,
      digitVal]
  have h : computeResidual conAngle180 stTwoPoints = -180 := by
    simp only [computeResidual, conAngle180]
    rw [show findPoint stTwoPoints 1 = some (mkPt 1 0 0 []) from by decide,
        show findPoint stTwoPoints 2 = some (mkPt 2 1 0 []) from by decide]
    simp +decide [he, mkPt, atan2DegQ]
    exact wrapDeg_neg180
  refine ⟨h, by norm_num [atan2DegQ], by rw [h]; norm_num⟩

/-- Claim C5, amended: for every `ANGLE` constraint whose two points resolve
and whose expression evaluates to a number, the residual is the signed
degree difference `angle(p1→p2) − eval(expr)` wrapped by the loop pair
`while > 180 subtract 360; while < −180 add 360` into the *closed* interval
`[-180, 180]`; a raw difference of exactly `-180` is reported as `-180`
(not `+180`). -/
theorem angle_residual_wrapped (st : GeometryState) (i : ID) (t : Option ID) (e : String)
    (a b : ID) (p1 p2 : Point) (v : ℚ)
    (h1 : findPoint st a = some p1) (h2 : findPoint st b = some p2)
    (hv : evaluateExpression (ExprInput.str e) st.vars = some v) :
    computeResidual ⟨i, ConstraintType.ANGLE, [a, b], t, some e⟩ st
      = wrapDeg (atan2DegQ (-(p2.y - p1.y)) (p2.x - p1.x) - v)
    ∧ -180 ≤ computeResidual ⟨i, ConstraintType.ANGLE, [a, b], t, some e⟩ st
    ∧ computeResidual ⟨i, ConstraintType.ANGLE, [a, b], t, some e⟩ st ≤ 180
    ∧ wrapDeg (-180) = -180 := by
  have hne : e ≠ "" := by
    intro hcontra
    rw [hcontra, evaluateExpression_empty] at hv
    exact Option.noConfusion hv
  have heq : computeResidual ⟨i, ConstraintType.ANGLE, [a, b], t, some e⟩ st
      = wrapDeg (atan2DegQ (-(p2.y - p1.y)) (p2.x - p1.x) - v) := by
    simp only [computeResidual, if_neg hne, h1, h2, hv]
  exact ⟨heq, heq ▸ (wrapDeg_bounds _).1, heq ▸ (wrapDeg_bounds _).2, wrapDeg_neg180⟩

/-- Claim C5, witness: the amended theorem applied to the concrete store
`stTwoPoints` and the `ANGLE` constraint with target `180`. -/
theorem angle_residual_wrapped_witness :
    computeResidual ⟨10, ConstraintType.ANGLE, [1, 2], none, some "180"⟩ stTwoPoints
      = wrapDeg (atan2DegQ (-((0 : ℚ) - 0)) ((1 : ℚ) - 0) - 180)
    ∧ -180 ≤ computeResidual ⟨10, ConstraintType.ANGLE, [1, 2], none, some "180"⟩ stTwoPoints
    ∧ computeResidual ⟨10, ConstraintType.ANGLE, [1, 2], none, some "180"⟩ stTwoPoints ≤ 180
    ∧ wrapDeg (-180) = -180 :=
  angle_residual_wrapped stTwoPoints 10 none "180" 1 2 (mkPt 1 0 0 []) (mkPt 2 1 0 []) 180
    (by decide) (by decide)
    (by
      rw [show ("180" : String) = String.mk ['1', '8', '0'] from rfl]
      simp +decide [evaluateExpression, tokenize, parseTokens, parseAdd, parseMul, parsePow,
        parsePrimary, parseAddLoop, parseMulLoop, evaluateAST, parseFloatQ, digitsToNat,
        digitVal])

/-- `updatePoint` with an id-preserving mutation keeps the id sequence. -/
theorem updatePoint_map_id (ps : List Point) (i : ID) (f : Point → Point)
    (hf : ∀ p, (f p).id = p.id) :
    (updatePoint ps i f).map Point.id = ps.map Point.id := by
  induction ps with
  | nil => rfl
  | cons p rest ih =>
    by_cases h : p.id = i <;> simp [updatePoint, h, hf, ih]

/-- Looking up a different id is unaffected by an id-preserving
`updatePoint`. -/
theorem find_updatePoint_ne (ps : List Point) (i j : ID) (f : Point → Point)
    (hf : ∀ p, (f p).id = p.id) (hne : j ≠ i) :
    (updatePoint ps i f).find? (fun p => p.id = j) = ps.find? (fun p => p.id = j) := by
  have hij : ¬(i = j) := fun hc => hne hc.symm
  induction ps with
  | nil => rfl
  | cons p rest ih =>
    by_cases h : p.id = i
    · have h1 : ¬((f p).id = j) := by rw [hf, h]; exact hij
      have h2 : ¬(p.id = j) := by rw [h]; exact hij
      rw [updatePoint, if_pos h, List.find?, List.find?]
      simp [h1, h2]
    · rw [updatePoint, if_neg h, List.find?, List.find?]
      by_cases hj : p.id = j
      · simp [hj]
      · simp [hj, ih]

/-- Looking up the mutated id returns the mutated record. -/
theorem find_updatePoint_self (ps : List Point) (i : ID) (f : Point → Point)
    (hf : ∀ p, (f p).id = p.id) :
    (updatePoint ps i f).find? (fun p => p.id = i)
      = (ps.find? (fun p => p.id = i)).map f := by
  induction ps with
  | nil => rfl
  | cons p rest ih =>
    by_cases h : p.id = i
    · simp [updatePoint, h, List.find?, hf]
    · simp [updatePoint, h, List.find?, ih]

/-- A fresh id is absent from a list of points whose ids are below the
counter. -/
theorem find_fresh_none (ps : List Point) (n : Nat) (h : ∀ p ∈ ps, p.id < n) :
    ps.find? (fun p => p.id = n) = none := by
  rw [List.find?_eq_none]
  intro p hp
  simp only [decide_eq_true_eq]
  exact Nat.ne_of_lt (h p hp)

/-- Claim C2: a successful `addCircleThreePoints` call (three resolvable
points, circumcircle defined) materializes a fresh center point at the
circumcenter, stores the circle with `centerId` referencing it, and the
center point's `childrenIds` contains the circle's id.  (`hfresh` is the
id-allocator invariant: stored point ids lie below the counter.) -/
theorem addCircleThreePoints_center (st : GeometryState) (aId bId cId : ID)
    (p1 p2 p3 : Point) (ccx ccy r : ℚ)
    (hfresh : ∀ p ∈ st.points, p.id < st.nextId)
    (h1 : findPoint st aId = some p1) (h2 : findPoint st bId = some p2)
    (h3 : findPoint st cId = some p3)
    (hcc : calculateCircumcircle p1 p2 p3 = some (ccx, ccy, r)) :
    ∃ (st' : GeometryState) (circ : GCircle) (cp : Point),
      addCircleThreePoints st aId bId cId = some (st', circ, cp)
      ∧ (∀ q ∈ st.points, q.id ≠ cp.id)
      ∧ cp.x = ccx ∧ cp.y = ccy
      ∧ circ.centerId = some cp.id
      ∧ circ.radius = some r
      ∧ circ ∈ st'.circles
      ∧ (∃ cp' : Point, findPoint st' cp.id = some cp' ∧ circ.id ∈ cp'.childrenIds) := by
  have haId : aId < st.nextId := by
    have hmem := List.mem_of_find?_eq_some h1
    have hpred := List.find?_some h1
    simp only [decide_eq_true_eq] at hpred
    exact hpred ▸ hfresh p1 hmem
  have hbId : bId < st.nextId := by
    have hmem := List.mem_of_find?_eq_some h2
    have hpred := List.find?_some h2
    simp only [decide_eq_true_eq] at hpred
    exact hpred ▸ hfresh p2 hmem
  have hcId : cId < st.nextId := by
    have hmem := List.mem_of_find?_eq_some h3
    have hpred := List.find?_some h3
    simp only [decide_eq_true_eq] at hpred
    exact hpred ▸ hfresh p3 hmem
  unfold addCircleThreePoints
  rw [h1, h2, h3]
  dsimp only
  rw [hcc]
  dsimp only [addPoint]
  refine ⟨_, _, _, rfl, ?_, rfl, rfl, rfl, rfl, ?_, ?_⟩
  · intro q hq
    exact Nat.ne_of_lt (hfresh q hq)
  · simp
  · refine ⟨⟨st.nextId, ccx, ccy, st.labelCounter, [st.nextId + 1], false⟩, ?_, by simp⟩
    unfold findPoint
    dsimp only
    simp only [pushChild]
    rw [find_updatePoint_self _ st.nextId
      (fun p => { p with childrenIds := p.childrenIds ++ [st.nextId + 1] }) (fun p => rfl)]
    rw [find_updatePoint_ne _ cId st.nextId
      (fun p => { p with childrenIds := p.childrenIds ++ [st.nextId + 1] }) (fun p => rfl)
      (Nat.ne_of_gt hcId)]
    rw [find_updatePoint_ne _ bId st.nextId
      (fun p => { p with childrenIds := p.childrenIds ++ [st.nextId + 1] }) (fun p => rfl)
      (Nat.ne_of_gt hbId)]
    rw [find_updatePoint_ne _ aId st.nextId
      (fun p => { p with childrenIds := p.childrenIds ++ [st.nextId + 1] }) (fun p => rfl)
      (Nat.ne_of_gt haId)]
    rw [List.find?_append, find_fresh_none st.points st.nextId hfresh]
    simp [List.find?]

/-- Claim C2, witness: the three points `(0,0), (4,0), (0,3)` produce the
circumcenter `(2, 3/2)` and radius `5/2` (spec scenario 5), with all the
claimed wiring. -/
theorem addCircleThreePoints_center_witness :
    (∀ p ∈ stThreePts.points, p.id < stThreePts.nextId)
    ∧ ∃ (st' : GeometryState) (circ : GCircle) (cp : Point),
        addCircleThreePoints stThreePts 1 2 3 = some (st', circ, cp)
        ∧ (∀ q ∈ stThreePts.points, q.id ≠ cp.id)
        ∧ cp.x = 2 ∧ cp.y = 3 / 2
        ∧ circ.centerId = some cp.id
        ∧ circ.radius = some (5 / 2)
        ∧ circ ∈ st'.circles
        ∧ (∃ cp' : Point, findPoint st' cp.id = some cp' ∧ circ.id ∈ cp'.childrenIds) :=
  ⟨by decide,
   addCircleThreePoints_center stThreePts 1 2 3 (mkPt 1 0 0 []) (mkPt 2 4 0 [])
     (mkPt 3 0 3 []) 2 (3 / 2) (5 / 2) (by decide) (by decide) (by decide) (by decide)
     (by
       rw [calculateCircumcircle]
       norm_num [mkPt]
       rw [sqrtQ]
       norm_num
       rw [show Int.toNat 25 = 25 from rfl, show Nat.sqrt 25 = 5 from by norm_num [Nat.sqrt]]
       norm_num)⟩


/-- Every AST the recursive-descent parser produces carries only the five
lexer operators in its `binary` nodes. -/
theorem parser_astWF :
    (∀ ts : List Token, WFOut (parseAdd ts))
    ∧ (∀ (left : AST) (ts : List Token), astWF left = true → WFOut (parseAddLoop left ts))
    ∧ (∀ ts : List Token, WFOut (parseMul ts))
    ∧ (∀ (left : AST) (ts : List Token), astWF left = true → WFOut (parseMulLoop left ts))
    ∧ (∀ ts : List Token, WFOut (parsePow ts))
    ∧ (∀ ts : List Token, WFOut (parsePrimary ts)) := by
  refine parseAdd.mutual_induct
    (fun ts => WFOut (parseAdd ts))
    (fun left ts => astWF left = true → WFOut (parseAddLoop left ts))
    (fun ts => WFOut (parseMul ts))
    (fun left ts => astWF left = true → WFOut (parseMulLoop left ts))
    (fun ts => WFOut (parsePow ts))
    (fun ts => WFOut (parsePrimary ts))
    ?_ ?_ ?_ ?_ ?_ ?_ ?_ ?_ ?_ ?_ ?_ ?_ ?_ ?_ ?_ ?_ ?_ ?_ ?_ ?_ ?_ ?_ ?_ ?_ ?_ ?_ ?_
  -- parseAdd: parseMul fails
  · intro ts hmul _
    simp [WFOut, parseAdd, hmul]
  -- parseAdd: loop fails
  · intro ts l ts1 h1 hmul hloop _ _
    simp [WFOut, parseAdd, hmul, hloop]
  -- parseAdd: success
  · intro ts l ts1 h1 hmul n r hr hloop m3 m2
    have hl : astWF l = true := by simpa [WFOut, hmul] using m3
    have hn : astWF n = true := by simpa [WFOut, hloop] using m2 hl
    simp [WFOut, parseAdd, hmul, hloop, hn]
  -- parseAddLoop: operator matches, parseMul fails
  · intro left c rest hc hmul _ _
    simp [WFOut, parseAddLoop, if_pos hc, hmul]
  -- parseAddLoop: operator matches, recursion fails
  · intro left c rest hc l ts1 h1 hmul hloop _ _ _
    simp [WFOut, parseAddLoop, if_pos hc, hmul, hloop]
  -- parseAddLoop: operator matches, success
  · intro left c rest hc l ts1 h1 hmul n r hr hloop m3 m2 hleft
    have hl : astWF l = true := by simpa [WFOut, hmul] using m3
    have hbin : astWF (AST.binary c left l) = true := by
      rcases hc with h | h <;> simp [astWF, h, hleft, hl]
    have hn : astWF n = true := by simpa [WFOut, hloop] using m2 hbin
    simp [WFOut, parseAddLoop, if_pos hc, hmul, hloop, hn]
  -- parseAddLoop: operator does not match
  · intro left c rest hc hleft
    simp [WFOut, parseAddLoop, if_neg hc, hleft]
  -- parseAddLoop: head is not an operator token
  · intro left other hother hleft
    match other, hother with
    | [], _ => simp [WFOut, parseAddLoop, hleft]
    | Token.NUMBER v :: rest, _ => simp [WFOut, parseAddLoop, hleft]
    | Token.VARIABLE v :: rest, _ => simp [WFOut, parseAddLoop, hleft]
    | Token.OPERATOR c :: rest, hother => exact absurd rfl (hother c rest)
    | Token.LPAREN :: rest, _ => simp [WFOut, parseAddLoop, hleft]
    | Token.RPAREN :: rest, _ => simp [WFOut, parseAddLoop, hleft]
  -- parseMul: parsePow fails
  · intro ts hpow _
    simp [WFOut, parseMul, hpow]
  -- parseMul: loop fails
  · intro ts l ts1 h1 hpow hloop _ _
    simp [WFOut, parseMul, hpow, hloop]
  -- parseMul: success
  · intro ts l ts1 h1 hpow n r hr hloop m5 m4
    have hl : astWF l = true := by simpa [WFOut, hpow] using m5
    have hn : astWF n = true := by simpa [WFOut, hloop] using m4 hl
    simp [WFOut, parseMul, hpow, hloop, hn]
  -- parseMulLoop: operator matches, parsePow fails
  · intro left c rest hc hpow _ _
    simp [WFOut, parseMulLoop, if_pos hc, hpow]
  -- parseMulLoop: operator matches, recursion fails
  · intro left c rest hc l ts1 h1 hpow hloop _ _ _
    simp [WFOut, parseMulLoop, if_pos hc, hpow, hloop]
  -- parseMulLoop: operator matches, success
  · intro left c rest hc l ts1 h1 hpow n r hr hloop m5 m4 hleft
    have hl : astWF l = true := by simpa [WFOut, hpow] using m5
    have hbin : astWF (AST.binary c left l) = true := by
      rcases hc with h | h <;> simp [astWF, h, hleft, hl]
    have hn : astWF n = true := by simpa [WFOut, hloop] using m4 hbin
    simp [WFOut, parseMulLoop, if_pos hc, hpow, hloop, hn]
  -- parseMulLoop: operator does not match
  · intro left c rest hc hleft
    simp [WFOut, parseMulLoop, if_neg hc, hleft]
  -- parseMulLoop: head is not an operator token
  · intro left other hother hleft
    match other, hother with
    | [], _ => simp [WFOut, parseMulLoop, hleft]
    | Token.NUMBER v :: rest, _ => simp [WFOut, parseMulLoop, hleft]
    | Token.VARIABLE v :: rest, _ => simp [WFOut, parseMulLoop, hleft]
    | Token.OPERATOR c :: rest, hother => exact absurd rfl (hother c rest)
    | Token.LPAREN :: rest, _ => simp [WFOut, parseMulLoop, hleft]
    | Token.RPAREN :: rest, _ => simp [WFOut, parseMulLoop, hleft]
  -- parsePow: parsePrimary fails
  · intro ts hprim _
    simp [WFOut, parsePow, hprim]
  -- parsePow: caret, recursive parsePow fails
  · intro ts base rest hpow h1 hprim _ _
    simp [WFOut, parsePow, hprim, hpow]
  -- parsePow: caret, success
  · intro ts base rest l ts1 h1 hpow h1b hprim m6 m5
    have hbase : astWF base = true := by simpa [WFOut, hprim] using m6
    have hl : astWF l = true := by simpa [WFOut, hpow] using m5
    simp [WFOut, parsePow, hprim, hpow, astWF, hbase, hl]
  -- parsePow: operator other than caret
  · intro ts base c rest h1 hprim hc m6
    have hbase : astWF base = true := by simpa [WFOut, hprim] using m6
    simp [WFOut, parsePow, hprim, hc, hbase]
  -- parsePow: no trailing operator token
  · intro ts base ts1 h1 hts1 hprim m6
    have hbase : astWF base = true := by simpa [WFOut, hprim] using m6
    match ts1, h1, hts1, hprim with
    | [], h1, _, hprim => simp [WFOut, parsePow, hprim, hbase]
    | Token.NUMBER v :: rest, h1, _, hprim => simp [WFOut, parsePow, hprim, hbase]
    | Token.VARIABLE v :: rest, h1, _, hprim => simp [WFOut, parsePow, hprim, hbase]
    | Token.OPERATOR c :: rest, h1, hts1, _ => exact absurd rfl (hts1 c rest)
    | Token.LPAREN :: rest, h1, _, hprim => simp [WFOut, parsePow, hprim, hbase]
    | Token.RPAREN :: rest, h1, _, hprim => simp [WFOut, parsePow, hprim, hbase]
  -- parsePrimary: NUMBER
  · intro v rest
    simp [WFOut, parsePrimary, astWF]
  -- parsePrimary: VARIABLE
  · intro v rest
    simp [WFOut, parsePrimary, astWF]
  -- parsePrimary: LPAREN, parseAdd fails
  · intro rest hadd _
    simp [WFOut, parsePrimary, hadd]
  -- parsePrimary: LPAREN, parseAdd succeeds with RPAREN
  · intro rest e r2 h1 hadd m1
    have he : astWF e = true := by simpa [WFOut, hadd] using m1
    simp [WFOut, parsePrimary, hadd, he]
  -- parsePrimary: LPAREN, parseAdd succeeds without RPAREN
  · intro rest val hval hadd _
    match val, hval, hadd with
    | (e, ⟨[], hl⟩), _, hadd => simp [WFOut, parsePrimary, hadd]
    | (e, ⟨Token.NUMBER v :: r2, hl⟩), _, hadd => simp [WFOut, parsePrimary, hadd]
    | (e, ⟨Token.VARIABLE v :: r2, hl⟩), _, hadd => simp [WFOut, parsePrimary, hadd]
    | (e, ⟨Token.OPERATOR c :: r2, hl⟩), _, hadd => simp [WFOut, parsePrimary, hadd]
    | (e, ⟨Token.LPAREN :: r2, hl⟩), _, hadd => simp [WFOut, parsePrimary, hadd]
    | (e, ⟨Token.RPAREN :: r2, hl⟩), hval, _ => exact absurd rfl (hval e r2 hl)
  -- parsePrimary: fallthrough
  · intro ts hnum hvar hlp
    match ts, hnum, hvar, hlp with
    | [], _, _, _ => simp [WFOut, parsePrimary]
    | Token.NUMBER v :: rest, hnum, _, _ => exact absurd rfl (hnum v rest)
    | Token.VARIABLE v :: rest, _, hvar, _ => exact absurd rfl (hvar v rest)
    | Token.OPERATOR c :: rest, _, _, _ => simp [WFOut, parsePrimary]
    | Token.LPAREN :: rest, _, _, hlp => exact absurd rfl (hlp rest)
    | Token.RPAREN :: rest, _, _, _ => simp [WFOut, parsePrimary]

/-- A full parse yields an operator-well-formed AST. -/
theorem parseTokens_astWF (ts : List Token) (a : AST) (h : parseTokens ts = some a) :
    astWF a = true := by
  unfold parseTokens at h
  rcases hpa : parseAdd ts with _ | out
  · rw [hpa] at h
    exact Option.noConfusion h
  · have hwf := parser_astWF.1 ts
    rw [hpa] at h hwf
    rcases out with ⟨n, ⟨rts, hlt⟩⟩
    cases rts with
    | nil =>
      simp only [Option.some.injEq] at h
      rw [← h]
      exact hwf
    | cons t rts2 => exact Option.noConfusion h
  
/-- `evaluateAST` returns the unresolved sentinel exactly under the claim's
conditions (a) and (b), for parser-producible ASTs. -/
theorem evaluateAST_none_iff (vars : VarMap) :
    ∀ a : AST, astWF a = true →
      (evaluateAST vars a = none ↔ astNullCond vars a = true) := by
  intro a
  induction a with
  | number v => intro _; simp [evaluateAST, astNullCond]
  | «variable» n =>
    intro _
    rcases hfv : findVar vars n with _ | v
    · simp [evaluateAST, astNullCond, hfv]
    · rcases hvv : v.value with _ | q <;> simp [evaluateAST, astNullCond, hfv, hvv]
  | binary op l r ihl ihr =>
    intro hwf
    simp only [astWF, Bool.and_eq_true, decide_eq_true_eq] at hwf
    obtain ⟨⟨hop, hl⟩, hr⟩ := hwf
    have Hl := ihl hl
    have Hr := ihr hr
    rcases hel : evaluateAST vars l with _ | lv <;>
      rcases her : evaluateAST vars r with _ | rv
    · rw [hel] at Hl
      simp [evaluateAST, astNullCond, hel, her, Hl.mp rfl]
    · rw [hel] at Hl
      simp [evaluateAST, astNullCond, hel, her, Hl.mp rfl]
    · rw [her] at Hr
      simp [evaluateAST, astNullCond, hel, her, Hr.mp rfl]
    · have hcl : astNullCond vars l = false := by
        rcases hb : astNullCond vars l
        · rfl
        · rw [hel] at Hl
          exact absurd (Hl.mpr hb) (by simp)
      have hcr : astNullCond vars r = false := by
        rcases hb : astNullCond vars r
        · rfl
        · rw [her] at Hr
          exact absurd (Hr.mpr hb) (by simp)
      rcases hop with h | h | h | h | h <;> subst h <;>
        simp [evaluateAST, astNullCond, hel, her, hcl, hcr]

/-- Claim C4: for every expression string and variable map,
`evaluateExpression` returns the unresolved sentinel (`none`) exactly when
(a) a referenced variable is absent or has a null value, (b) an evaluated
division's right operand is exactly `0`, or (c) tokenizing fails (unknown
character) or parsing fails (syntax error); conditions (a) and (b) are
captured by `astNullCond` on the parsed AST.  The embedded pipeline is a
total function — the source's internal parser exceptions are caught at this
boundary and folded into the sentinel, and division by exact zero produces
the sentinel rather than an infinity. -/
theorem evaluateExpression_none_iff (s : String) (vars : VarMap) :
    evaluateExpression (ExprInput.str s) vars = none
      ↔ (tokenize s.toList = none
          ∨ (∃ ts, tokenize s.toList = some ts ∧ parseTokens ts = none)
          ∨ (∃ a, parseExprString s = some a ∧ astNullCond vars a = true)) := by
  unfold evaluateExpression parseExprString
  rw [show s.toList = s.data from rfl]
  rcases htok : tokenize s.data with _ | ts
  · simp [htok]
  · rcases hp : parseTokens ts with _ | a
    · simp [htok, hp]
    · have hwf := parseTokens_astWF ts a hp
      simp [htok, hp, evaluateAST_none_iff vars a hwf]

/-- Two successive id-preserving mutations of the same id collapse. -/
theorem updatePoint_same (ps : List Point) (i : ID) (f g : Point → Point)
    (hf : ∀ p, (f p).id = p.id) :
    updatePoint (updatePoint ps i f) i g = updatePoint ps i (fun p => g (f p)) := by
  induction ps with
  | nil => rfl
  | cons p rest ih =>
    by_cases h : p.id = i
    · simp [updatePoint, h, hf]
    · simp [updatePoint, h, ih]

/-- Id-preserving mutations of different ids commute. -/
theorem updatePoint_comm (ps : List Point) (i j : ID) (f g : Point → Point)
    (hf : ∀ p, (f p).id = p.id) (hg : ∀ p, (g p).id = p.id) (hij : i ≠ j) :
    updatePoint (updatePoint ps i f) j g = updatePoint (updatePoint ps j g) i f := by
  induction ps with
  | nil => rfl
  | cons p rest ih =>
    by_cases h : p.id = i
    · simp [updatePoint, h, hf, hg, hij, Ne.symm hij]
    · by_cases hj : p.id = j
      · simp [updatePoint, h, hj, hg, hij, Ne.symm hij]
      · simp [updatePoint, h, hj, ih]

/-- Writing the same point slot twice keeps only the second write. -/
theorem applyPC_same (ps : List Point) (e f : PCEntry)
    (hid : e.pointId = f.pointId) (hco : e.coord = f.coord) :
    applyPC (applyPC ps e) f = applyPC ps f := by
  unfold applyPC
  rw [hid, updatePoint_same _ _ _ _ (fun p => by rcases he : e.coord <;> simp [he])]
  congr 1
  funext p
  rcases he : e.coord <;> rcases hf2 : f.coord <;> rw [he] at hco <;>
    first
      | (rw [← hco, he])
      | (exact absurd hco (by rw [hf2]; simp))

/-- Writes to different point slots commute. -/
theorem applyPC_comm (ps : List Point) (e f : PCEntry)
    (h : e.pointId ≠ f.pointId ∨ e.coord ≠ f.coord) :
    applyPC (applyPC ps e) f = applyPC (applyPC ps f) e := by
  unfold applyPC
  rcases h with h | h
  · exact updatePoint_comm _ _ _ _ _
      (fun p => by rcases e.coord <;> rfl) (fun p => by rcases f.coord <;> rfl) h
  · by_cases hid : e.pointId = f.pointId
    · rw [hid]
      rw [updatePoint_same _ _ _ _ (fun p => by rcases e.coord <;> rfl)]
      rw [updatePoint_same _ _ _ _ (fun p => by rcases f.coord <;> rfl)]
      congr 1
      funext p
      rcases he : e.coord <;> rcases hf2 : f.coord <;> simp_all
    · exact updatePoint_comm _ _ _ _ _
        (fun p => by rcases e.coord <;> rfl) (fun p => by rcases f.coord <;> rfl) hid

/-- Two successive mutations of the same variable name collapse. -/
theorem updateVar_same (vs : List Variable) (n : String) (f g : Variable → Variable)
    (hf : ∀ v, (f v).name = v.name) :
    updateVar (updateVar vs n f) n g = updateVar vs n (fun v => g (f v)) := by
  induction vs with
  | nil => rfl
  | cons v rest ih =>
    by_cases h : v.name = n
    · simp [updateVar, h, hf]
    · simp [updateVar, h, ih]

/-- Writing the same variable slot twice keeps only the second write. -/
theorem applyVV_same (vs : List Variable) (e f : VVEntry) (hid : e.name = f.name) :
    applyVV (applyVV vs e) f = applyVV vs f := by
  unfold applyVV
  rw [hid, updateVar_same vs f.name (fun v => { v with value := some e.value })
    (fun v => { v with value := some f.value }) (fun v => rfl)]

/-- Name-preserving mutations of different names commute. -/
theorem updateVar_comm (vs : List Variable) (n m : String) (f g : Variable → Variable)
    (hf : ∀ v, (f v).name = v.name) (hg : ∀ v, (g v).name = v.name) (hnm : n ≠ m) :
    updateVar (updateVar vs n f) m g = updateVar (updateVar vs m g) n f := by
  induction vs with
  | nil => rfl
  | cons v rest ih =>
    by_cases h : v.name = n
    · simp [updateVar, h, hf, hg, hnm, Ne.symm hnm]
    · by_cases hm : v.name = m
      · simp [updateVar, h, hm, hg, hnm, Ne.symm hnm]
      · simp [updateVar, h, hm, ih]

/-- Writes to different variable names commute. -/
theorem applyVV_comm (vs : List Variable) (e f : VVEntry) (h : e.name ≠ f.name) :
    applyVV (applyVV vs e) f = applyVV (applyVV vs f) e :=
  updateVar_comm vs e.name f.name _ _ (fun v => rfl) (fun v => rfl) h

/-- A point write whose slot is written again later in the fold is
absorbed. -/
theorem foldl_applyPC_absorb (pcs : List PCEntry) :
    ∀ (ps : List Point) (e : PCEntry),
      (e.pointId, e.coord) ∈ pcs.map (fun x => (x.pointId, x.coord)) →
      pcs.foldl applyPC (applyPC ps e) = pcs.foldl applyPC ps := by
  induction pcs with
  | nil => intro ps e h; simp at h
  | cons f fs ih =>
    intro ps e h
    simp only [List.map_cons, List.mem_cons] at h
    rcases h with h | h
    · simp only [List.foldl_cons]
      rw [applyPC_same ps e f (congrArg Prod.fst h) (congrArg Prod.snd h)]
    · by_cases hslot : e.pointId = f.pointId ∧ e.coord = f.coord
      · simp only [List.foldl_cons]
        rw [applyPC_same ps e f hslot.1 hslot.2]
      · have hne : e.pointId ≠ f.pointId ∨ e.coord ≠ f.coord := by
          by_cases h1 : e.pointId = f.pointId
          · exact Or.inr (fun h2 => hslot ⟨h1, h2⟩)
          · exact Or.inl h1
        simp only [List.foldl_cons]
        rw [applyPC_comm ps e f hne]
        exact ih (applyPC ps f) e h

/-- A whole fold of point writes over slots all re-written by a second fold
is absorbed by it. -/
theorem foldl_applyPC_absorb_all (pcs1 : List PCEntry) :
    ∀ (pcs2 : List PCEntry) (ps : List Point),
      (∀ e ∈ pcs1, (e.pointId, e.coord) ∈ pcs2.map (fun x => (x.pointId, x.coord))) →
      pcs2.foldl applyPC (pcs1.foldl applyPC ps) = pcs2.foldl applyPC ps := by
  induction pcs1 with
  | nil => intro pcs2 ps _; rfl
  | cons e es ih =>
    intro pcs2 ps h
    simp only [List.foldl_cons]
    rw [ih pcs2 (applyPC ps e) (fun x hx => h x (List.mem_cons_of_mem e hx))]
    exact foldl_applyPC_absorb pcs2 ps e (h e (List.mem_cons_self e es))

/-- A variable write whose name is written again later in the fold is
absorbed. -/
theorem foldl_applyVV_absorb (vvs : List VVEntry) :
    ∀ (vs : List Variable) (e : VVEntry),
      e.name ∈ vvs.map (fun x => x.name) →
      vvs.foldl applyVV (applyVV vs e) = vvs.foldl applyVV vs := by
  induction vvs with
  | nil => intro vs e h; simp at h
  | cons f fs ih =>
    intro vs e h
    simp only [List.map_cons, List.mem_cons] at h
    rcases h with h | h
    · simp only [List.foldl_cons]
      rw [applyVV_same vs e f h]
    · by_cases hn : e.name = f.name
      · simp only [List.foldl_cons]
        rw [applyVV_same vs e f hn]
      · simp only [List.foldl_cons]
        rw [applyVV_comm vs e f hn]
        exact ih (applyVV vs f) e h

/-- A whole fold of variable writes over names all re-written by a second
fold is absorbed by it. -/
theorem foldl_applyVV_absorb_all (vvs1 : List VVEntry) :
    ∀ (vvs2 : List VVEntry) (vs : List Variable),
      (∀ e ∈ vvs1, e.name ∈ vvs2.map (fun x => x.name)) →
      vvs2.foldl applyVV (vvs1.foldl applyVV vs) = vvs2.foldl applyVV vs := by
  induction vvs1 with
  | nil => intro vvs2 vs _; rfl
  | cons e es ih =>
    intro vvs2 vs h
    simp only [List.foldl_cons]
    rw [ih vvs2 (applyVV vs e) (fun x hx => h x (List.mem_cons_of_mem e hx))]
    exact foldl_applyVV_absorb vvs2 vs e (h e (List.mem_cons_self e es))

/-- `unflattenParams` keeps the slot structure of its template. -/
theorem unflatten_slots (flat : List ℚ) (params : SolverParams) :
    ((unflattenParams flat params).pointCoords.map (fun x => (x.pointId, x.coord))
        = params.pointCoords.map (fun x => (x.pointId, x.coord)))
    ∧ ((unflattenParams flat params).variableValues.map (fun x => x.name)
        = params.variableValues.map (fun x => x.name)) := by
  unfold unflattenParams
  dsimp only
  constructor
  · rw [List.mapIdx_eq_enum_map, List.map_map]
    have h : ∀ p ∈ params.pointCoords.enum,
        ((fun x => (x.pointId, x.coord)) ∘ Function.uncurry fun i e =>
          ({ pointId := e.pointId, coord := e.coord, value := flat.getD i 0 } : PCEntry)) p
        = ((fun x => (x.pointId, x.coord)) ∘ Prod.snd) p := fun p _ => rfl
    rw [List.map_congr_left h, ← List.map_map, List.enum_map_snd]
  · rw [List.mapIdx_eq_enum_map, List.map_map]
    have h : ∀ p ∈ params.variableValues.enum,
        ((fun x => x.name) ∘ Function.uncurry fun i e =>
          ({ name := e.name, value := flat.getD (params.pointCoords.length + i) 0 } : VVEntry)) p
        = ((fun x => x.name) ∘ Prod.snd) p := fun p _ => rfl
    rw [List.map_congr_left h, ← List.map_map, List.enum_map_snd]

/-- Applying a parameter set absorbs any earlier application of a parameter
set with the same slots. -/
theorem applyParams_absorb (s : GeometryState) (q p : SolverParams)
    (hp : q.pointCoords.map (fun x => (x.pointId, x.coord))
        = p.pointCoords.map (fun x => (x.pointId, x.coord)))
    (hv : q.variableValues.map (fun x => x.name) = p.variableValues.map (fun x => x.name)) :
    applyParams (applyParams s q) p = applyParams s p := by
  have hpts : p.pointCoords.foldl applyPC (q.pointCoords.foldl applyPC s.points)
      = p.pointCoords.foldl applyPC s.points :=
    foldl_applyPC_absorb_all _ _ _
      (fun e he => hp ▸ List.mem_map_of_mem (fun x => (x.pointId, x.coord)) he)
  have hvars : p.variableValues.foldl applyVV (q.variableValues.foldl applyVV s.vars)
      = p.variableValues.foldl applyVV s.vars :=
    foldl_applyVV_absorb_all _ _ _
      (fun e he => hv ▸ List.mem_map_of_mem (fun x => x.name) he)
  unfold applyParams
  dsimp only
  rw [hpts, hvars]

/-- Applying the same parameter set twice equals applying it once. -/
theorem applyParams_idem (s : GeometryState) (p : SolverParams) :
    applyParams (applyParams s p) p = applyParams s p :=
  applyParams_absorb s p p rfl rfl

/-- Applying the template parameters absorbs any earlier application of an
`unflattenParams` refit of the same template. -/
theorem applyParams_unflatten_absorb (s : GeometryState) (v : List ℚ) (p : SolverParams) :
    applyParams (applyParams s (unflattenParams v p)) p = applyParams s p :=
  applyParams_absorb s (unflattenParams v p) p (unflatten_slots v p).1 (unflatten_slots v p).2

/-- The Jacobian loop's final state collapses to the baseline application
under a further application of the template parameters. -/
theorem jacStep_foldl_applied (flat : List ℚ) (params : SolverParams) (base : List ℚ)
    (n : Nat) :
    ∀ (l : List Nat) (acc : List (List ℚ) × GeometryState),
      applyParams (l.foldl (jacStep flat params base n) acc).2 params
        = applyParams acc.2 params := by
  intro l
  induction l with
  | nil => intro acc; rfl
  | cons i is ih =>
    intro acc
    rw [List.foldl_cons, ih]
    show applyParams (applyParams acc.2 (unflattenParams _ params)) params = _
    rw [applyParams_unflatten_absorb]

/-- `computeJacobian` restores the state it was given whenever that state
already has the parameters applied. -/
theorem jacState_applied (st : GeometryState) (p : SolverParams) :
    (computeJacobianS (applyParams st p) p).2 = applyParams st p := by
  unfold computeJacobianS
  dsimp only
  by_cases h : (flattenParams p).length = 0 ∨ (applyParams st p).constraints.length = 0
  · rw [if_pos h]
  · rw [if_neg h]
    dsimp only
    rw [jacStep_foldl_applied]
    dsimp only
    rw [applyParams_idem, applyParams_idem]

/-- `applyParams` only writes the `points` and `vars` containers. -/
theorem applyParams_frame (s : GeometryState) (p : SolverParams) :
    (applyParams s p).segments = s.segments ∧ (applyParams s p).circles = s.circles
    ∧ (applyParams s p).arcs = s.arcs ∧ (applyParams s p).constraints = s.constraints :=
  ⟨rfl, rfl, rfl, rfl⟩

/-- The Jacobian loop's state keeps the non-point, non-variable
containers. -/
theorem jacStep_foldl_frame (flat : List ℚ) (params : SolverParams) (base : List ℚ)
    (n : Nat) :
    ∀ (l : List Nat) (acc : List (List ℚ) × GeometryState),
      ((l.foldl (jacStep flat params base n) acc).2.segments = acc.2.segments)
      ∧ ((l.foldl (jacStep flat params base n) acc).2.circles = acc.2.circles)
      ∧ ((l.foldl (jacStep flat params base n) acc).2.arcs = acc.2.arcs)
      ∧ ((l.foldl (jacStep flat params base n) acc).2.constraints = acc.2.constraints) := by
  intro l
  induction l with
  | nil => intro acc; exact ⟨rfl, rfl, rfl, rfl⟩
  | cons i is ih =>
    intro acc
    rw [List.foldl_cons]
    exact ih (jacStep flat params base n acc i)

/-- `computeJacobian` keeps the non-point, non-variable containers. -/
theorem jacState_frame (s : GeometryState) (p : SolverParams) :
    ((computeJacobianS s p).2.segments = s.segments)
    ∧ ((computeJacobianS s p).2.circles = s.circles)
    ∧ ((computeJacobianS s p).2.arcs = s.arcs)
    ∧ ((computeJacobianS s p).2.constraints = s.constraints) := by
  unfold computeJacobianS
  dsimp only
  by_cases h : (flattenParams p).length = 0 ∨ s.constraints.length = 0
  · rw [if_pos h]
    exact ⟨rfl, rfl, rfl, rfl⟩
  · rw [if_neg h]
    dsimp only
    have hf := jacStep_foldl_frame (flattenParams p) p (computeResiduals (applyParams s p))
      s.constraints.length (List.range (flattenParams p).length) ([], applyParams s p)
    exact ⟨hf.1, hf.2.1, hf.2.2.1, hf.2.2.2⟩

/-- The LM loop never touches the segment, circle, arc or constraint
containers. -/
theorem lmLoop_frame :
    ∀ (fuel iter : Nat) (st : GeometryState) (params : SolverParams) (flat : List ℚ)
      (lam : ℚ),
      ((lmLoop fuel iter st params flat lam).1.segments = st.segments)
      ∧ ((lmLoop fuel iter st params flat lam).1.circles = st.circles)
      ∧ ((lmLoop fuel iter st params flat lam).1.arcs = st.arcs)
      ∧ ((lmLoop fuel iter st params flat lam).1.constraints = st.constraints) := by
  intro fuel
  induction fuel with
  | zero => intro iter st params flat lam; exact ⟨rfl, rfl, rfl, rfl⟩
  | succ f ih =>
    intro iter st params flat lam
    simp only [lmLoop]
    split
    · exact ⟨rfl, rfl, rfl, rfl⟩
    · split
      · have hj := jacState_frame (applyParams st params) params
        exact ⟨hj.1, hj.2.1, hj.2.2.1, hj.2.2.2⟩
      · have hj := jacState_frame (applyParams st params) params
        split
        · exact ⟨(ih _ _ _ _ _).1.trans hj.1, (ih _ _ _ _ _).2.1.trans hj.2.1,
            (ih _ _ _ _ _).2.2.1.trans hj.2.2.1, (ih _ _ _ _ _).2.2.2.trans hj.2.2.2⟩
        · exact ⟨(ih _ _ _ _ _).1.trans hj.1, (ih _ _ _ _ _).2.1.trans hj.2.1,
            (ih _ _ _ _ _).2.2.1.trans hj.2.2.1, (ih _ _ _ _ _).2.2.2.trans hj.2.2.2⟩

/-- `solve` keeps the segment, circle, arc and constraint containers of the
state it is given (only points and variables are written). -/
theorem solve_frame (st : GeometryState) :
    ((solve st).1.segments = st.segments)
    ∧ ((solve st).1.circles = st.circles)
    ∧ ((solve st).1.arcs = st.arcs)
    ∧ ((solve st).1.constraints = st.constraints) := by
  unfold solve
  split
  · exact ⟨rfl, rfl, rfl, rfl⟩
  · dsimp only
    split
    · exact ⟨rfl, rfl, rfl, rfl⟩
    · exact lmLoop_frame MAX_ITERATIONS 0 st (extractFreeParams st)
        (flattenParams (extractFreeParams st)) LAMBDA_INITIAL

/-- C6.  For every state and every candidate constraint, `validateConstraint`
leaves the caller's state unchanged: the trial solve runs on the clone, and
since the solver writes only point coordinates and variable values — which
the clone deep-copies — while the shallow-shared segment, circle and arc
records are never written by the solve, the caller's state after the call
(points, variables, segments, circles, arcs, constraint list, counters) is
exactly the state before the call, regardless of whether the trial solve
succeeds. -/
theorem validateConstraint_state_frame (st : GeometryState) (c : Constraint) :
    callerStateAfterValidate st c = st := by
  unfold callerStateAfterValidate
  dsimp only
  have h := solve_frame (mkTrialState st c)
  rw [h.1, h.2.1, h.2.2.1]
  rfl

/-- The head residual norm of an already-applied state: re-applying the
same parameter record is a no-op. -/
theorem headErrSq_applied (s : GeometryState) (q : SolverParams) :
    headErrSq (applyParams s q) q = vecNormSq (computeResiduals (applyParams s q)) := by
  unfold headErrSq
  rw [applyParams_idem]

/-- Re-applying the template parameters to the trial state restores the
iteration-head state: the trial write is absorbed slot by slot. -/
theorem restore_state (st : GeometryState) (p : SolverParams) (v : List ℚ) :
    applyParams (applyParams (computeJacobianS (applyParams st p) p).2 (unflattenParams v p)) p
      = applyParams st p := by
  rw [applyParams_unflatten_absorb, jacState_applied, applyParams_idem]

/-- With fuel left, the LM head-norm trace starts with the current head
residual norm in every branch. -/
theorem lmHeads_head (fuel : Nat) (st : GeometryState) (params : SolverParams)
    (flat : List ℚ) (lam : ℚ) :
    (lmHeads (fuel + 1) st params flat lam).head? = some (headErrSq st params) := by
  simp only [lmHeads]
  split
  · rfl
  · split
    · rfl
    · split
      · rfl
      · rfl

/-- The LM head-norm trace is non-increasing: an accepted step strictly
decreases the head norm, and a rejected step repeats it. -/
theorem lmHeads_chain :
    ∀ (fuel : Nat) (st : GeometryState) (params : SolverParams) (flat : List ℚ) (lam : ℚ),
      List.Chain' (fun a b => b ≤ a) (lmHeads fuel st params flat lam) := by
  intro fuel
  induction fuel with
  | zero => intro st params flat lam; simp [lmHeads]
  | succ f ih =>
    intro st params flat lam
    simp only [lmHeads]
    split
    · exact List.chain'_singleton _
    · split
      · exact List.chain'_singleton _
      · split
        · rename_i hacc
          refine List.chain'_cons'.mpr ⟨?_, ih _ _ _ _⟩
          intro y hy
          cases f with
          | zero => simp [lmHeads] at hy
          | succ g =>
            rw [lmHeads_head, Option.mem_def, Option.some_inj] at hy
            rw [← hy, headErrSq_applied]
            exact le_of_lt hacc
        · rename_i hrej
          refine List.chain'_cons'.mpr ⟨?_, ih _ _ _ _⟩
          intro y hy
          cases f with
          | zero => simp [lmHeads] at hy
          | succ g =>
            rw [lmHeads_head, Option.mem_def, Option.some_inj] at hy
            rw [← hy, headErrSq_applied, restore_state]

/-- C7.  During any run of `solve`, the sequence of residual norms at the
LM iteration heads (squared recoding) is non-increasing: a trial step
`old + delta` is accepted only when the new residual norm is strictly
below the current one (`lmHeads` repeats the head norm on a reject and
strictly drops on an accept), and a rejected step restores the previous
parameters: the loop is extensionally equal to `lmStepNorm`, whose reject
branch continues from the iteration-head state `applyParams st params`
with the parameter record and flat vector unchanged. -/
theorem lm_accepted_norms_monotone :
    (∀ (fuel : Nat) (st : GeometryState) (params : SolverParams) (flat : List ℚ) (lam : ℚ),
      List.Chain' (fun a b => b ≤ a) (lmHeads fuel st params flat lam))
    ∧ (∀ (fuel iter : Nat) (st : GeometryState) (params : SolverParams)
        (flat : List ℚ) (lam : ℚ),
      lmLoop (fuel + 1) iter st params flat lam = lmStepNorm fuel iter st params flat lam) := by
  refine ⟨lmHeads_chain, ?_⟩
  intro fuel iter st params flat lam
  simp only [lmLoop, lmStepNorm]
  rw [restore_state]

/-- State extension is reflexive. -/
theorem ExtendsSt_refl (s : GeometryState) : ExtendsSt s s :=
  ⟨rfl, rfl, le_refl _, [], by simp, by simp⟩

/-- State extension is transitive. -/
theorem ExtendsSt_trans {a b c : GeometryState} (h1 : ExtendsSt a b) (h2 : ExtendsSt b c) :
    ExtendsSt a c := by
  obtain ⟨hs1, hc1, hn1, n1, hp1, hf1⟩ := h1
  obtain ⟨hs2, hc2, hn2, n2, hp2, hf2⟩ := h2
  refine ⟨hs2.trans hs1, hc2.trans hc1, hn1.trans hn2, n1 ++ n2, ?_, ?_⟩
  · rw [hp2, hp1, List.append_assoc]
  · intro p hp
    rcases List.mem_append.mp hp with h | h
    · exact hf1 p h
    · exact hn1.trans (hf2 p h)

/-- An existing nearby point stays nearby in any extension. -/
theorem pointExistsAt_mono (s s' : GeometryState) (hext : ExtendsSt s s') (x y : ℚ)
    (h : pointExistsAt s x y = true) : pointExistsAt s' x y = true := by
  obtain ⟨-, -, -, news, hpts, -⟩ := hext
  unfold pointExistsAt at h ⊢
  rw [hpts, List.any_append, h, Bool.true_or]

/-- Point lookup of a pre-existing id is unchanged by appending fresh
points: every appended id is at least the old allocator counter. -/
theorem findPoint_stable (st0 s : GeometryState) (hext : ExtendsSt st0 s) (id : ID)
    (hid : id < st0.nextId) : findPoint s id = findPoint st0 id := by
  obtain ⟨-, -, -, news, hpts, hfresh⟩ := hext
  unfold findPoint
  rw [hpts, List.find?_append]
  have hnone : news.find? (fun p => p.id = id) = none := by
    apply List.find?_eq_none.mpr
    intro p hp
    simp only [decide_eq_true_eq]
    exact fun heq => Nat.lt_irrefl id (Nat.lt_of_lt_of_le hid (heq ▸ hfresh p hp))
  rw [hnone]
  cases List.find? (fun p => p.id = id) st0.points <;> rfl

/-- The intersection pass's circle lookup is unchanged by appending fresh
points. -/
theorem gccrIx_stable (st0 s : GeometryState) (hext : ExtendsSt st0 s) (circ : GCircle)
    (hc : OptBelow st0.nextId circ.centerId) :
    getCircleCenterRadiusIx s circ = getCircleCenterRadiusIx st0 circ := by
  unfold getCircleCenterRadiusIx
  cases hcid : circ.centerId with
  | none => rfl
  | some cid =>
    dsimp only
    rw [findPoint_stable st0 s hext cid (by rw [hcid] at hc; exact hc)]

/-- Segment/segment candidates depend only on the pre-existing endpoint
records, so they are unchanged by appending fresh points. -/
theorem ssCands_stable (st0 s : GeometryState) (h0 : IxWF st0) (hext : ExtendsSt st0 s)
    (pr : Segment × Segment) (h1 : pr.1 ∈ st0.segments) (h2 : pr.2 ∈ st0.segments) :
    ssCands s pr = ssCands st0 pr := by
  unfold ssCands
  rw [findPoint_stable st0 s hext pr.1.p1 (h0.2.1 pr.1 h1).1,
      findPoint_stable st0 s hext pr.1.p2 (h0.2.1 pr.1 h1).2,
      findPoint_stable st0 s hext pr.2.p1 (h0.2.1 pr.2 h2).1,
      findPoint_stable st0 s hext pr.2.p2 (h0.2.1 pr.2 h2).2]

/-- Segment/circle candidates are unchanged by appending fresh points. -/
theorem scCands_stable (st0 s : GeometryState) (h0 : IxWF st0) (hext : ExtendsSt st0 s)
    (pr : Segment × GCircle) (h1 : pr.1 ∈ st0.segments) (h2 : pr.2 ∈ st0.circles) :
    scCands s pr = scCands st0 pr := by
  unfold scCands
  rw [findPoint_stable st0 s hext pr.1.p1 (h0.2.1 pr.1 h1).1,
      findPoint_stable st0 s hext pr.1.p2 (h0.2.1 pr.1 h1).2,
      gccrIx_stable st0 s hext pr.2 (h0.2.2 pr.2 h2)]

/-- Circle/circle candidates are unchanged by appending fresh points. -/
theorem ccCands_stable (st0 s : GeometryState) (h0 : IxWF st0) (hext : ExtendsSt st0 s)
    (pr : GCircle × GCircle) (h1 : pr.1 ∈ st0.circles) (h2 : pr.2 ∈ st0.circles) :
    ccCands s pr = ccCands st0 pr := by
  unfold ccCands
  rw [gccrIx_stable st0 s hext pr.1 (h0.2.2 pr.1 h1),
      gccrIx_stable st0 s hext pr.2 (h0.2.2 pr.2 h2)]

/-- Handling one candidate only ever appends one fresh point. -/
theorem processCand_extends (acc : GeometryState × List Point) (q : ℚ × ℚ) :
    ExtendsSt acc.1 (processCand acc q).1 := by
  unfold processCand
  split
  · exact ExtendsSt_refl _
  · exact ⟨rfl, rfl, Nat.le_succ _, [⟨acc.1.nextId, q.1, q.2, acc.1.labelCounter, [], false⟩],
      rfl, by intro p hp; simp at hp; subst hp; exact le_refl _⟩

/-- After handling a candidate, a point lies within tolerance of it. -/
theorem processCand_covers (acc : GeometryState × List Point) (q : ℚ × ℚ) :
    pointExistsAt (processCand acc q).1 q.1 q.2 = true := by
  unfold processCand
  split
  · next h => exact h
  · show pointExistsAt (addPoint acc.1 q.1 q.2).1 q.1 q.2 = true
    unfold pointExistsAt addPoint
    simp only [List.any_append, List.any_cons, List.any_nil, Bool.or_false]
    have : |q.1 - q.1| < EPSILON ∧ |q.2 - q.2| < EPSILON := by
      constructor <;> · rw [sub_self, abs_zero]; norm_num [EPSILON]
    rw [decide_eq_true this, Bool.or_true]

/-- The candidate fold only ever appends fresh points. -/
theorem foldl_pc_extends :
    ∀ (cs : List (ℚ × ℚ)) (acc : GeometryState × List Point),
      ExtendsSt acc.1 (cs.foldl processCand acc).1 := by
  intro cs
  induction cs with
  | nil => intro acc; exact ExtendsSt_refl _
  | cons q cs ih =>
    intro acc
    exact ExtendsSt_trans (processCand_extends acc q) (ih (processCand acc q))

/-- After the candidate fold, every handled candidate has a nearby
point. -/
theorem foldl_pc_covers :
    ∀ (cs : List (ℚ × ℚ)) (acc : GeometryState × List Point) (q : ℚ × ℚ), q ∈ cs →
      pointExistsAt (cs.foldl processCand acc).1 q.1 q.2 = true := by
  intro cs
  induction cs with
  | nil => intro acc q hq; cases hq
  | cons q0 cs ih =>
    intro acc q hq
    rcases List.mem_cons.mp hq with h | h
    · subst h
      exact pointExistsAt_mono _ _ (foldl_pc_extends cs (processCand acc q)) q.1 q.2
        (processCand_covers acc q)
    · exact ih (processCand acc q0) q h

/-- The pair loop only ever appends fresh points. -/
theorem runPairs_extends {α : Type} (f : GeometryState → α → List (ℚ × ℚ)) :
    ∀ (pairs : List α) (acc : GeometryState × List Point),
      ExtendsSt acc.1 (runPairs f acc pairs).1 := by
  intro pairs
  induction pairs with
  | nil => intro acc; exact ExtendsSt_refl _
  | cons pr ps ih =>
    intro acc
    exact ExtendsSt_trans (foldl_pc_extends (f acc.1 pr) acc) (ih ((f acc.1 pr).foldl processCand acc))

/-- After the pair loop, every candidate of every handled pair — as read
from the baseline state — has a nearby point, provided the candidate
reads are stable along the run. -/
theorem runPairs_covers {α : Type} (f : GeometryState → α → List (ℚ × ℚ)) (st0 : GeometryState) :
    ∀ (pairs : List α) (acc : GeometryState × List Point), ExtendsSt st0 acc.1 →
      (∀ s, ExtendsSt st0 s → ∀ pr ∈ pairs, f s pr = f st0 pr) →
      ∀ pr ∈ pairs, ∀ q ∈ f st0 pr,
        pointExistsAt (runPairs f acc pairs).1 q.1 q.2 = true := by
  intro pairs
  induction pairs with
  | nil => intro acc _ _ pr hpr; cases hpr
  | cons p0 ps ih =>
    intro acc hacc hst pr hpr q hq
    rcases List.mem_cons.mp hpr with h | h
    · subst h
      have hcov : pointExistsAt ((f acc.1 pr).foldl processCand acc).1 q.1 q.2 = true := by
        apply foldl_pc_covers
        rw [hst acc.1 hacc pr (List.mem_cons_self pr ps)]
        exact hq
      exact pointExistsAt_mono _ _ (runPairs_extends f ps ((f acc.1 pr).foldl processCand acc))
        q.1 q.2 hcov
    · exact ih ((f acc.1 p0).foldl processCand acc)
        (ExtendsSt_trans hacc (foldl_pc_extends (f acc.1 p0) acc))
        (fun s hs pr' hpr' => hst s hs pr' (List.mem_cons_of_mem p0 hpr')) pr h q hq

/-- A candidate fold whose candidates are all already covered is a
no-op. -/
theorem foldl_pc_noop :
    ∀ (cs : List (ℚ × ℚ)) (acc : GeometryState × List Point),
      (∀ q ∈ cs, pointExistsAt acc.1 q.1 q.2 = true) → cs.foldl processCand acc = acc := by
  intro cs
  induction cs with
  | nil => intro acc _; rfl
  | cons q cs ih =>
    intro acc h
    have h1 : processCand acc q = acc := by
      unfold processCand
      rw [if_pos (h q (List.mem_cons_self q cs))]
    show cs.foldl processCand (processCand acc q) = acc
    rw [h1]
    exact ih acc (fun q' hq' => h q' (List.mem_cons_of_mem q hq'))

/-- A pair loop whose candidates are all already covered is a no-op. -/
theorem runPairs_noop {α : Type} (f : GeometryState → α → List (ℚ × ℚ)) :
    ∀ (pairs : List α) (acc : GeometryState × List Point),
      (∀ pr ∈ pairs, ∀ q ∈ f acc.1 pr, pointExistsAt acc.1 q.1 q.2 = true) →
      runPairs f acc pairs = acc := by
  intro pairs
  induction pairs with
  | nil => intro acc _; rfl
  | cons p0 ps ih =>
    intro acc h
    have h1 : (f acc.1 p0).foldl processCand acc = acc :=
      foldl_pc_noop (f acc.1 p0) acc (h p0 (List.mem_cons_self p0 ps))
    show runPairs f ((f acc.1 p0).foldl processCand acc) ps = acc
    rw [h1]
    exact ih acc (fun pr hpr => h pr (List.mem_cons_of_mem p0 hpr))

/-- Membership in the ordered-pair list projects to membership in the
underlying list. -/
theorem ordPairs_mem {α : Type} :
    ∀ (l : List α) (pr : α × α), pr ∈ ordPairs l → pr.1 ∈ l ∧ pr.2 ∈ l := by
  intro l
  induction l with
  | nil => intro pr h; cases h
  | cons x xs ih =>
    intro pr h
    simp only [ordPairs, List.mem_append, List.mem_map] at h
    rcases h with ⟨y, hy, rfl⟩ | h
    · exact ⟨List.mem_cons_self x xs, List.mem_cons_of_mem x hy⟩
    · exact ⟨List.mem_cons_of_mem x (ih pr h).1, List.mem_cons_of_mem x (ih pr h).2⟩

/-- Membership in the product-pair list projects to membership in the
underlying lists. -/
theorem prodPairs_mem (segs : List Segment) (circs : List GCircle) (pr : Segment × GCircle)
    (h : pr ∈ prodPairs segs circs) : pr.1 ∈ segs ∧ pr.2 ∈ circs := by
  unfold prodPairs at h
  rw [List.mem_flatMap] at h
  obtain ⟨s, hs, hmem⟩ := h
  rw [List.mem_map] at hmem
  obtain ⟨c, hc, hpr⟩ := hmem
  rw [← hpr]
  exact ⟨hs, hc⟩

/-- A second intersection pass over a state extending the baseline by
fresh points is a no-op once every baseline candidate is covered. -/
theorem findAll_second (st st1 : GeometryState) (hWF : IxWF st) (hext : ExtendsSt st st1)
    (covSS : ∀ pr ∈ ordPairs st.segments, ∀ q ∈ ssCands st pr,
      pointExistsAt st1 q.1 q.2 = true)
    (covSC : ∀ pr ∈ prodPairs st.segments st.circles, ∀ q ∈ scCands st pr,
      pointExistsAt st1 q.1 q.2 = true)
    (covCC : ∀ pr ∈ ordPairs st.circles, ∀ q ∈ ccCands st pr,
      pointExistsAt st1 q.1 q.2 = true) :
    findAllIntersections st1 = (st1, []) := by
  show runPairs ccCands
      (runPairs scCands (runPairs ssCands (st1, []) (ordPairs st1.segments))
        (prodPairs st1.segments st1.circles))
      (ordPairs st1.circles) = (st1, [])
  rw [hext.1, hext.2.1]
  have h1 : runPairs ssCands (st1, []) (ordPairs st.segments) = (st1, []) := by
    apply runPairs_noop
    intro pr hpr q hq
    dsimp only at hq ⊢
    rw [ssCands_stable st st1 hWF hext pr (ordPairs_mem st.segments pr hpr).1
      (ordPairs_mem st.segments pr hpr).2] at hq
    exact covSS pr hpr q hq
  rw [h1]
  have h2 : runPairs scCands (st1, []) (prodPairs st.segments st.circles) = (st1, []) := by
    apply runPairs_noop
    intro pr hpr q hq
    dsimp only at hq ⊢
    rw [scCands_stable st st1 hWF hext pr (prodPairs_mem st.segments st.circles pr hpr).1
      (prodPairs_mem st.segments st.circles pr hpr).2] at hq
    exact covSC pr hpr q hq
  rw [h2]
  apply runPairs_noop
  intro pr hpr q hq
  dsimp only at hq ⊢
  rw [ccCands_stable st st1 hWF hext pr (ordPairs_mem st.circles pr hpr).1
    (ordPairs_mem st.circles pr hpr).2] at hq
  exact covCC pr hpr q hq

/-- C8.  `findAllIntersections` is idempotent at tolerance `1e-3` for every
state whose stored ids are below the allocator counter: after one call
completes, every candidate intersection recomputed from the resulting
state has an existing point within the Chebyshev tolerance (both
coordinate gaps below `EPSILON`), so a second immediate call adds no new
points and returns an empty list. -/
theorem findAllIntersections_idempotent (st : GeometryState) (h : IxWF st) :
    findAllIntersections (findAllIntersections st).1 = ((findAllIntersections st).1, []) := by
  have hdef : findAllIntersections st
      = runPairs ccCands
          (runPairs scCands (runPairs ssCands (st, []) (ordPairs st.segments))
            (prodPairs st.segments st.circles))
          (ordPairs st.circles) := rfl
  set out1 := runPairs ssCands (st, []) (ordPairs st.segments) with hout1
  set out2 := runPairs scCands out1 (prodPairs st.segments st.circles) with hout2
  set out3 := runPairs ccCands out2 (ordPairs st.circles) with hout3
  have e01 : ExtendsSt st out1.1 := runPairs_extends ssCands (ordPairs st.segments) (st, [])
  have e12 : ExtendsSt out1.1 out2.1 :=
    runPairs_extends scCands (prodPairs st.segments st.circles) out1
  have e23 : ExtendsSt out2.1 out3.1 := runPairs_extends ccCands (ordPairs st.circles) out2
  have e02 : ExtendsSt st out2.1 := ExtendsSt_trans e01 e12
  have e03 : ExtendsSt st out3.1 := ExtendsSt_trans e02 e23
  have hstSS : ∀ s, ExtendsSt st s → ∀ pr ∈ ordPairs st.segments, ssCands s pr = ssCands st pr :=
    fun s hs pr hpr => ssCands_stable st s h hs pr (ordPairs_mem st.segments pr hpr).1
      (ordPairs_mem st.segments pr hpr).2
  have hstSC : ∀ s, ExtendsSt st s → ∀ pr ∈ prodPairs st.segments st.circles,
      scCands s pr = scCands st pr :=
    fun s hs pr hpr => scCands_stable st s h hs pr
      (prodPairs_mem st.segments st.circles pr hpr).1
      (prodPairs_mem st.segments st.circles pr hpr).2
  have hstCC : ∀ s, ExtendsSt st s → ∀ pr ∈ ordPairs st.circles, ccCands s pr = ccCands st pr :=
    fun s hs pr hpr => ccCands_stable st s h hs pr (ordPairs_mem st.circles pr hpr).1
      (ordPairs_mem st.circles pr hpr).2
  have covSS : ∀ pr ∈ ordPairs st.segments, ∀ q ∈ ssCands st pr,
      pointExistsAt out3.1 q.1 q.2 = true := by
    intro pr hpr q hq
    have c1 : pointExistsAt out1.1 q.1 q.2 = true :=
      runPairs_covers ssCands st (ordPairs st.segments) (st, []) (ExtendsSt_refl st)
        hstSS pr hpr q hq
    exact pointExistsAt_mono _ _ e23 q.1 q.2 (pointExistsAt_mono _ _ e12 q.1 q.2 c1)
  have covSC : ∀ pr ∈ prodPairs st.segments st.circles, ∀ q ∈ scCands st pr,
      pointExistsAt out3.1 q.1 q.2 = true := by
    intro pr hpr q hq
    have c1 : pointExistsAt out2.1 q.1 q.2 = true :=
      runPairs_covers scCands st (prodPairs st.segments st.circles) out1 e01 hstSC pr hpr q hq
    exact pointExistsAt_mono _ _ e23 q.1 q.2 c1
  have covCC : ∀ pr ∈ ordPairs st.circles, ∀ q ∈ ccCands st pr,
      pointExistsAt out3.1 q.1 q.2 = true :=
    fun pr hpr q hq =>
      runPairs_covers ccCands st (ordPairs st.circles) out2 e02 hstCC pr hpr q hq
  rw [hdef]
  exact findAll_second st out3.1 h e03 covSS covSC covCC

/-- C8, instantiated: the two crossing segments of the crossing-store
satisfy the id discipline, and the second pass on the state produced by
the first pass is the identity with no reported points. -/
theorem findAllIntersections_idempotent_witness :
    IxWF stCross
    ∧ findAllIntersections (findAllIntersections stCross).1
        = ((findAllIntersections stCross).1, []) :=
  ⟨by decide, findAllIntersections_idempotent stCross (by decide)⟩

/-- `dropChildAll` keeps the point's id. -/
theorem dropChildAll_id (pid cid : ID) (p : Point) : (dropChildAll pid cid p).id = p.id := by
  unfold dropChildAll
  split <;> rfl

/-- `dropChildAll` only removes child entries. -/
theorem dropChildAll_sub (pid cid : ID) (p : Point) :
    (dropChildAll pid cid p).childrenIds ⊆ p.childrenIds := by
  unfold dropChildAll
  split
  · exact fun a ha => (List.mem_filter.mp ha).1
  · exact fun a ha => ha

/-- `dropChildAll` keeps every child entry other than the dropped one. -/
theorem dropChildAll_keeps (pid cid : ID) (p : Point) (k : ID) (hk : k ∈ p.childrenIds)
    (hne : k ≠ cid) : k ∈ (dropChildAll pid cid p).childrenIds := by
  unfold dropChildAll
  split
  · simp only [List.mem_filter, decide_eq_true_eq]
    exact ⟨hk, by simpa using hne⟩
  · exact hk

/-- On the targeted parent, `dropChildAll` expunges the dropped child. -/
theorem dropChildAll_removes (pid cid : ID) (p : Point) (hp : p.id = pid) :
    cid ∉ (dropChildAll pid cid p).childrenIds := by
  unfold dropChildAll
  rw [if_pos hp]
  intro hc
  have := (List.mem_filter.mp hc).2
  simp at this

/-- Under unique point ids, first-match update is pointwise update. -/
theorem updatePoint_eq_map (ps : List Point) (pid : ID) (f : Point → Point)
    (hnd : (ps.map Point.id).Nodup) :
    updatePoint ps pid f = ps.map (fun p => if p.id = pid then f p else p) := by
  induction ps with
  | nil => rfl
  | cons p rest ih =>
    rw [List.map_cons, List.nodup_cons] at hnd
    rw [List.map_cons]
    simp only [updatePoint]
    by_cases h : p.id = pid
    · rw [if_pos h, if_pos h]
      congr 1
      have hrest : ∀ q ∈ rest, (if q.id = pid then f q else q) = q := by
        intro q hq
        rw [if_neg]
        intro hqid
        exact hnd.1 (by rw [h, ← hqid]; exact List.mem_map_of_mem Point.id hq)
      rw [List.map_congr_left hrest, List.map_id']
    · rw [if_neg h, if_neg h, ih hnd.2]

/-- Under unique point ids, `dropChild` is the pointwise map. -/
theorem dropChild_eq_map (ps : List Point) (pid cid : ID)
    (hnd : (ps.map Point.id).Nodup) :
    dropChild ps pid cid = ps.map (dropChildAll pid cid) := by
  unfold dropChild
  rw [updatePoint_eq_map ps pid _ hnd]
  exact List.map_congr_left (fun p _ => rfl)

/-- A successful segment lookup returns a stored segment with the looked-up
id. -/
theorem findSegment_some (st : GeometryState) (i : ID) (s : Segment)
    (h : findSegment st i = some s) : s ∈ st.segments ∧ s.id = i := by
  unfold findSegment at h
  refine ⟨List.mem_of_find?_eq_some h, ?_⟩
  have := List.find?_some h
  simpa using this

/-- A successful point lookup returns a stored point with the looked-up
id. -/
theorem findPoint_some (st : GeometryState) (i : ID) (p : Point)
    (h : findPoint st i = some p) : p ∈ st.points ∧ p.id = i := by
  unfold findPoint at h
  refine ⟨List.mem_of_find?_eq_some h, ?_⟩
  have := List.find?_some h
  simpa using this

/-- A successful circle lookup returns a stored circle with the looked-up
id. -/
theorem findCircle_some (st : GeometryState) (i : ID) (c : GCircle)
    (h : findCircle st i = some c) : c ∈ st.circles ∧ c.id = i := by
  unfold findCircle at h
  refine ⟨List.mem_of_find?_eq_some h, ?_⟩
  have := List.find?_some h
  simpa using this

/-- Point lookup misses exactly when no stored point has the id. -/
theorem findPoint_none_iff (st : GeometryState) (i : ID) :
    findPoint st i = none ↔ ∀ p ∈ st.points, p.id ≠ i := by
  unfold findPoint
  rw [List.find?_eq_none]
  simp

/-- Segment lookup misses exactly when no stored segment has the id. -/
theorem findSegment_none_iff (st : GeometryState) (i : ID) :
    findSegment st i = none ↔ ∀ s ∈ st.segments, s.id ≠ i := by
  unfold findSegment
  rw [List.find?_eq_none]
  simp

/-- Circle lookup misses exactly when no stored circle has the id. -/
theorem findCircle_none_iff (st : GeometryState) (i : ID) :
    findCircle st i = none ↔ ∀ c ∈ st.circles, c.id ≠ i := by
  unfold findCircle
  rw [List.find?_eq_none]
  simp

/-- A stored segment makes its id resolve. -/
theorem findSegment_isSome_of_mem (st : GeometryState) (s : Segment) (hs : s ∈ st.segments) :
    (findSegment st s.id).isSome = true := by
  unfold findSegment
  rw [List.find?_isSome]
  exact ⟨s, hs, by simp⟩

/-- A stored circle makes its id resolve. -/
theorem findCircle_isSome_of_mem (st : GeometryState) (c : GCircle) (hc : c ∈ st.circles) :
    (findCircle st c.id).isSome = true := by
  unfold findCircle
  rw [List.find?_isSome]
  exact ⟨c, hc, by simp⟩

/-- A stored point makes its id resolve. -/
theorem findPoint_isSome_of_mem (st : GeometryState) (p : Point) (hp : p ∈ st.points) :
    (findPoint st p.id).isSome = true := by
  unfold findPoint
  rw [List.find?_isSome]
  exact ⟨p, hp, by simp⟩

/-- A clean store has no dangling identifiers: every reference field holds
the id of a stored entity, because the back-link discipline only ever
records stored segments and circles built from stored points. -/
theorem clean_noDangling (st : GeometryState) (h : CleanStore st) : NoDangling st := by
  obtain ⟨harc, hcon, hrel, huniq, hsback, hcback, hsound⟩ := h
  refine ⟨?_, ?_, ?_, ?_, ?_⟩
  · intro s hs
    obtain ⟨⟨p1, hp1, hid1, -⟩, ⟨p2, hp2, hid2, -⟩⟩ := hsback s hs
    refine ⟨Or.inl (by rw [← hid1]; exact findPoint_isSome_of_mem st p1 hp1),
      Or.inl (by rw [← hid2]; exact findPoint_isSome_of_mem st p2 hp2), ?_, ?_⟩
    · rw [(hrel.1 s hs).1]; trivial
    · rw [(hrel.1 s hs).2]; intro c hc; cases hc
  · intro c hc
    obtain ⟨hcenter, hpids⟩ := hcback c hc
    refine ⟨?_, ?_, ?_⟩
    · cases hcid : c.centerId with
      | none => trivial
      | some pid =>
        rw [hcid] at hcenter
        obtain ⟨p, hp, hid, -⟩ := hcenter
        exact Or.inl (by rw [← hid]; exact findPoint_isSome_of_mem st p hp)
    · intro pid hpid
      obtain ⟨p, hp, hid, -⟩ := hpids pid hpid
      exact Or.inl (by rw [← hid]; exact findPoint_isSome_of_mem st p hp)
    · rw [hrel.2 c hc]; intro ch hch; cases hch
  · intro p hp c hc
    rcases hsound p hp c hc with ⟨s, hs, hid, -⟩ | ⟨cc, hcc, hid, -⟩
    · exact Or.inr (Or.inl (by rw [← hid]; exact findSegment_isSome_of_mem st s hs))
    · exact Or.inr (Or.inr (Or.inl (by rw [← hid]; exact findCircle_isSome_of_mem st cc hcc)))
  · rw [harc]; intro a ha; cases ha
  · rw [hcon]; intro c hc; cases hc

/-- Mapping an id-preserving point transform leaves the id column
unchanged. -/
theorem map_dropChildAll_ids (ps : List Point) (pid cid : ID) :
    (ps.map (dropChildAll pid cid)).map Point.id = ps.map Point.id := by
  rw [List.map_map]
  exact List.map_congr_left (fun p _ => dropChildAll_id pid cid p)

/-- Under unique point ids, erasing a segment is a pointwise drop of its
back-references composed with a container filter. -/
theorem eraseSeg_eq (st : GeometryState) (s : Segment)
    (hnd : (st.points.map Point.id).Nodup) :
    eraseSeg st s =
      { st with
        points := st.points.map (fun p => dropChildAll s.p2 s.id (dropChildAll s.p1 s.id p)),
        segments := st.segments.filter (fun t => t.id ≠ s.id) } := by
  unfold eraseSeg removeFromParentChildren
  dsimp only
  rw [dropChild_eq_map st.points s.p1 s.id hnd]
  rw [dropChild_eq_map _ s.p2 s.id (by rw [map_dropChildAll_ids]; exact hnd)]
  rw [List.map_map]
  rfl

/-- Erasing a stored segment from a clean store: the store stays clean, the
id column of the points is unchanged, the segment's id is fully expunged,
already-expunged ids stay expunged, deletable children stay deletable, and
arcs, constraints, the circle container and (up to dropped child entries)
the point container are untouched. -/
theorem eraseSeg_step (st : GeometryState) (s : Segment) (h : CleanStore st)
    (hmem : s ∈ st.segments) :
    CleanStore (eraseSeg st s)
    ∧ (eraseSeg st s).points.map Point.id = st.points.map Point.id
    ∧ Gone (eraseSeg st s) s.id
    ∧ (∀ i, Gone st i → Gone (eraseSeg st s) i)
    ∧ (∀ d, ChildLike st d → ChildLike (eraseSeg st s) d)
    ∧ (eraseSeg st s).arcs = st.arcs
    ∧ (eraseSeg st s).constraints = st.constraints
    ∧ (∀ t ∈ (eraseSeg st s).segments, t ∈ st.segments)
    ∧ (∀ c ∈ (eraseSeg st s).circles, c ∈ st.circles)
    ∧ (∀ q ∈ (eraseSeg st s).points, ∃ p ∈ st.points,
        q.id = p.id ∧ q.childrenIds ⊆ p.childrenIds) := by
  obtain ⟨harc, hcon, hrel, huniq, hsback, hcback, hsound⟩ := h
  obtain ⟨hndp, hnds, hndc, hpsdis, hpcdis, hscdis⟩ := huniq
  rw [eraseSeg_eq st s hndp]
  set F : Point → Point := fun p => dropChildAll s.p2 s.id (dropChildAll s.p1 s.id p) with hF
  set pts : List Point := st.points.map F with hpts
  set segs : List Segment := st.segments.filter (fun t => t.id ≠ s.id) with hsegs
  have hFid : ∀ p : Point, (F p).id = p.id := by
    intro p; rw [hF]; rw [dropChildAll_id, dropChildAll_id]
  have hFsub : ∀ p : Point, (F p).childrenIds ⊆ p.childrenIds := by
    intro p; rw [hF]
    exact fun a ha => dropChildAll_sub s.p1 s.id p (dropChildAll_sub s.p2 s.id _ ha)
  have hFkeep : ∀ (p : Point) (k : ID), k ∈ p.childrenIds → k ≠ s.id →
      k ∈ (F p).childrenIds := by
    intro p k hk hne; rw [hF]
    exact dropChildAll_keeps s.p2 s.id _ k (dropChildAll_keeps s.p1 s.id p k hk hne) hne
  have hFrem : ∀ p : Point, (p.id = s.p1 ∨ p.id = s.p2) → s.id ∉ (F p).childrenIds := by
    intro p hp hc
    rw [hF] at hc
    rcases hp with hp | hp
    · exact dropChildAll_removes s.p1 s.id p hp (dropChildAll_sub s.p2 s.id _ hc)
    · exact dropChildAll_removes s.p2 s.id _ (by rw [dropChildAll_id]; exact hp) hc
  have hptsid : pts.map Point.id = st.points.map Point.id := by
    rw [hpts, List.map_map]
    exact List.map_congr_left (fun p _ => hFid p)
  have hmemmap : ∀ q ∈ pts, ∃ p ∈ st.points, q.id = p.id ∧ q.childrenIds ⊆ p.childrenIds := by
    intro q hq
    obtain ⟨p, hp, rfl⟩ := List.mem_map.mp hq
    exact ⟨p, hp, hFid p, hFsub p⟩
  have hkeepmem : ∀ (x k : ID), k ≠ s.id → (∃ p ∈ st.points, p.id = x ∧ k ∈ p.childrenIds) →
      ∃ q ∈ pts, q.id = x ∧ k ∈ q.childrenIds := by
    intro x k hne hx
    obtain ⟨p, hp, hid, hk⟩ := hx
    exact ⟨F p, List.mem_map_of_mem F hp, by rw [hFid]; exact hid, hFkeep p k hk hne⟩
  have hnotmem : ∀ q ∈ pts, s.id ∉ q.childrenIds := by
    intro q hq hcontra
    obtain ⟨p, hp, rfl⟩ := List.mem_map.mp hq
    have hpc : s.id ∈ p.childrenIds := hFsub p hcontra
    rcases hsound p hp s.id hpc with ⟨t, ht, htid, hend⟩ | ⟨cc, hcc, hcid, -⟩
    · have hts : t = s := List.inj_on_of_nodup_map hnds ht hmem (by rw [htid])
      subst hts
      exact hFrem p (hend.imp Eq.symm Eq.symm) hcontra
    · exact hscdis s hmem cc hcc hcid.symm
  have hsegfil : ∀ t ∈ segs, t ∈ st.segments ∧ t.id ≠ s.id := by
    intro t ht
    have := List.mem_filter.mp ht
    exact ⟨this.1, by simpa using this.2⟩
  have hgone : Gone { st with points := pts, segments := segs } s.id := by
    refine ⟨?_, ?_, ?_, ?_⟩
    · rw [findPoint_none_iff]
      intro q hq
      obtain ⟨p, hp, hqid, -⟩ := hmemmap q hq
      rw [hqid]
      exact hpsdis p hp s hmem
    · rw [findSegment_none_iff]
      exact fun t ht => (hsegfil t ht).2
    · rw [findCircle_none_iff]
      exact fun c hc => fun he => hscdis s hmem c hc he.symm
    · exact hnotmem
  have hmono : ∀ i, Gone st i → Gone { st with points := pts, segments := segs } i := by
    intro i hg
    obtain ⟨hgp, hgs, hgc, hgch⟩ := hg
    refine ⟨?_, ?_, hgc, ?_⟩
    · rw [findPoint_none_iff]
      intro q hq
      obtain ⟨p, hp, hqid, -⟩ := hmemmap q hq
      rw [hqid]
      exact (findPoint_none_iff st i).mp hgp p hp
    · rw [findSegment_none_iff]
      exact fun t ht => (findSegment_none_iff st i).mp hgs t (hsegfil t ht).1
    · intro q hq hcontra
      obtain ⟨p, hp, -, hsub⟩ := hmemmap q hq
      exact hgch p hp (hsub hcontra)
  refine ⟨⟨harc, hcon, ⟨?_, hrel.2⟩, ⟨?_, ?_, hndc, ?_, ?_, ?_⟩, ?_, ?_, ?_⟩,
    hptsid, hgone, hmono, ?_, rfl, rfl, ?_, ?_, hmemmap⟩
  · exact fun t ht => hrel.1 t (hsegfil t ht).1
  · rw [show ({ st with points := pts, segments := segs } : GeometryState).points = pts from rfl,
      hptsid]
    exact hndp
  · exact hnds.sublist ((List.filter_sublist st.segments).map Segment.id)
  · intro q hq t ht
    obtain ⟨p, hp, hqid, -⟩ := hmemmap q hq
    rw [hqid]
    exact hpsdis p hp t (hsegfil t ht).1
  · intro q hq c hc
    obtain ⟨p, hp, hqid, -⟩ := hmemmap q hq
    rw [hqid]
    exact hpcdis p hp c hc
  · exact fun t ht c hc => hscdis t (hsegfil t ht).1 c hc
  · intro t ht
    obtain ⟨htm, htne⟩ := hsegfil t ht
    obtain ⟨hb1, hb2⟩ := hsback t htm
    exact ⟨hkeepmem t.p1 t.id htne hb1, hkeepmem t.p2 t.id htne hb2⟩
  · intro c hc
    obtain ⟨hcenter, hpids⟩ := hcback c hc
    have hcne : c.id ≠ s.id := fun he => hscdis s hmem c hc he.symm
    constructor
    · cases hcid : c.centerId with
      | none => trivial
      | some pid =>
        rw [hcid] at hcenter
        exact hkeepmem pid c.id hcne hcenter
    · exact fun pid hpid => hkeepmem pid c.id hcne (hpids pid hpid)
  · intro q hq cid hcid
    obtain ⟨p, hp, rfl⟩ := List.mem_map.mp hq
    have hpc : cid ∈ p.childrenIds := hFsub p hcid
    by_cases hcs : cid = s.id
    · exact absurd hcid (by rw [hcs]; exact hnotmem (F p) (List.mem_map_of_mem F hp))
    · rcases hsound p hp cid hpc with ⟨t, ht, htid, hend⟩ | ⟨cc, hcc, hccid, hcen⟩
      · refine Or.inl ⟨t, List.mem_filter.mpr ⟨ht, by simp [htid, hcs]⟩, htid, ?_⟩
        rw [hFid]
        exact hend
      · refine Or.inr ⟨cc, hcc, hccid, ?_⟩
        rw [hFid]
        exact hcen
  · intro d hd
    rcases hd with hd | hd | hd
    · exact Or.inl (hmono d hd)
    · rw [Option.isSome_iff_exists] at hd
      obtain ⟨t, htf⟩ := hd
      obtain ⟨htm, htid⟩ := findSegment_some st d t htf
      by_cases hds : d = s.id
      · exact Or.inl (by rw [hds]; exact hgone)
      · refine Or.inr (Or.inl ?_)
        have : t ∈ segs := List.mem_filter.mpr ⟨htm, by simp [htid, hds]⟩
        have h2 := findSegment_isSome_of_mem { st with points := pts, segments := segs } t this
        rw [htid] at h2
        exact h2
    · exact Or.inr (Or.inr hd)
  · exact fun t ht => (hsegfil t ht).1
  · exact fun c hc => hc

/-- The parent-reference removal fold only touches the point container. -/
theorem foldRFPC_points (cid : ID) :
    ∀ (pids : List ID) (s : GeometryState),
      pids.foldl (fun a pid => removeFromParentChildren a pid cid) s
        = { s with points := pids.foldl (fun ps pid => dropChild ps pid cid) s.points } := by
  intro pids
  induction pids with
  | nil => intro s; rfl
  | cons pid rest ih =>
    intro s
    show rest.foldl _ (removeFromParentChildren s pid cid) = _
    rw [ih]
    rfl

/-- Under unique point ids, a fold of first-match drops is a single
pointwise map of the folded drop. -/
theorem foldDrop_eq_map (cid : ID) :
    ∀ (pids : List ID) (ps : List Point), (ps.map Point.id).Nodup →
      pids.foldl (fun acc pid => dropChild acc pid cid) ps
        = ps.map (fun p => pids.foldl (fun q pid => dropChildAll pid cid q) p) := by
  intro pids
  induction pids with
  | nil =>
    intro ps _
    show ps = ps.map (fun p => p)
    rw [List.map_id']
  | cons pid rest ih =>
    intro ps hnd
    show rest.foldl _ (dropChild ps pid cid) = _
    rw [dropChild_eq_map ps pid cid hnd,
      ih _ (by rw [map_dropChildAll_ids]; exact hnd), List.map_map]
    rfl

/-- The folded pointwise drop keeps the point's id. -/
theorem foldDAll_id (cid : ID) :
    ∀ (pids : List ID) (p : Point),
      (pids.foldl (fun q pid => dropChildAll pid cid q) p).id = p.id := by
  intro pids
  induction pids with
  | nil => intro p; rfl
  | cons x rest ih => intro p; rw [List.foldl_cons, ih, dropChildAll_id]

/-- The folded pointwise drop only removes child entries. -/
theorem foldDAll_sub (cid : ID) :
    ∀ (pids : List ID) (p : Point),
      (pids.foldl (fun q pid => dropChildAll pid cid q) p).childrenIds ⊆ p.childrenIds := by
  intro pids
  induction pids with
  | nil => intro p a ha; exact ha
  | cons x rest ih =>
    intro p a ha
    exact dropChildAll_sub x cid p (ih (dropChildAll x cid p) ha)

/-- The folded pointwise drop keeps every child entry other than the
dropped one. -/
theorem foldDAll_keeps (cid : ID) :
    ∀ (pids : List ID) (p : Point) (k : ID), k ∈ p.childrenIds → k ≠ cid →
      k ∈ (pids.foldl (fun q pid => dropChildAll pid cid q) p).childrenIds := by
  intro pids
  induction pids with
  | nil => intro p k hk _; exact hk
  | cons x rest ih =>
    intro p k hk hne
    exact ih (dropChildAll x cid p) k (dropChildAll_keeps x cid p k hk hne) hne

/-- Once the fold visits the point's id, the dropped child is expunged. -/
theorem foldDAll_removes (cid : ID) :
    ∀ (pids : List ID) (p : Point), p.id ∈ pids →
      cid ∉ (pids.foldl (fun q pid => dropChildAll pid cid q) p).childrenIds := by
  intro pids
  induction pids with
  | nil => intro p hp; cases hp
  | cons x rest ih =>
    intro p hp
    rcases List.mem_cons.mp hp with hp | hp
    · intro hc
      exact dropChildAll_removes x cid p hp
        (foldDAll_sub cid rest (dropChildAll x cid p) hc)
    · exact ih (dropChildAll x cid p) (by rw [dropChildAll_id]; exact hp)

/-- Under unique point ids, erasing a circle is a pointwise drop of its
back-references (center first, then defining points) composed with a
container filter. -/
theorem eraseCirc_eq (st : GeometryState) (c : GCircle)
    (hnd : (st.points.map Point.id).Nodup) :
    eraseCirc st c =
      { st with
        points := st.points.map (fun p =>
          (c.centerId.toList ++ c.pointIds).foldl (fun q pid => dropChildAll pid c.id q) p),
        circles := st.circles.filter (fun t => t.id ≠ c.id) } := by
  unfold eraseCirc
  dsimp only
  cases hcid : c.centerId with
  | none =>
    rw [show (Option.none : Option ID).toList ++ c.pointIds = c.pointIds from rfl]
    dsimp only
    rw [foldRFPC_points c.id c.pointIds st, foldDrop_eq_map c.id c.pointIds st.points hnd]
  | some cid =>
    rw [show (some cid).toList ++ c.pointIds = cid :: c.pointIds from rfl]
    dsimp only
    rw [show c.pointIds.foldl (fun s pId => removeFromParentChildren s pId c.id)
        (removeFromParentChildren st cid c.id)
      = (cid :: c.pointIds).foldl (fun s pId => removeFromParentChildren s pId c.id) st from rfl]
    rw [foldRFPC_points c.id (cid :: c.pointIds) st,
      foldDrop_eq_map c.id (cid :: c.pointIds) st.points hnd]

/-- Erasing a stored circle from a clean store: the store stays clean, the
id column of the points is unchanged, the circle's id is fully expunged,
already-expunged ids stay expunged, deletable children stay deletable, and
arcs, constraints, the segment container and (up to dropped child entries)
the point container are untouched. -/
theorem eraseCirc_step (st : GeometryState) (c : GCircle) (h : CleanStore st)
    (hmem : c ∈ st.circles) :
    CleanStore (eraseCirc st c)
    ∧ (eraseCirc st c).points.map Point.id = st.points.map Point.id
    ∧ Gone (eraseCirc st c) c.id
    ∧ (∀ i, Gone st i → Gone (eraseCirc st c) i)
    ∧ (∀ d, ChildLike st d → ChildLike (eraseCirc st c) d)
    ∧ (eraseCirc st c).arcs = st.arcs
    ∧ (eraseCirc st c).constraints = st.constraints
    ∧ (∀ t ∈ (eraseCirc st c).segments, t ∈ st.segments)
    ∧ (∀ cc ∈ (eraseCirc st c).circles, cc ∈ st.circles)
    ∧ (∀ q ∈ (eraseCirc st c).points, ∃ p ∈ st.points,
        q.id = p.id ∧ q.childrenIds ⊆ p.childrenIds) := by
  obtain ⟨harc, hcon, hrel, huniq, hsback, hcback, hsound⟩ := h
  obtain ⟨hndp, hnds, hndc, hpsdis, hpcdis, hscdis⟩ := huniq
  rw [eraseCirc_eq st c hndp]
  set G : Point → Point := fun p =>
    (c.centerId.toList ++ c.pointIds).foldl (fun q pid => dropChildAll pid c.id q) p with hG
  set pts : List Point := st.points.map G with hpts
  set circs : List GCircle := st.circles.filter (fun t => t.id ≠ c.id) with hcircs
  have hGid : ∀ p : Point, (G p).id = p.id := by
    intro p; rw [hG]; exact foldDAll_id c.id _ p
  have hGsub : ∀ p : Point, (G p).childrenIds ⊆ p.childrenIds := by
    intro p; rw [hG]; exact foldDAll_sub c.id _ p
  have hGkeep : ∀ (p : Point) (k : ID), k ∈ p.childrenIds → k ≠ c.id →
      k ∈ (G p).childrenIds := by
    intro p k hk hne; rw [hG]; exact foldDAll_keeps c.id _ p k hk hne
  have hGrem : ∀ p : Point, (c.centerId = some p.id ∨ p.id ∈ c.pointIds) →
      c.id ∉ (G p).childrenIds := by
    intro p hp
    rw [hG]
    apply foldDAll_removes c.id _ p
    rw [List.mem_append]
    rcases hp with hp | hp
    · exact Or.inl (by rw [hp]; simp [Option.toList])
    · exact Or.inr hp
  have hptsid : pts.map Point.id = st.points.map Point.id := by
    rw [hpts, List.map_map]
    exact List.map_congr_left (fun p _ => hGid p)
  have hmemmap : ∀ q ∈ pts, ∃ p ∈ st.points, q.id = p.id ∧ q.childrenIds ⊆ p.childrenIds := by
    intro q hq
    obtain ⟨p, hp, rfl⟩ := List.mem_map.mp hq
    exact ⟨p, hp, hGid p, hGsub p⟩
  have hkeepmem : ∀ (x k : ID), k ≠ c.id → (∃ p ∈ st.points, p.id = x ∧ k ∈ p.childrenIds) →
      ∃ q ∈ pts, q.id = x ∧ k ∈ q.childrenIds := by
    intro x k hne hx
    obtain ⟨p, hp, hid, hk⟩ := hx
    exact ⟨G p, List.mem_map_of_mem G hp, by rw [hGid]; exact hid, hGkeep p k hk hne⟩
  have hnotmem : ∀ q ∈ pts, c.id ∉ q.childrenIds := by
    intro q hq hcontra
    obtain ⟨p, hp, rfl⟩ := List.mem_map.mp hq
    have hpc : c.id ∈ p.childrenIds := hGsub p hcontra
    rcases hsound p hp c.id hpc with ⟨t, ht, htid, -⟩ | ⟨cc, hcc, hccid, hcen⟩
    · exact hscdis t ht c hmem htid
    · have hcs : cc = c := List.inj_on_of_nodup_map hndc hcc hmem (by rw [hccid])
      subst hcs
      exact hGrem p (hcen.imp (fun he => he) (fun he => he)) hcontra
  have hcircfil : ∀ t ∈ circs, t ∈ st.circles ∧ t.id ≠ c.id := by
    intro t ht
    have := List.mem_filter.mp ht
    exact ⟨this.1, by simpa using this.2⟩
  have hgone : Gone { st with points := pts, circles := circs } c.id := by
    refine ⟨?_, ?_, ?_, ?_⟩
    · rw [findPoint_none_iff]
      intro q hq
      obtain ⟨p, hp, hqid, -⟩ := hmemmap q hq
      rw [hqid]
      exact hpcdis p hp c hmem
    · rw [findSegment_none_iff]
      exact fun t ht => hscdis t ht c hmem
    · rw [findCircle_none_iff]
      exact fun t ht => (hcircfil t ht).2
    · exact hnotmem
  have hmono : ∀ i, Gone st i → Gone { st with points := pts, circles := circs } i := by
    intro i hg
    obtain ⟨hgp, hgs, hgc, hgch⟩ := hg
    refine ⟨?_, hgs, ?_, ?_⟩
    · rw [findPoint_none_iff]
      intro q hq
      obtain ⟨p, hp, hqid, -⟩ := hmemmap q hq
      rw [hqid]
      exact (findPoint_none_iff st i).mp hgp p hp
    · rw [findCircle_none_iff]
      exact fun t ht => (findCircle_none_iff st i).mp hgc t (hcircfil t ht).1
    · intro q hq hcontra
      obtain ⟨p, hp, -, hsub⟩ := hmemmap q hq
      exact hgch p hp (hsub hcontra)
  refine ⟨⟨harc, hcon, ⟨?_, ?_⟩, ⟨?_, hnds, ?_, ?_, ?_, ?_⟩, ?_, ?_, ?_⟩,
    hptsid, hgone, hmono, ?_, rfl, rfl, ?_, ?_, hmemmap⟩
  · exact fun t ht => hrel.1 t ht
  · exact fun t ht => hrel.2 t (hcircfil t ht).1
  · rw [show ({ st with points := pts, circles := circs } : GeometryState).points = pts from rfl,
      hptsid]
    exact hndp
  · exact hndc.sublist ((List.filter_sublist st.circles).map GCircle.id)
  · intro q hq t ht
    obtain ⟨p, hp, hqid, -⟩ := hmemmap q hq
    rw [hqid]
    exact hpsdis p hp t ht
  · intro q hq t ht
    obtain ⟨p, hp, hqid, -⟩ := hmemmap q hq
    rw [hqid]
    exact hpcdis p hp t (hcircfil t ht).1
  · exact fun t ht cc hcc => hscdis t ht cc (hcircfil cc hcc).1
  · intro t ht
    obtain ⟨hb1, hb2⟩ := hsback t ht
    have htne : t.id ≠ c.id := hscdis t ht c hmem
    exact ⟨hkeepmem t.p1 t.id htne hb1, hkeepmem t.p2 t.id htne hb2⟩
  · intro cc hcc
    obtain ⟨hccm, hccne⟩ := hcircfil cc hcc
    obtain ⟨hcenter, hpids⟩ := hcback cc hccm
    constructor
    · cases hcid : cc.centerId with
      | none => trivial
      | some pid =>
        rw [hcid] at hcenter
        exact hkeepmem pid cc.id hccne hcenter
    · exact fun pid hpid => hkeepmem pid cc.id hccne (hpids pid hpid)
  · intro q hq cid hcid
    obtain ⟨p, hp, rfl⟩ := List.mem_map.mp hq
    have hpc : cid ∈ p.childrenIds := hGsub p hcid
    by_cases hcs : cid = c.id
    · exact absurd hcid (by rw [hcs]; exact hnotmem (G p) (List.mem_map_of_mem G hp))
    · rcases hsound p hp cid hpc with ⟨t, ht, htid, hend⟩ | ⟨cc, hcc, hccid, hcen⟩
      · refine Or.inl ⟨t, ht, htid, ?_⟩
        rw [hGid]
        exact hend
      · refine Or.inr ⟨cc, List.mem_filter.mpr ⟨hcc, by simp [hccid, hcs]⟩, hccid, ?_⟩
        rw [hGid]
        exact hcen
  · intro d hd
    rcases hd with hd | hd | hd
    · exact Or.inl (hmono d hd)
    · exact Or.inr (Or.inl hd)
    · rw [Option.isSome_iff_exists] at hd
      obtain ⟨t, htf⟩ := hd
      obtain ⟨htm, htid⟩ := findCircle_some st d t htf
      by_cases hds : d = c.id
      · exact Or.inl (by rw [hds]; exact hgone)
      · refine Or.inr (Or.inr ?_)
        have : t ∈ circs := List.mem_filter.mpr ⟨htm, by simp [htid, hds]⟩
        have h2 := findCircle_isSome_of_mem { st with points := pts, circles := circs } t this
        rw [htid] at h2
        exact h2
  · exact fun t ht => ht
  · exact fun cc hcc => (hcircfil cc hcc).1

/-- With fuel left, deleting an already-expunged id is a no-op. -/
theorem deleteFuel_gone (M : Nat) (s : GeometryState) (i : ID) (hg : Gone s i) :
    deleteEntityFuel (M + 1) s i = s := by
  simp only [deleteEntityFuel, hg.1, hg.2.1, hg.2.2.1]

/-- With fuel left, deleting a childless segment id is exactly the segment
erasure. -/
theorem deleteFuel_seg (M : Nat) (s : GeometryState) (i : ID) (seg : Segment)
    (hp : findPoint s i = none) (hs : findSegment s i = some seg)
    (hch : seg.childrenIds = []) :
    deleteEntityFuel (M + 1) s i = eraseSeg s seg := by
  obtain ⟨-, hid⟩ := findSegment_some s i seg hs
  simp only [deleteEntityFuel, hp, hs, hch, List.foldl_nil]
  unfold eraseSeg
  rw [hid]

/-- With fuel left, deleting a childless circle id is exactly the circle
erasure. -/
theorem deleteFuel_circ (M : Nat) (s : GeometryState) (i : ID) (circ : GCircle)
    (hp : findPoint s i = none) (hs : findSegment s i = none)
    (hc : findCircle s i = some circ) (hch : circ.childrenIds = []) :
    deleteEntityFuel (M + 1) s i = eraseCirc s circ := by
  obtain ⟨-, hid⟩ := findCircle_some s i circ hc
  simp only [deleteEntityFuel, hp, hs, hc, hch, List.foldl_nil]
  unfold eraseCirc
  rw [hid]

/-- The deletion fold over a list of deletable children of a clean store:
the store stays clean, the id column of the points is unchanged, every
folded child ends up expunged, expunged ids stay expunged, and arcs,
constraints and (up to removals) the other containers are untouched. -/
theorem childFold_master (M : Nat) :
    ∀ (cs : List ID) (s : GeometryState), CleanStore s → (∀ c ∈ cs, ChildLike s c) →
      CleanStore (cs.foldl (fun a c => deleteEntityFuel (M + 1) a c) s)
      ∧ (cs.foldl (fun a c => deleteEntityFuel (M + 1) a c) s).points.map Point.id
          = s.points.map Point.id
      ∧ (∀ c ∈ cs, Gone (cs.foldl (fun a c => deleteEntityFuel (M + 1) a c) s) c)
      ∧ (∀ i, Gone s i → Gone (cs.foldl (fun a c => deleteEntityFuel (M + 1) a c) s) i)
      ∧ (cs.foldl (fun a c => deleteEntityFuel (M + 1) a c) s).arcs = s.arcs
      ∧ (cs.foldl (fun a c => deleteEntityFuel (M + 1) a c) s).constraints = s.constraints
      ∧ (∀ t ∈ (cs.foldl (fun a c => deleteEntityFuel (M + 1) a c) s).segments,
          t ∈ s.segments)
      ∧ (∀ cc ∈ (cs.foldl (fun a c => deleteEntityFuel (M + 1) a c) s).circles,
          cc ∈ s.circles)
      ∧ (∀ q ∈ (cs.foldl (fun a c => deleteEntityFuel (M + 1) a c) s).points,
          ∃ p ∈ s.points, q.id = p.id ∧ q.childrenIds ⊆ p.childrenIds) := by
  intro cs
  induction cs with
  | nil =>
    intro s hcl _
    exact ⟨hcl, rfl, (by intro c hc; cases hc), fun i hg => hg, rfl, rfl, fun t ht => ht,
      fun c hc => hc, fun q hq => ⟨q, hq, rfl, fun a ha => ha⟩⟩
  | cons c0 cs ih =>
    intro s hcl hch
    have hc0 : ChildLike s c0 := hch c0 (List.mem_cons_self c0 cs)
    have hstep : CleanStore (deleteEntityFuel (M + 1) s c0)
        ∧ (deleteEntityFuel (M + 1) s c0).points.map Point.id = s.points.map Point.id
        ∧ Gone (deleteEntityFuel (M + 1) s c0) c0
        ∧ (∀ i, Gone s i → Gone (deleteEntityFuel (M + 1) s c0) i)
        ∧ (∀ d, ChildLike s d → ChildLike (deleteEntityFuel (M + 1) s c0) d)
        ∧ (deleteEntityFuel (M + 1) s c0).arcs = s.arcs
        ∧ (deleteEntityFuel (M + 1) s c0).constraints = s.constraints
        ∧ (∀ t ∈ (deleteEntityFuel (M + 1) s c0).segments, t ∈ s.segments)
        ∧ (∀ cc ∈ (deleteEntityFuel (M + 1) s c0).circles, cc ∈ s.circles)
        ∧ (∀ q ∈ (deleteEntityFuel (M + 1) s c0).points, ∃ p ∈ s.points,
            q.id = p.id ∧ q.childrenIds ⊆ p.childrenIds) := by
      rcases hc0 with hg | hd | hd
      · rw [deleteFuel_gone M s c0 hg]
        exact ⟨hcl, rfl, hg, fun i hgi => hgi, fun d hdd => hdd, rfl, rfl, fun t ht => ht,
          fun cc hc => hc, fun q hq => ⟨q, hq, rfl, fun a ha => ha⟩⟩
      · rw [Option.isSome_iff_exists] at hd
        obtain ⟨seg, hsf⟩ := hd
        obtain ⟨hsm, hsid⟩ := findSegment_some s c0 seg hsf
        have hpnone : findPoint s c0 = none := by
          rw [findPoint_none_iff]
          intro p hp
          rw [← hsid]
          exact hcl.2.2.2.1.2.2.2.1 p hp seg hsm
        have hchn : seg.childrenIds = [] := (hcl.2.2.1.1 seg hsm).2
        rw [deleteFuel_seg M s c0 seg hpnone hsf hchn]
        have hes := eraseSeg_step s seg hcl hsm
        exact ⟨hes.1, hes.2.1, (by rw [← hsid]; exact hes.2.2.1), hes.2.2.2.1,
          hes.2.2.2.2.1, hes.2.2.2.2.2.1, hes.2.2.2.2.2.2.1, hes.2.2.2.2.2.2.2.1,
          hes.2.2.2.2.2.2.2.2.1, hes.2.2.2.2.2.2.2.2.2⟩
      · rw [Option.isSome_iff_exists] at hd
        obtain ⟨circ, hcf⟩ := hd
        obtain ⟨hcm, hcid⟩ := findCircle_some s c0 circ hcf
        have hpnone : findPoint s c0 = none := by
          rw [findPoint_none_iff]
          intro p hp
          rw [← hcid]
          exact hcl.2.2.2.1.2.2.2.2.1 p hp circ hcm
        have hsnone : findSegment s c0 = none := by
          rw [findSegment_none_iff]
          intro t ht
          rw [← hcid]
          exact hcl.2.2.2.1.2.2.2.2.2 t ht circ hcm
        have hchn : circ.childrenIds = [] := hcl.2.2.1.2 circ hcm
        rw [deleteFuel_circ M s c0 circ hpnone hsnone hcf hchn]
        have hec := eraseCirc_step s circ hcl hcm
        exact ⟨hec.1, hec.2.1, (by rw [← hcid]; exact hec.2.2.1), hec.2.2.2.1,
          hec.2.2.2.2.1, hec.2.2.2.2.2.1, hec.2.2.2.2.2.2.1, hec.2.2.2.2.2.2.2.1,
          hec.2.2.2.2.2.2.2.2.1, hec.2.2.2.2.2.2.2.2.2⟩
    obtain ⟨h1cl, h1ids, h1gone, h1mono, h1chlike, h1arc, h1con, h1segs, h1circs, h1pts⟩ :=
      hstep
    obtain ⟨i1, i2, i3, i4, i5, i6, i7, i8, i9⟩ :=
      ih (deleteEntityFuel (M + 1) s c0) h1cl
        (fun c hc => h1chlike c (hch c (List.mem_cons_of_mem c0 hc)))
    refine ⟨i1, i2.trans h1ids, ?_, fun i hg => i4 i (h1mono i hg), i5.trans h1arc,
      i6.trans h1con, fun t ht => h1segs t (i7 t ht), fun cc hc => h1circs cc (i8 cc hc), ?_⟩
    · intro c hc
      rcases List.mem_cons.mp hc with hc | hc
      · rw [hc]
        exact i4 c0 h1gone
      · exact i3 c hc
    · intro q hq
      obtain ⟨p1, hp1, hqid, hqsub⟩ := i9 q hq
      obtain ⟨p0, hp0, hpid, hpsub⟩ := h1pts p1 hp1
      exact ⟨p0, hp0, hqid.trans hpid, hqsub.trans hpsub⟩

/-- An expunged id resolves to nothing in an arc-free store. -/
theorem gone_not_resolves (s : GeometryState) (i : ID) (hg : Gone s i) (ha : s.arcs = []) :
    ¬ ResolvesId s i := by
  intro hr
  rcases hr with hr | hr | hr | hr
  · rw [hg.1] at hr; simp at hr
  · rw [hg.2.1] at hr; simp at hr
  · rw [hg.2.2.1] at hr; simp at hr
  · unfold findArc at hr; rw [ha] at hr; simp at hr

/-- With two levels of fuel left, deleting a point id runs the deletion
fold over its children snapshot, then filters the point out. -/
theorem deleteFuel_point (M : Nat) (s : GeometryState) (i : ID) (p : Point)
    (hp : findPoint s i = some p) :
    deleteEntityFuel (M + 1 + 1) s i =
      { (p.childrenIds.foldl (fun a c => deleteEntityFuel (M + 1) a c) s) with
        points := (p.childrenIds.foldl (fun a c => deleteEntityFuel (M + 1) a c) s).points.filter
          (fun q => q.id ≠ i) } := by
  conv_lhs => rw [deleteEntityFuel]
  rw [hp]

/-- C1 (amended).  On a clean store — only points, segments and circles,
unique ids, sound back-links, no segment-to-segment references —
`deleteEntity` removes the entity and its children and leaves no dangling
identifier: the store stays clean, the deleted id and every id in its
children snapshot no longer resolve, and every remaining reference field
resolves.  (On stores with arcs, constraints or `REL_ANGLE` references the
original claim fails: see the counterexample.) -/
theorem deleteEntity_clean_removes (st : GeometryState) (x : ID) (h : CleanStore st) :
    CleanStore (deleteEntity st x)
    ∧ NoDangling (deleteEntity st x)
    ∧ ¬ ResolvesId (deleteEntity st x) x
    ∧ ∀ c ∈ childIdsOf st x, ¬ ResolvesId (deleteEntity st x) c := by
  cases hfp : findPoint st x with
  | none =>
    cases hfs : findSegment st x with
    | none =>
      cases hfc : findCircle st x with
      | none =>
        have hnotchild : ∀ p ∈ st.points, x ∉ p.childrenIds := by
          intro p hp hx
          rcases h.2.2.2.2.2.2 p hp x hx with ⟨t, ht, htid, -⟩ | ⟨cc, hcc, hcid, -⟩
          · have := findSegment_isSome_of_mem st t ht
            rw [htid, hfs] at this
            simp at this
          · have := findCircle_isSome_of_mem st cc hcc
            rw [hcid, hfc] at this
            simp at this
        have hD : deleteEntity st x = st := by
          unfold deleteEntity
          exact deleteFuel_gone _ st x ⟨hfp, hfs, hfc, hnotchild⟩
        rw [hD]
        refine ⟨h, clean_noDangling st h, gone_not_resolves st x ⟨hfp, hfs, hfc, hnotchild⟩ h.1,
          ?_⟩
        have hci : childIdsOf st x = [] := by simp only [childIdsOf, hfp, hfs, hfc]
        intro c hc
        rw [hci] at hc
        cases hc
      | some circ =>
        obtain ⟨hcm, hcid⟩ := findCircle_some st x circ hfc
        have hchn : circ.childrenIds = [] := h.2.2.1.2 circ hcm
        have hC : deleteEntity st x = eraseCirc st circ := by
          unfold deleteEntity
          exact deleteFuel_circ _ st x circ hfp hfs hfc hchn
        rw [hC]
        have ec := eraseCirc_step st circ h hcm
        refine ⟨ec.1, clean_noDangling _ ec.1,
          gone_not_resolves _ x (hcid ▸ ec.2.2.1) (ec.2.2.2.2.2.1.trans h.1), ?_⟩
        have hci : childIdsOf st x = [] := by
          simp only [childIdsOf, hfp, hfs, hfc]
          exact hchn
        intro c hc
        rw [hci] at hc
        cases hc
    | some seg =>
      obtain ⟨hsm, hsid⟩ := findSegment_some st x seg hfs
      have hchn : seg.childrenIds = [] := (h.2.2.1.1 seg hsm).2
      have hB : deleteEntity st x = eraseSeg st seg := by
        unfold deleteEntity
        exact deleteFuel_seg _ st x seg hfp hfs hchn
      rw [hB]
      have es := eraseSeg_step st seg h hsm
      refine ⟨es.1, clean_noDangling _ es.1,
        gone_not_resolves _ x (hsid ▸ es.2.2.1) (es.2.2.2.2.2.1.trans h.1), ?_⟩
      have hci : childIdsOf st x = [] := by
        simp only [childIdsOf, hfp, hfs]
        exact hchn
      intro c hc
      rw [hci] at hc
      cases hc
  | some p =>
    obtain ⟨hpm, hpid⟩ := findPoint_some st x p hfp
    obtain ⟨M, hM⟩ : ∃ M, st.points.length + st.segments.length + st.circles.length
        + st.arcs.length = M + 1 := by
      have : 0 < st.points.length := List.length_pos_of_mem hpm
      exact ⟨st.points.length + st.segments.length + st.circles.length + st.arcs.length - 1,
        by omega⟩
    have hchl : ∀ c ∈ p.childrenIds, ChildLike st c := by
      intro c hc
      rcases h.2.2.2.2.2.2 p hpm c hc with ⟨t, ht, htid, -⟩ | ⟨cc, hcc, hcid, -⟩
      · exact Or.inr (Or.inl (by rw [← htid]; exact findSegment_isSome_of_mem st t ht))
      · exact Or.inr (Or.inr (by rw [← hcid]; exact findCircle_isSome_of_mem st cc hcc))
    have hA : deleteEntity st x =
        { (p.childrenIds.foldl (fun a c => deleteEntityFuel (M + 1) a c) st) with
          points := (p.childrenIds.foldl (fun a c => deleteEntityFuel (M + 1) a c)
            st).points.filter (fun q => q.id ≠ x) } := by
      unfold deleteEntity
      rw [hM]
      exact deleteFuel_point M st x p hfp
    rw [hA]
    obtain ⟨m1, m2, m3, m4, m5, m6, m7, m8, m9⟩ := childFold_master M p.childrenIds st h hchl
    set st1 := p.childrenIds.foldl (fun a c => deleteEntityFuel (M + 1) a c) st with hst1
    have hptfil : ∀ q ∈ st1.points.filter (fun q => q.id ≠ x), q ∈ st1.points ∧ q.id ≠ x := by
      intro q hq
      have := List.mem_filter.mp hq
      exact ⟨this.1, by simpa using this.2⟩
    have hsegnx : ∀ t ∈ st1.segments, t.p1 ≠ x ∧ t.p2 ≠ x := by
      intro t ht
      have htm : t ∈ st.segments := m7 t ht
      obtain ⟨⟨pa, hpa, hpaid, hpach⟩, ⟨pb, hpb, hpbid, hpbch⟩⟩ := h.2.2.2.2.1 t htm
      have hgone : t.id ∈ p.childrenIds → False := by
        intro hmemch
        have hg := m3 t.id hmemch
        exact (findSegment_none_iff st1 t.id).mp hg.2.1 t ht rfl
      constructor
      · intro he
        have : pa = p := List.inj_on_of_nodup_map h.2.2.2.1.1 hpa hpm (by rw [hpaid, he, hpid])
        exact hgone (this ▸ hpach)
      · intro he
        have : pb = p := List.inj_on_of_nodup_map h.2.2.2.1.1 hpb hpm (by rw [hpbid, he, hpid])
        exact hgone (this ▸ hpbch)
    have hcircnx : ∀ cc ∈ st1.circles, cc.centerId ≠ some x ∧ x ∉ cc.pointIds := by
      intro cc hc
      have hcmm : cc ∈ st.circles := m8 cc hc
      obtain ⟨hcenter, hpids⟩ := h.2.2.2.2.2.1 cc hcmm
      have hgone : cc.id ∈ p.childrenIds → False := by
        intro hmemch
        have hg := m3 cc.id hmemch
        exact (findCircle_none_iff st1 cc.id).mp hg.2.2.1 cc hc rfl
      constructor
      · intro he
        rw [he] at hcenter
        obtain ⟨pa, hpa, hpaid, hpach⟩ := hcenter
        have : pa = p := List.inj_on_of_nodup_map h.2.2.2.1.1 hpa hpm (by rw [hpaid, hpid])
        exact hgone (this ▸ hpach)
      · intro he
        obtain ⟨pa, hpa, hpaid, hpach⟩ := hpids x he
        have : pa = p := List.inj_on_of_nodup_map h.2.2.2.1.1 hpa hpm (by rw [hpaid, hpid])
        exact hgone (this ▸ hpach)
    have hxnotchild : ∀ q ∈ st1.points, x ∉ q.childrenIds := by
      intro q hq hx
      obtain ⟨p0, hp0, -, hsub⟩ := m9 q hq
      rcases h.2.2.2.2.2.2 p0 hp0 x (hsub hx) with ⟨t, ht, htid, -⟩ | ⟨cc, hcc, hcid, -⟩
      · exact h.2.2.2.1.2.2.2.1 p hpm t ht (by rw [hpid, htid])
      · exact h.2.2.2.1.2.2.2.2.1 p hpm cc hcc (by rw [hpid, hcid])
    have hsegidnx : ∀ t ∈ st1.segments, t.id ≠ x := by
      intro t ht he
      exact h.2.2.2.1.2.2.2.1 p hpm t (m7 t ht) (by rw [hpid, he])
    have hcircidnx : ∀ cc ∈ st1.circles, cc.id ≠ x := by
      intro cc hc he
      exact h.2.2.2.1.2.2.2.2.1 p hpm cc (m8 cc hc) (by rw [hpid, he])
    obtain ⟨harc1, hcon1, hrel1, huniq1, hsb1, hcb1, hsound1⟩ := m1
    have hclean : CleanStore { st1 with
        points := st1.points.filter (fun q => q.id ≠ x) } := by
      refine ⟨harc1, hcon1, hrel1, ⟨?_, huniq1.2.1, huniq1.2.2.1, ?_, ?_, huniq1.2.2.2.2.2⟩,
        ?_, ?_, ?_⟩
      · exact huniq1.1.sublist ((List.filter_sublist st1.points).map Point.id)
      · exact fun q hq t ht => huniq1.2.2.2.1 q (hptfil q hq).1 t ht
      · exact fun q hq cc hc => huniq1.2.2.2.2.1 q (hptfil q hq).1 cc hc
      · intro t ht
        obtain ⟨⟨pa, hpa, hpaid, hpach⟩, ⟨pb, hpb, hpbid, hpbch⟩⟩ := hsb1 t ht
        obtain ⟨hnx1, hnx2⟩ := hsegnx t ht
        exact ⟨⟨pa, List.mem_filter.mpr ⟨hpa, by simp [hpaid, hnx1]⟩, hpaid, hpach⟩,
          ⟨pb, List.mem_filter.mpr ⟨hpb, by simp [hpbid, hnx2]⟩, hpbid, hpbch⟩⟩
      · intro cc hc
        obtain ⟨hcenter, hpids⟩ := hcb1 cc hc
        obtain ⟨hnx1, hnx2⟩ := hcircnx cc hc
        constructor
        · cases hcid : cc.centerId with
          | none => trivial
          | some pid =>
            rw [hcid] at hcenter
            obtain ⟨pa, hpa, hpaid, hpach⟩ := hcenter
            have hpidnx : pid ≠ x := fun he => hnx1 (by rw [hcid, he])
            exact ⟨pa, List.mem_filter.mpr ⟨hpa, by simp [hpaid, hpidnx]⟩, hpaid, hpach⟩
        · intro pid hpidm
          obtain ⟨pa, hpa, hpaid, hpach⟩ := hpids pid hpidm
          have hpidnx : pid ≠ x := fun he => hnx2 (he ▸ hpidm)
          exact ⟨pa, List.mem_filter.mpr ⟨hpa, by simp [hpaid, hpidnx]⟩, hpaid, hpach⟩
      · intro q hq cid hcid
        exact hsound1 q (hptfil q hq).1 cid hcid
    have hgoneR : Gone { st1 with points := st1.points.filter (fun q => q.id ≠ x) } x := by
      refine ⟨?_, ?_, ?_, ?_⟩
      · rw [findPoint_none_iff]
        exact fun q hq => (hptfil q hq).2
      · rw [findSegment_none_iff]
        exact hsegidnx
      · rw [findCircle_none_iff]
        exact hcircidnx
      · exact fun q hq => hxnotchild q (hptfil q hq).1
    have hRmono : ∀ i, Gone st1 i →
        Gone { st1 with points := st1.points.filter (fun q => q.id ≠ x) } i := by
      intro i hg
      refine ⟨?_, hg.2.1, hg.2.2.1, ?_⟩
      · rw [findPoint_none_iff]
        exact fun q hq => (findPoint_none_iff st1 i).mp hg.1 q (hptfil q hq).1
      · exact fun q hq => hg.2.2.2 q (hptfil q hq).1
    have harcR : ({ st1 with points := st1.points.filter (fun q => q.id ≠ x) }
        : GeometryState).arcs = [] := m5.trans h.1
    refine ⟨hclean, clean_noDangling _ hclean, gone_not_resolves _ x hgoneR harcR, ?_⟩
    have hci : childIdsOf st x = p.childrenIds := by simp only [childIdsOf, hfp]
    intro c hc
    rw [hci] at hc
    exact gone_not_resolves _ c (hRmono c (m3 c hc)) harcR

/-- C1 (amended), instantiated: the crossing-segments store is clean, and
deleting point `1` leaves a clean, dangling-free store in which neither
the point nor its child segment resolves. -/
theorem deleteEntity_clean_removes_witness :
    CleanStore stCross
    ∧ (CleanStore (deleteEntity stCross 1)
      ∧ NoDangling (deleteEntity stCross 1)
      ∧ ¬ ResolvesId (deleteEntity stCross 1) 1
      ∧ ∀ c ∈ childIdsOf stCross 1, ¬ ResolvesId (deleteEntity stCross 1) c) :=
  ⟨by decide, deleteEntity_clean_removes stCross 1 (by decide)⟩

/-- C1 counterexample: deleting point `3` from the store in which an arc
and a constraint reference `3` and segment `5` lists the deleted child
segment `6` leaves the arc and the constraint untouched and segment `5`
still holding `6` in `childrenIds`, even though neither `3` nor `6`
resolves any more — the store does contain dangling identifiers. -/
theorem deleteEntity_dangling_counterexample :
    (deleteEntity stDangling 3).arcs = [arcOnPoint3]
    ∧ (deleteEntity stDangling 3).constraints = [conOnPoint3]
    ∧ findSegment (deleteEntity stDangling 3) 5 = some segRefParent
    ∧ ¬ ResolvesId (deleteEntity stDangling 3) 3
    ∧ ¬ ResolvesId (deleteEntity stDangling 3) 6
    ∧ ¬ NoDangling (deleteEntity stDangling 3) := by decide
